import Mathlib

/-! # dops: labels, policies, zone routing, conflict resolution, sources, record grouping

A shallow embedding of

* `endpoint/labels.go`  (`NewLabelsFromString`, `Labels.Serialize`),
* `plan/policy.go`      (`Policies`, `SyncPolicy`, `UpsertOnlyPolicy`, `CreateOnlyPolicy`),
* `provider/zonefinder.go` (`ZoneIDName.FindZone`),
* `plan/conflict.go`    (`PerResource.ResolveCreate`, `PerResource.ResolveUpdate`),
* `source/multisource.go`, `source/dedupsource.go` (`multiSource.Endpoints`,
  `dedupSource.Endpoints`),
* `provider/recordfilter.go`, `provider/cloudflare/cloudflare.go` (`SupportedRecordType`,
  `groupByNameAndType`, `Zones`, `ApplyChanges`, `submitChanges`, `changesByZone`,
  `newCloudFlareChange`, `shouldBeProxied`, `AdjustEndpoints`),
* `provider/provider.go` (`Difference`), `provider/zone_id_filter.go` (`ZoneIDFilter.Match`),
* `registry/registry.go` (`filterOwnedRecords`), `dops/validation/validation.go`
  (`ValidateConfig`), `source/source.go` (`endpointsForHostname`),

and of the plan and the control loop as the spec describes them, followed by the theorems
about them.

Go strings are byte sequences.  A string is embedded as the list of its byte
values; the theorems quantify over all such lists.  A Go `map[string]string`
is embedded as the list of its entries, in the order in which a `range` loop
visits them; a map has pairwise distinct keys, and every order of the entries
is a possible iteration order.
-/

namespace Dops

deriving instance DecidableEq for Except

/-- A Go string: its bytes, in order. -/
abbrev Str := List Nat

/-- The bytes of an ASCII literal. -/
def str (s : String) : Str := s.toList.map Char.toNat

/-! ## The parts of the Go standard library used by the source -/

namespace strings

/-- Embedding of `strings.Split(s, sep)` for a separator of one byte (the source only
splits on `","` and `"="`): the pieces of `s` between the occurrences of `sep`;
a string without `sep`, the empty string included, gives one piece. -/
def Split (s : Str) (sep : Nat) : List Str := s.splitOn sep

/-- Embedding of `strings.Trim(s, cutset)` for a cutset of one byte (the source only
trims `"\""`): `s` without its leading and trailing bytes equal to `c`. -/
def Trim (s : Str) (c : Nat) : Str :=
  ((s.dropWhile (fun b => b == c)).reverse.dropWhile (fun b => b == c)).reverse

/-- Embedding of `strings.HasPrefix(s, p)`. -/
def HasPrefix (s p : Str) : Bool := p.isPrefixOf s

/-- Embedding of `strings.HasSuffix(s, p)`. -/
def HasSuffix (s p : Str) : Bool := p.isSuffixOf s

/-- Embedding of `strings.TrimPrefix(s, p)`: `s` without the leading `p`, or `s` itself when
`s` does not start with `p`. -/
def TrimPrefix (s p : Str) : Str := if HasPrefix s p then s.drop p.length else s

/-- Embedding of `strings.TrimSuffix(s, p)`: `s` without the trailing `p`, or `s` itself when
`s` does not end with `p`. -/
def TrimSuffix (s p : Str) : Str := if HasSuffix s p then s.take (s.length - p.length) else s

/-- Embedding of `strings.Contains(s, substr)`. -/
def Contains (s substr : Str) : Bool := decide (substr <:+: s)

/-- Embedding of `strings.Join(elems, sep)`. -/
def Join (elems : List Str) (sep : Str) : Str := sep.intercalate elems

end strings

namespace sort

/-- Embedding of `sort.Strings`: the strings in ascending byte-wise lexicographic order. -/
def Strings (keys : List Str) : List Str := keys.insertionSort (fun a b => a ≤ b)

end sort

/-- A Go `map[string]string`: its entries, in iteration order. -/
abbrev GoMap := List (Str × Str)

namespace GoMap

/-- The keys of the map, in iteration order. -/
def keys (m : GoMap) : List Str := m.map Prod.fst

/-- The entry stored under `k`, if there is one. -/
def find? (m : GoMap) (k : Str) : Option Str := m.lookup k

/-- Go `m[k]` as an expression: the value under `k`, the empty string when `k` is absent. -/
def get (m : GoMap) (k : Str) : Str := (m.lookup k).getD []

/-- Go `m[k] = v`: overwrite the value of an existing key, or add a new entry. -/
def set (m : GoMap) (k v : Str) : GoMap :=
  if k ∈ m.keys then m.map (fun e => if e.1 = k then (k, v) else e) else m ++ [(k, v)]

/-- A well-formed Go map does not hold a key twice. -/
def WellFormed (m : GoMap) : Prop := m.keys.Nodup

instance (m : GoMap) : Decidable m.WellFormed := by
  unfold WellFormed; infer_instance

end GoMap

/-! ## endpoint/labels.go -/

namespace endpoint

/-- The errors of package `endpoint`. -/
inductive Error where
  | ErrInvalidOrigin
  deriving DecidableEq, Repr

/-- The constant `origin`. -/
def origin : Str := str "dops"

/-- The type `Labels map[string]string`. -/
abbrev Labels := GoMap

/-- The loop of `NewLabelsFromString` over the tokens still to visit, with the loop
state `endpointLabels`, `foundExternalDNSOrigin`, followed by the code after the loop. -/
def NewLabelsFromString.loop :
    List Str → Labels → Bool → Except Error Labels
  | [], endpointLabels, foundExternalDNSOrigin =>
    if !foundExternalDNSOrigin then .error Error.ErrInvalidOrigin
    else .ok endpointLabels
  | token :: tokens, endpointLabels, foundExternalDNSOrigin =>
    if (strings.Split token 61).length ≠ 2 then
      NewLabelsFromString.loop tokens endpointLabels foundExternalDNSOrigin
    else
      let key := (strings.Split token 61).getD 0 []
      let val := (strings.Split token 61).getD 1 []
      if key = str "origin" ∧ val ≠ origin then .error Error.ErrInvalidOrigin
      else if key = str "origin" then
        NewLabelsFromString.loop tokens endpointLabels true
      else if strings.HasPrefix key origin then
        NewLabelsFromString.loop tokens
          (endpointLabels.set (strings.TrimPrefix key (origin ++ str "/")) val)
          foundExternalDNSOrigin
      else
        NewLabelsFromString.loop tokens endpointLabels foundExternalDNSOrigin

/-- The tokens `NewLabelsFromString` iterates over: the text without its leading and
trailing double quotes (byte 34), split on `","` (byte 44). -/
def NewLabelsFromString.tokens (labelText : Str) : List Str :=
  strings.Split (strings.Trim labelText 34) 44

/-- Embedding of `NewLabelsFromString`: `.error ErrInvalidOrigin` is the return
`nil, ErrInvalidOrigin`, and `.ok m` is `m, nil`. -/
def NewLabelsFromString (labelText : Str) : Except Error Labels :=
  NewLabelsFromString.loop (NewLabelsFromString.tokens labelText) [] false

/-- The token `Serialize` writes for the key `key`: `fmt.Sprintf("%s/%s=%s", origin, key, l[key])`. -/
def Labels.token (l : Labels) (key : Str) : Str :=
  origin ++ str "/" ++ key ++ str "=" ++ l.get key

/-- Embedding of `Labels.Serialize`. -/
def Labels.Serialize (l : Labels) (withQuotes : Bool) : Str :=
  let tokens : List Str := [str "origin=" ++ origin]
  let keys := sort.Strings l.keys
  let tokens := tokens ++ keys.map (fun key => Labels.token l key)
  if withQuotes then str "\"" ++ strings.Join tokens (str ",") ++ str "\""
  else strings.Join tokens (str ",")

/-- The map the loop of `NewLabelsFromString` reaches from `m` after the assignments
`m[k] = l[k]` for the keys `ks` in turn. -/
def storeAll (l : Labels) (ks : List Str) (m : Labels) : Labels :=
  ks.foldl (fun acc k => acc.set k (l.get k)) m

/-- The text the spec gives for a label map with the entries `es`: `origin=dops`, then
`,dops/<key>=<value>` for each entry in turn. -/
def wireContent (es : List (Str × Str)) : Str :=
  str "origin=dops" ++ (es.map (fun e => str ",dops/" ++ e.1 ++ str "=" ++ e.2)).flatten

end endpoint

/-! ## plan/policy.go -/

namespace plan

/-- Modelled from the spec: the declaration of `Changes` (package `plan`) is not part of the
sources at hand.  The spec gives it as a record of four ordered sequences of endpoints,
`Create`, `UpdateOld`, `UpdateNew` and `Delete`; the type of endpoints is left open.  A field
that a Go composite literal leaves out holds the zero value, the empty sequence. -/
structure Changes (Endpoint : Type) where
  /-- Records to create. -/
  Create : List Endpoint := []
  /-- Records before their update. -/
  UpdateOld : List Endpoint := []
  /-- Records after their update. -/
  UpdateNew : List Endpoint := []
  /-- Records to delete. -/
  Delete : List Endpoint := []

/-- Embedding of `SyncPolicy.Apply`. -/
def SyncPolicy.Apply {Endpoint : Type} (changes : Changes Endpoint) : Changes Endpoint :=
  changes

/-- Embedding of `UpsertOnlyPolicy.Apply`. -/
def UpsertOnlyPolicy.Apply {Endpoint : Type} (changes : Changes Endpoint) : Changes Endpoint :=
  { Create := changes.Create
    UpdateOld := changes.UpdateOld
    UpdateNew := changes.UpdateNew }

/-- Embedding of `CreateOnlyPolicy.Apply`. -/
def CreateOnlyPolicy.Apply {Endpoint : Type} (changes : Changes Endpoint) : Changes Endpoint :=
  { Create := changes.Create }

/-- The implementations of the interface `Policy`. -/
inductive Policy where
  | SyncPolicy
  | UpsertOnlyPolicy
  | CreateOnlyPolicy
  deriving DecidableEq, Repr

/-- The method `Apply` of the interface `Policy`. -/
def Policy.Apply {Endpoint : Type} : Policy → Changes Endpoint → Changes Endpoint
  | .SyncPolicy => SyncPolicy.Apply
  | .UpsertOnlyPolicy => UpsertOnlyPolicy.Apply
  | .CreateOnlyPolicy => CreateOnlyPolicy.Apply

/-- The registry `Policies`, a `map[string]Policy`, as the list of its entries. -/
def Policies : List (Str × Policy) :=
  [ (str "sync", Policy.SyncPolicy),
    (str "upsert-only", Policy.UpsertOnlyPolicy),
    (str "create-only", Policy.CreateOnlyPolicy) ]

/-- The lookup in `main` (`policy, exists := plan.Policies[cfg.Policy]`, then
`log.Fatalf("invalid policy: %s", cfg.Policy)` when `exists` is false): the policy of that
name, or the message the process dies with. -/
def lookupPolicy (name : Str) : Except Str Policy :=
  match Policies.lookup name with
  | some policy => .ok policy
  | none => .error (str "invalid policy: " ++ name)

end plan

/-! ## provider/zonefinder.go -/

namespace provider

/-- The type `ZoneIDName map[string]string`: zone ID to zone name. -/
abbrev ZoneIDName := GoMap

/-- The body of the loop of `FindZone` for the entry `(zoneID, zoneName)`, on the named
results `(suitableZoneID, suitableZoneName)`; byte 46 is `.`. -/
def ZoneIDName.FindZone.step (hostname : Str) (suitable : Str × Str) (entry : Str × Str) :
    Str × Str :=
  if hostname = entry.2 ∨ strings.HasSuffix hostname (str "." ++ entry.2) = true then
    if suitable.2 = [] ∨ entry.2.length > suitable.2.length then (entry.1, entry.2)
    else suitable
  else suitable

/-- Embedding of `ZoneIDName.FindZone`: the loop runs over the entries in iteration order,
starting from the zero values of the two named results. -/
def ZoneIDName.FindZone (z : ZoneIDName) (hostname : Str) : Str × Str :=
  z.foldl (ZoneIDName.FindZone.step hostname) ([], [])

/-- The zone name `zoneName` suits `hostname`: they are equal, or `hostname` ends with
`"." + zoneName`. -/
def Suits (hostname zoneName : Str) : Prop :=
  hostname = zoneName ∨ ∃ p : Str, hostname = p ++ str "." ++ zoneName

/-- The loop invariant of `FindZone`, after the entries `seen`: the results are still the
zero values and no entry suited, or they are a suiting entry of greatest name length. -/
def FindZone.Inv (hostname : Str) (seen : List (Str × Str)) (s : Str × Str) : Prop :=
  (s = ([], []) ∧ ∀ e ∈ seen, ¬ Suits hostname e.2) ∨
  (s ∈ seen ∧ Suits hostname s.2 ∧ ∀ e ∈ seen, Suits hostname e.2 → e.2.length ≤ s.2.length)

end provider

/-! ## endpoint: the record type used by the packages below -/

namespace endpoint

/-- The type `Targets []string`. -/
abbrev Targets := List Str

/-- Modelled from the spec: the declaration of `Endpoint` (package `endpoint`) is not part of
the sources at hand.  The spec's data model gives its attributes: `DNSName`, `Targets`,
`RecordType`, `RecordTTL` (signed integer seconds), `Labels`, `SetIdentifier` and
`ProviderSpecific`, an ordered sequence of (name, value) pairs. -/
structure Endpoint where
  /-- The name of the record. -/
  DNSName : Str
  /-- The targets the record points to, in order. -/
  Targets : Targets
  /-- The type of the record. -/
  RecordType : Str
  /-- The TTL of the record, in seconds. -/
  RecordTTL : Int
  /-- The ownership labels. -/
  Labels : Labels
  /-- The identifier that tells record sets of one name apart. -/
  SetIdentifier : Str
  /-- The provider-dependent properties, as (name, value) pairs. -/
  ProviderSpecific : List (Str × Str)
  deriving DecidableEq, Repr

/-- Modelled from the spec: `Targets.IsLess` (package `endpoint`) is not part of the sources
at hand; only its call in `PerResource.less` is.  The spec defines the order: "a total order
less-than is defined by lexicographic comparison of the sorted targets".  Targets are sorted
as strings (`sort.Strings`), and the sorted sequences are compared lexicographically, their
elements by the byte-wise order of strings. -/
def Targets.IsLess (t o : Targets) : Bool :=
  decide (sort.Strings t < sort.Strings o)

/-- Embedding of `NewLabels`: the empty label map. -/
def NewLabels : Labels := []

/-- Modelled from the spec: `NewEndpointWithTTL` (package `endpoint`) is not part of the
sources at hand; only its call in `groupByNameAndType` is.  It builds the endpoint of the
spec's data model from its arguments: the name with its trailing dot stripped
("`DNSName`: fully-qualified domain name, trailing dot stripped"), the record type, the TTL
and the targets in the order given; labels, set identifier and provider-specific properties
are empty. -/
def NewEndpointWithTTL (dnsName recordType : Str) (ttl : Int) (targets : List Str) : Endpoint :=
  { DNSName := strings.TrimSuffix dnsName (str ".")
    Targets := targets
    RecordType := recordType
    RecordTTL := ttl
    Labels := NewLabels
    SetIdentifier := []
    ProviderSpecific := [] }

/-- Modelled from the spec: `Endpoint.WithProviderSpecific` (package `endpoint`) is not part
of the sources at hand.  `ProviderSpecific` being an "ordered sequence of (name, value)
pairs", it adds the pair `(key, value)` at the end of that sequence. -/
def Endpoint.WithProviderSpecific (e : Endpoint) (key value : Str) : Endpoint :=
  { e with ProviderSpecific := e.ProviderSpecific ++ [(key, value)] }

end endpoint

/-! ## Endpoints for the examples -/

namespace endpoint

/-- An `A` endpoint with the given name, targets and `resource` label, for the examples. -/
def exampleEndpoint (dnsName : Str) (targets : List Str) (resource : Str) : Endpoint :=
  { DNSName := dnsName
    Targets := targets
    RecordType := str "A"
    RecordTTL := 0
    Labels := [(str "resource", resource)]
    SetIdentifier := []
    ProviderSpecific := [] }

end endpoint

/-! ## plan/conflict.go -/

namespace plan

open endpoint

/-- Embedding of `PerResource.less`. -/
def PerResource.less (x y : Endpoint) : Bool :=
  x.Targets.IsLess y.Targets

/-- The loop of `PerResource.ResolveCreate` over the candidates still to visit; `min` is
`none` for the nil pointer. -/
def PerResource.ResolveCreate.loop : List Endpoint → Option Endpoint → Option Endpoint
  | [], min => min
  | ep :: candidates, none => PerResource.ResolveCreate.loop candidates (some ep)
  | ep :: candidates, some min =>
    if PerResource.less ep min then PerResource.ResolveCreate.loop candidates (some ep)
    else PerResource.ResolveCreate.loop candidates (some min)

/-- Embedding of `PerResource.ResolveCreate`; `none` is the nil pointer. -/
def PerResource.ResolveCreate (candidates : List Endpoint) : Option Endpoint :=
  PerResource.ResolveCreate.loop candidates none

/-- Embedding of `sort.SliceStable(candidates, less)` with the `less` of `PerResource`: the
candidates in ascending order, candidates of which neither is less than the other keeping
their original order (insertion sort puts a candidate in front of the first one that is not
less than it). -/
def PerResource.sortStable (candidates : List Endpoint) : List Endpoint :=
  candidates.insertionSort (fun a b => PerResource.less b a = false)

/-- Embedding of `PerResource.ResolveUpdate`: the label `resource` of `current`, the stable
sort of the candidates, the first candidate with that label if there is one, and
`ResolveCreate` on the sorted candidates otherwise. -/
def PerResource.ResolveUpdate (current : Endpoint) (candidates : List Endpoint) :
    Option Endpoint :=
  let currentResource := current.Labels.get (str "resource")
  let candidates := PerResource.sortStable candidates
  match candidates.find? (fun ep => decide (ep.Labels.get (str "resource") = currentResource)) with
  | some ep => some ep
  | none => PerResource.ResolveCreate candidates

end plan

/-! ## source/source.go, source/multisource.go, source/dedupsource.go -/

namespace source

open endpoint

/-- A Go `error` value, by its message. -/
abbrev GoError := Str

/-- The interface `Source`, by its method `Endpoints`.  A call reads and changes the state
of the world the source lives in (type `World`), and returns the endpoints or an error. -/
structure Source (World : Type) where
  /-- The method `Endpoints(ctx)`. -/
  Endpoints : World → Except GoError (List Endpoint) × World

/-- The assignment `endpoints[i].Targets = ms.defaultTargets`, for every `i`, under the
guard `len(ms.defaultTargets) > 0` of `multiSource.Endpoints`. -/
def multiSource.applyDefaultTargets (defaultTargets : List Str) (endpoints : List Endpoint) :
    List Endpoint :=
  if defaultTargets.length > 0 then
    endpoints.map (fun ep => { ep with Targets := defaultTargets })
  else endpoints

/-- The loop of `multiSource.Endpoints` over the children still to query, with the
endpoints collected in `result`. -/
def multiSource.Endpoints.loop {World : Type} (defaultTargets : List Str) :
    List (Source World) → List Endpoint → World → Except GoError (List Endpoint) × World
  | [], result, w => (.ok result, w)
  | s :: children, result, w =>
    match s.Endpoints w with
    | (.error err, w1) => (.error err, w1)
    | (.ok endpoints, w1) =>
      multiSource.Endpoints.loop defaultTargets children
        (result ++ multiSource.applyDefaultTargets defaultTargets endpoints) w1

/-- Embedding of `multiSource.Endpoints`, for the fields `children` and `defaultTargets`. -/
def multiSource.Endpoints {World : Type} (children : List (Source World))
    (defaultTargets : List Str) (w : World) : Except GoError (List Endpoint) × World :=
  multiSource.Endpoints.loop defaultTargets children [] w

/-- The identifier `dedupSource.Endpoints` computes for an endpoint,
`ep.DNSName + " / " + ep.SetIdentifier + " / " + ep.Targets.String()`.  The method
`Targets.String` is not part of the sources at hand and is the parameter `targetsString`. -/
def dedupSource.identifier (targetsString : Targets → Str) (ep : Endpoint) : Str :=
  ep.DNSName ++ str " / " ++ ep.SetIdentifier ++ str " / " ++ targetsString ep.Targets

/-- The loop of `dedupSource.Endpoints` over the endpoints still to visit; `collected` holds
the keys of the map `collected`, `result` the endpoints kept. -/
def dedupSource.Endpoints.loop (targetsString : Targets → Str) :
    List Endpoint → List Str → List Endpoint → List Endpoint
  | [], _, result => result
  | ep :: endpoints, collected, result =>
    if dedupSource.identifier targetsString ep ∈ collected then
      dedupSource.Endpoints.loop targetsString endpoints collected result
    else
      dedupSource.Endpoints.loop targetsString endpoints
        (dedupSource.identifier targetsString ep :: collected) (result ++ [ep])

/-- Embedding of `dedupSource.Endpoints`, for the field `source`. -/
def dedupSource.Endpoints {World : Type} (targetsString : Targets → Str)
    (source : Source World) (w : World) : Except GoError (List Endpoint) × World :=
  match source.Endpoints w with
  | (.error err, w1) => (.error err, w1)
  | (.ok endpoints, w1) => (.ok (dedupSource.Endpoints.loop targetsString endpoints [] []), w1)

/-- The children of `multiSource` queried one after the other from the state `w`: the
endpoint lists they return and the state they leave, when each of them succeeds. -/
def queryAll {World : Type} : List (Source World) → World → Option (List (List Endpoint) × World)
  | [], w => some ([], w)
  | s :: children, w =>
    match s.Endpoints w with
    | (.error _, _) => none
    | (.ok endpoints, w1) =>
      match queryAll children w1 with
      | none => none
      | some (lists, w2) => some (endpoints :: lists, w2)

end source

/-! ## Sources for the examples -/

namespace source

open endpoint

/-- A source for the examples: the state of the world is the list of the numbers of the
sources queried so far; the source number `n` adds `n` to it and returns `outcome`. -/
def exampleSource (n : Nat) (outcome : Except GoError (List Endpoint)) : Source (List Nat) :=
  { Endpoints := fun w => (outcome, w ++ [n]) }

end source

/-! ## provider/recordfilter.go, provider/cloudflare/cloudflare.go -/

namespace provider

open endpoint

/-- Embedding of `SupportedRecordType`. -/
def SupportedRecordType (recordType : Str) : Bool :=
  if recordType = str "A" ∨ recordType = str "CNAME" ∨ recordType = str "SRV" ∨
      recordType = str "TXT" ∨ recordType = str "NS" then true
  else false

namespace cloudflare

/-- The fields of `cf.DNSRecord` (the Cloudflare client library) that the provider reads
or writes. -/
structure DNSRecord where
  /-- The name of the record. -/
  Name : Str
  /-- The field `Type`: the type of the record. -/
  Type_ : Str
  /-- The content of the record: one target. -/
  Content : Str
  /-- The TTL of the record. -/
  TTL : Int
  /-- The flag of the Cloudflare proxy. -/
  Proxied : Bool
  /-- The identifier Cloudflare gives the record; empty, the zero value, when not set. -/
  ID : Str := []
  deriving DecidableEq, Repr, Inhabited

/-- A Go `map[string][]cf.DNSRecord`: its entries. -/
abbrev Groups := List (Str × List DNSRecord)

/-- Go `groups[k]` as an expression: the records under `k`, none when `k` is absent. -/
def Groups.get (groups : Groups) (k : Str) : List DNSRecord := (groups.lookup k).getD []

/-- Go `groups[k] = v`: overwrite the value of an existing key, or add a new entry. -/
def Groups.set (groups : Groups) (k : Str) (v : List DNSRecord) : Groups :=
  if k ∈ groups.map Prod.fst then groups.map (fun e => if e.1 = k then (k, v) else e)
  else groups ++ [(k, v)]

/-- The body of the first loop of `groupByNameAndType` for the record `r`. -/
def groupByNameAndType.step (groups : Groups) (r : DNSRecord) : Groups :=
  if !SupportedRecordType r.Type_ then groups
  else
    let groupBy := r.Name ++ r.Type_
    let groups := if groupBy ∈ groups.map Prod.fst then groups else groups.set groupBy []
    groups.set groupBy (groups.get groupBy ++ [r])

/-- The first loop of `groupByNameAndType`: the map `groups`. -/
def groupByNameAndType.groups (records : List DNSRecord) : Groups :=
  records.foldl groupByNameAndType.step []

/-- Embedding of `strconv.FormatBool`. -/
def FormatBool (b : Bool) : Str := if b then str "true" else str "false"

/-- The constant `source.CloudflareProxiedKey`. -/
def CloudflareProxiedKey : Str := str "dops/cloudflare-proxied"

/-- The body of the second loop of `groupByNameAndType` for the map value `records`: the
endpoint appended to `endpoints`.  `records[0]` is the first record (a group is never
empty). -/
def groupByNameAndType.endpointOf (records : List DNSRecord) : Endpoint :=
  let targets := records.map (fun record => record.Content)
  (NewEndpointWithTTL (records.headD default).Name (records.headD default).Type_
      (records.headD default).TTL targets).WithProviderSpecific
    CloudflareProxiedKey (FormatBool (records.headD default).Proxied)

/-- Embedding of `groupByNameAndType`.  The second loop ranges over the map `groups`, in an
order the Go runtime chooses: `visit` gives, for a map, its entries in the order of that
iteration (a permutation of the entries). -/
def groupByNameAndType (visit : Groups → Groups) (records : List DNSRecord) : List Endpoint :=
  (visit (groupByNameAndType.groups records)).map (fun e => groupByNameAndType.endpointOf e.2)

/-- The invariant of the first loop of `groupByNameAndType`, after the records `processed`:
the keys of `groups` are distinct, the value under a key holds the processed records of
supported type with that key, in input order, and is not empty, and the key of every
processed record of supported type is in the map. -/
def groupByNameAndType.Inv (processed : List DNSRecord) (groups : Groups) : Prop :=
  (groups.map Prod.fst).Nodup ∧
  (∀ e ∈ groups,
    e.2 = processed.filter
        (fun r => SupportedRecordType r.Type_ && decide (r.Name ++ r.Type_ = e.1)) ∧
    e.2 ≠ []) ∧
  (∀ r ∈ processed, SupportedRecordType r.Type_ = true → r.Name ++ r.Type_ ∈ groups.map Prod.fst)

/-- The distinct `(Name, Type)` pairs of the records of supported type. -/
def distinctPairs (records : List DNSRecord) : List (Str × Str) :=
  ((records.filter (fun r => SupportedRecordType r.Type_)).map
    (fun r => (r.Name, r.Type_))).dedup

/-- The records with the name and the type of the pair `p`, in input order. -/
def recordsOf (records : List DNSRecord) (p : Str × Str) : List DNSRecord :=
  records.filter (fun r => decide (r.Name = p.1 ∧ r.Type_ = p.2))

/-- A record with the given name, type and content, for the examples. -/
def exampleRecord (name type content : Str) : DNSRecord :=
  { Name := name, Type_ := type, Content := content, TTL := 300, Proxied := false }

end cloudflare

end provider

/-! ## registry/registry.go -/

namespace registry

open endpoint

/-- The constant `endpoint.OwnerLabelKey`. -/
def OwnerLabelKey : Str := str "owner"

/-- The loop of `filterOwnedRecords` over the endpoints still to visit, with the endpoints
kept in `filtered`.  `ep.Labels[endpoint.OwnerLabelKey]` with its flag `ok` is the lookup
`find?`: `none` when the key is absent. -/
def filterOwnedRecords.loop (ownerID : Str) : List Endpoint → List Endpoint → List Endpoint
  | [], filtered => filtered
  | ep :: eps, filtered =>
    match ep.Labels.find? OwnerLabelKey with
    | none => filterOwnedRecords.loop ownerID eps filtered
    | some endpointOwner =>
      if endpointOwner ≠ ownerID then filterOwnedRecords.loop ownerID eps filtered
      else filterOwnedRecords.loop ownerID eps (filtered ++ [ep])

/-- Embedding of `filterOwnedRecords`. -/
def filterOwnedRecords (ownerID : Str) (eps : List Endpoint) : List Endpoint :=
  filterOwnedRecords.loop ownerID eps []

end registry

/-! ## dops/types.go, dops/validation/validation.go -/

namespace dops

/-- The fields of `Config` that `ValidateConfig` reads. -/
structure Config where
  /-- The field `LogFormat`. -/
  LogFormat : Str
  /-- The field `Sources`. -/
  Sources : List Str
  /-- The field `Provider`. -/
  Provider : Str
  /-- The field `TXTPrefix`. -/
  TXTPrefix : Str
  /-- The field `TXTSuffix`. -/
  TXTSuffix : Str
  deriving DecidableEq, Repr

namespace validation

/-- Embedding of `ValidateConfig`: `none` is the nil error, `some msg` the error with the
message `msg`. -/
def ValidateConfig (cfg : Config) : Option Str :=
  if cfg.LogFormat ≠ str "text" ∧ cfg.LogFormat ≠ str "json" then
    some (str "unsupported log format: " ++ cfg.LogFormat)
  else if cfg.Sources.length = 0 then
    some (str "no sources specified")
  else if cfg.Provider = str "" then
    some (str "no provider specified")
  else if cfg.TXTPrefix.length > 0 ∧ cfg.TXTSuffix.length > 0 then
    some (str "txt-prefix and txt-suffix are mutually exclusive")
  else none

end validation

end dops

/-! ## provider/provider.go, and the endpoints in provider/cloudflare/cloudflare.go -/

namespace strconv

/-- Embedding of `strconv.ParseBool`: the boolean a string stands for, `none` for the
error; the strings accepted are `1`, `t`, `T`, `TRUE`, `true`, `True` and `0`, `f`, `F`,
`FALSE`, `false`, `False`. -/
def ParseBool (s : Str) : Option Bool :=
  if s ∈ [str "1", str "t", str "T", str "TRUE", str "true", str "True"] then some true
  else if s ∈ [str "0", str "f", str "F", str "FALSE", str "false", str "False"] then
    some false
  else none

end strconv

namespace provider

open endpoint

/-- Go `delete(index, x)` on a `map[string]struct{}` held as the list of its keys. -/
def Difference.delete (index : List Str) (x : Str) : List Str :=
  index.filter (fun k => decide (k ≠ x))

/-- Go `index[x] = struct{}{}` on a `map[string]struct{}` held as the list of its keys. -/
def Difference.insert (index : List Str) (x : Str) : List Str :=
  if x ∈ index then index else index ++ [x]

/-- The second loop of `Difference`, over the entries of `desired` still to visit, with the
state `add`, `leave`, `index`. -/
def Difference.loop : List Str → List Str → List Str → List Str →
    List Str × List Str × List Str
  | [], add, leave, index => (add, leave, index)
  | x :: desired, add, leave, index =>
    if x ∈ index then
      Difference.loop desired add (leave ++ [x]) (Difference.delete index x)
    else
      Difference.loop desired (add ++ [x]) leave (Difference.delete index x)

/-- Embedding of `Difference`: the triple `(add, remove, leave)`.  The last loop ranges over
the map `index` in an order the Go runtime chooses: `visit` gives, for the keys of a map,
the keys in the order of that iteration (a permutation of the keys). -/
def Difference (visit : List Str → List Str) (current desired : List Str) :
    List Str × List Str × List Str :=
  let index := current.foldl Difference.insert []
  let (add, leave, index) := Difference.loop desired [] [] index
  let remove := visit index
  (add, remove, leave)

namespace cloudflare

/-- The keys of the map `cloudFlareTypeNotSupported` (all with the value `true`). -/
def cloudFlareTypeNotSupported : List Str :=
  [str "LOC", str "MX", str "NS", str "SPF", str "TXT", str "SRV"]

/-- The loop of `shouldBeProxied` over the provider-specific properties: it stops at the
first property named `source.CloudflareProxiedKey`. -/
def shouldBeProxied.loop : List (Str × Str) → Bool → Bool
  | [], proxied => proxied
  | v :: rest, proxied =>
    if v.1 = CloudflareProxiedKey then
      match strconv.ParseBool v.2 with
      | none => proxied
      | some b => b
    else shouldBeProxied.loop rest proxied

/-- Embedding of `shouldBeProxied`. -/
def shouldBeProxied (e : Endpoint) (proxiedByDefault : Bool) : Bool :=
  let proxied := shouldBeProxied.loop e.ProviderSpecific proxiedByDefault
  if e.RecordType ∈ cloudFlareTypeNotSupported ∨ strings.Contains e.DNSName (str "*") = true
  then false
  else proxied

/-- The loop of `CloudFlareProvider.AdjustEndpoints` over the endpoints still to visit, with
the endpoints collected in `adjustedEndpoints`; `proxiedByDefault` is the field of the
provider. -/
def AdjustEndpoints.loop (proxiedByDefault : Bool) :
    List Endpoint → List Endpoint → List Endpoint
  | [], adjustedEndpoints => adjustedEndpoints
  | e :: endpoints, adjustedEndpoints =>
    if shouldBeProxied e proxiedByDefault then
      AdjustEndpoints.loop proxiedByDefault endpoints
        (adjustedEndpoints ++ [{ e with RecordTTL := 0 }])
    else
      AdjustEndpoints.loop proxiedByDefault endpoints (adjustedEndpoints ++ [e])

/-- Embedding of `CloudFlareProvider.AdjustEndpoints`. -/
def AdjustEndpoints (proxiedByDefault : Bool) (endpoints : List Endpoint) : List Endpoint :=
  AdjustEndpoints.loop proxiedByDefault endpoints []

end cloudflare

end provider

/-! ## provider/zone_id_filter.go, and the API calls of provider/cloudflare/cloudflare.go -/

/-- A Go `map[string]V`: its entries, with pairwise distinct keys. -/
abbrev MapOf (V : Type) := List (Str × V)

/-- Go `m[k]` as an expression: the value under `k`, the zero value `zero` when `k` is
absent. -/
def MapOf.index {V : Type} (m : MapOf V) (k : Str) (zero : V) : V := (m.lookup k).getD zero

/-- Go `m[k] = v`: overwrite the value of an existing key, or add a new entry. -/
def MapOf.set {V : Type} (m : MapOf V) (k : Str) (v : V) : MapOf V :=
  if k ∈ m.map Prod.fst then m.map (fun e => if e.1 = k then (k, v) else e) else m ++ [(k, v)]

namespace endpoint

/-- Modelled from the spec: `TTL.IsConfigured` (package `endpoint`) is not part of the
sources at hand.  The spec has the value 0 of `RecordTTL` mean "unset, use provider
default" and speaks of a TTL that "is configured (>0)". -/
def TTL.IsConfigured (ttl : Int) : Bool := decide (ttl > 0)

end endpoint

namespace provider

/-- The type `ZoneIDFilter`. -/
structure ZoneIDFilter where
  /-- The field `ZoneIDs`. -/
  ZoneIDs : List Str
  deriving DecidableEq, Repr

namespace cloudflare

open endpoint

/-- The constant `cloudFlareCreate`. -/
def cloudFlareCreate : Str := str "CREATE"

/-- The constant `cloudFlareDelete`. -/
def cloudFlareDelete : Str := str "DELETE"

/-- The constant `cloudFlareUpdate`. -/
def cloudFlareUpdate : Str := str "UPDATE"

/-- The constant `defaultCloudFlareRecordTTL`. -/
def defaultCloudFlareRecordTTL : Int := 1

/-- The fields of `cf.Zone` that the provider reads. -/
structure Zone where
  /-- The identifier of the zone. -/
  ID : Str
  /-- The name of the zone. -/
  Name : Str
  deriving DecidableEq, Repr

/-- The type `cf.PaginationOptions`. -/
structure PaginationOptions where
  /-- The page asked for. -/
  Page : Int
  /-- The number of zones per page. -/
  PerPage : Int
  deriving DecidableEq, Repr

/-- The fields of `cf.ZonesResponse` that the provider reads: `Result` and
`ResultInfo.TotalPages`. -/
structure ZonesResponse where
  /-- The zones of the page. -/
  Result : List Zone
  /-- The number of pages. -/
  TotalPages : Int
  deriving DecidableEq, Repr

/-- The type `cloudFlareChange`. -/
structure cloudFlareChange where
  /-- One of `CREATE`, `UPDATE`, `DELETE`. -/
  Action : Str
  /-- The record to create, update or delete. -/
  ResourceRecord : DNSRecord
  deriving DecidableEq, Repr

/-- A call of a method of the interface `cloudFlareDNS`, with its arguments. -/
inductive Call where
  | ZoneDetails (zoneID : Str)
  | ListZonesContext (opts : PaginationOptions)
  | DNSRecords (zoneID : Str)
  | CreateDNSRecord (zoneID : Str) (rr : DNSRecord)
  | DeleteDNSRecord (zoneID recordID : Str)
  | UpdateDNSRecord (zoneID recordID : Str) (rr : DNSRecord)
  deriving DecidableEq, Repr

/-- The calls that change records: `CreateDNSRecord`, `UpdateDNSRecord`, `DeleteDNSRecord`. -/
def Call.isMutator : Call → Bool
  | .CreateDNSRecord _ _ => true
  | .DeleteDNSRecord _ _ => true
  | .UpdateDNSRecord _ _ _ => true
  | _ => false

/-- The methods of the interface `cloudFlareDNS` that the provider calls.  A call reads and
changes the state of Cloudflare (type `World`); each call may fail: `Except.error`, or
`some err` for the methods that return only an error. -/
structure cloudFlareDNS (World : Type) where
  /-- The method `ZoneDetails(zoneID)`. -/
  ZoneDetails : Str → World → Except source.GoError Zone × World
  /-- The method `ListZonesContext(ctx, cf.WithPagination(opts))`. -/
  ListZonesContext : PaginationOptions → World → Except source.GoError ZonesResponse × World
  /-- The method `DNSRecords(zoneID, cf.DNSRecord{})`. -/
  DNSRecords : Str → World → Except source.GoError (List DNSRecord) × World
  /-- The method `CreateDNSRecord(zoneID, rr)`; the response is not read. -/
  CreateDNSRecord : Str → DNSRecord → World → Option source.GoError × World
  /-- The method `DeleteDNSRecord(zoneID, recordID)`. -/
  DeleteDNSRecord : Str → Str → World → Option source.GoError × World
  /-- The method `UpdateDNSRecord(zoneID, recordID, rr)`. -/
  UpdateDNSRecord : Str → Str → DNSRecord → World → Option source.GoError × World

/-- The type `CloudFlareProvider`.  The type `endpoint.DomainFilter` is not part of the
sources at hand: the field `domainFilter` is held by its method `Match`.  The page of
`PaginationOptions`, which `Zones` writes, is part of `ProviderState`. -/
structure CloudFlareProvider (World : Type) where
  /-- The field `Client`. -/
  Client : cloudFlareDNS World
  /-- The method `Match` of the field `domainFilter`. -/
  domainFilter : Str → Bool
  /-- The field `zoneIDFilter`. -/
  zoneIDFilter : ZoneIDFilter
  /-- The field `proxiedByDefault`. -/
  proxiedByDefault : Bool
  /-- The field `DryRun`. -/
  DryRun : Bool
  /-- The field `PaginationOptions.PerPage`. -/
  PerPage : Int

/-- What a run of the provider reads and writes: the state of Cloudflare, the field
`PaginationOptions.Page` of the provider, and the API calls issued so far, in order. -/
structure ProviderState (World : Type) where
  /-- The state of Cloudflare. -/
  world : World
  /-- The field `PaginationOptions.Page`. -/
  Page : Int
  /-- The calls issued so far. -/
  calls : List Call

end cloudflare

end provider

/-! ## provider/cloudflare/cloudflare.go: zones and changes -/

namespace provider

namespace cloudflare

open endpoint

/-- The first loop of `Zones`, over the zone IDs of the filter still to look up: a failing
`ZoneDetails` is logged and the zone skipped. -/
def Zones.byID {World : Type} (p : CloudFlareProvider World) :
    List Str → List Zone → ProviderState World → List Zone × ProviderState World
  | [], result, st => (result, st)
  | zoneID :: zoneIDs, result, st =>
    match p.Client.ZoneDetails zoneID st.world with
    | (.error _, w) =>
      Zones.byID p zoneIDs result
        { st with world := w, calls := st.calls ++ [Call.ZoneDetails zoneID] }
    | (.ok detailResponse, w) =>
      Zones.byID p zoneIDs (result ++ [detailResponse])
        { st with world := w, calls := st.calls ++ [Call.ZoneDetails zoneID] }

/-- The second loop of `Zones`, `for { ... }` over the pages; `fuel` bounds the number of
its rounds, and `none` is returned when they do not suffice. -/
def Zones.pages {World : Type} (p : CloudFlareProvider World) :
    Nat → List Zone → ProviderState World →
      Option (Except source.GoError (List Zone)) × ProviderState World
  | 0, _, st => (none, st)
  | fuel + 1, result, st =>
    match p.Client.ListZonesContext { Page := st.Page, PerPage := p.PerPage } st.world with
    | (.error err, w) =>
      (some (.error err),
        { st with world := w,
                  calls := st.calls ++
                    [Call.ListZonesContext { Page := st.Page, PerPage := p.PerPage }] })
    | (.ok zonesResponse, w) =>
      if st.Page = zonesResponse.TotalPages then
        (some (.ok (result ++ zonesResponse.Result.filter (fun zone => p.domainFilter zone.Name))),
          { st with world := w,
                    calls := st.calls ++
                      [Call.ListZonesContext { Page := st.Page, PerPage := p.PerPage }] })
      else
        Zones.pages p fuel
          (result ++ zonesResponse.Result.filter (fun zone => p.domainFilter zone.Name))
          { world := w, Page := st.Page + 1,
            calls := st.calls ++
              [Call.ListZonesContext { Page := st.Page, PerPage := p.PerPage }] }

/-- Embedding of `CloudFlareProvider.Zones`: `some (.ok zones)` and `some (.error err)` are
its two returns, `none` stands for a loop over the pages that has not ended after `fuel`
rounds. -/
def Zones {World : Type} (p : CloudFlareProvider World) (fuel : Nat)
    (st : ProviderState World) :
    Option (Except source.GoError (List Zone)) × ProviderState World :=
  if p.zoneIDFilter.ZoneIDs.length > 0 ∧ p.zoneIDFilter.ZoneIDs.getD 0 [] ≠ str "" then
    ((fun r => (some (Except.ok r.1), r.2))
      (Zones.byID p p.zoneIDFilter.ZoneIDs [] { st with Page := 1 }))
  else Zones.pages p fuel [] { st with Page := 1 }

/-- The first loop of `changesByZone`: the map `changes` with an empty list for every zone
and the map `zoneNameIDMapper` of the zones. -/
def changesByZone.init (zones : List Zone) : MapOf (List cloudFlareChange) × ZoneIDName :=
  zones.foldl (fun state z => (state.1.set z.ID [], GoMap.set state.2 z.ID z.Name)) ([], [])

/-- The second loop of `changesByZone`, over the changes still to visit; `i` counts the
changes visited.  `FindZone` ranges over the map `zoneNameIDMapper` in an order the Go
runtime chooses at every call: `visitZones i` gives that order for the change number `i`
(a permutation of the entries). -/
def changesByZone.loop (visitZones : Nat → ZoneIDName → ZoneIDName)
    (zoneNameIDMapper : ZoneIDName) :
    Nat → List cloudFlareChange → MapOf (List cloudFlareChange) →
      MapOf (List cloudFlareChange)
  | _, [], changes => changes
  | i, c :: changeSet, changes =>
    if (ZoneIDName.FindZone (visitZones i zoneNameIDMapper) c.ResourceRecord.Name).1 = str ""
    then changesByZone.loop visitZones zoneNameIDMapper (i + 1) changeSet changes
    else
      changesByZone.loop visitZones zoneNameIDMapper (i + 1) changeSet
        (changes.set
          (ZoneIDName.FindZone (visitZones i zoneNameIDMapper) c.ResourceRecord.Name).1
          (changes.index
            (ZoneIDName.FindZone (visitZones i zoneNameIDMapper) c.ResourceRecord.Name).1 []
            ++ [c]))

/-- Embedding of `CloudFlareProvider.changesByZone`. -/
def changesByZone (visitZones : Nat → ZoneIDName → ZoneIDName) (zones : List Zone)
    (changeSet : List cloudFlareChange) : MapOf (List cloudFlareChange) :=
  changesByZone.loop visitZones (changesByZone.init zones).2 0 changeSet
    (changesByZone.init zones).1

/-- Embedding of `CloudFlareProvider.getRecordID`. -/
def getRecordID : List DNSRecord → DNSRecord → Str
  | [], _ => str ""
  | zoneRecord :: records, record =>
    if zoneRecord.Name = record.Name ∧ zoneRecord.Type_ = record.Type_ ∧
        zoneRecord.Content = record.Content then zoneRecord.ID
    else getRecordID records record

/-- The inner loop of `submitChanges`, over the changes of the zone `zoneID` still to
visit, with the records `records` of the zone.  The errors of the three calls are logged
and nothing else. -/
def submitChanges.changes {World : Type} (p : CloudFlareProvider World) (zoneID : Str)
    (records : List DNSRecord) :
    List cloudFlareChange → ProviderState World → ProviderState World
  | [], st => st
  | change :: changes, st =>
    if p.DryRun then submitChanges.changes p zoneID records changes st
    else if change.Action = cloudFlareUpdate then
      if getRecordID records change.ResourceRecord = str "" then
        submitChanges.changes p zoneID records changes st
      else
        submitChanges.changes p zoneID records changes
          { st with
            world := (p.Client.UpdateDNSRecord zoneID
              (getRecordID records change.ResourceRecord) change.ResourceRecord st.world).2,
            calls := st.calls ++ [Call.UpdateDNSRecord zoneID
              (getRecordID records change.ResourceRecord) change.ResourceRecord] }
    else if change.Action = cloudFlareDelete then
      if getRecordID records change.ResourceRecord = str "" then
        submitChanges.changes p zoneID records changes st
      else
        submitChanges.changes p zoneID records changes
          { st with
            world := (p.Client.DeleteDNSRecord zoneID
              (getRecordID records change.ResourceRecord) st.world).2,
            calls := st.calls ++ [Call.DeleteDNSRecord zoneID
              (getRecordID records change.ResourceRecord)] }
    else if change.Action = cloudFlareCreate then
      submitChanges.changes p zoneID records changes
        { st with
          world := (p.Client.CreateDNSRecord zoneID change.ResourceRecord st.world).2,
          calls := st.calls ++ [Call.CreateDNSRecord zoneID change.ResourceRecord] }
    else submitChanges.changes p zoneID records changes st

/-- The outer loop of `submitChanges`, over the entries of `changesByZone` still to visit;
`none` is the nil error. -/
def submitChanges.zones {World : Type} (p : CloudFlareProvider World) :
    List (Str × List cloudFlareChange) → ProviderState World →
      Option source.GoError × ProviderState World
  | [], st => (none, st)
  | (zoneID, changes) :: rest, st =>
    match p.Client.DNSRecords zoneID st.world with
    | (.error err, w) =>
      (some (str "could not fetch records from zone, " ++ err),
        { st with world := w, calls := st.calls ++ [Call.DNSRecords zoneID] })
    | (.ok records, w) =>
      submitChanges.zones p rest
        (submitChanges.changes p zoneID records changes
          { st with world := w, calls := st.calls ++ [Call.DNSRecords zoneID] })

/-- Embedding of `CloudFlareProvider.submitChanges`: `some none` is the return of nil,
`some (some err)` the return of the error `err`, and `none` stands for a call of `Zones`
that has not ended after `fuel` rounds.  The loop over the map `changesByZone` visits its
entries in an order the Go runtime chooses: `visit` gives that order (a permutation of the
entries); `visitZones` is the one of `changesByZone`. -/
def submitChanges {World : Type} (p : CloudFlareProvider World)
    (visit : MapOf (List cloudFlareChange) → MapOf (List cloudFlareChange))
    (visitZones : Nat → ZoneIDName → ZoneIDName) (fuel : Nat)
    (changes : List cloudFlareChange) (st : ProviderState World) :
    Option (Option source.GoError) × ProviderState World :=
  if changes.length = 0 then (some none, st)
  else
    match Zones p fuel st with
    | (none, st1) => (none, st1)
    | (some (.error err), st1) => (some (some err), st1)
    | (some (.ok zones), st1) =>
      ((fun r => (some r.1, r.2))
        (submitChanges.zones p (visit (changesByZone visitZones zones changes)) st1))

/-- Embedding of `CloudFlareProvider.newCloudFlareChange`. -/
def newCloudFlareChange (proxiedByDefault : Bool) (action : Str) (e : Endpoint)
    (target : Str) : cloudFlareChange :=
  { Action := action
    ResourceRecord :=
      { Name := e.DNSName
        TTL := if TTL.IsConfigured e.RecordTTL then e.RecordTTL else defaultCloudFlareRecordTTL
        Proxied := shouldBeProxied e proxiedByDefault
        Type_ := e.RecordType
        Content := target } }

/-- The second loop of `ApplyChanges`, over the endpoints of `UpdateNew` still to visit,
with `i` their index: `none` stands for the panic of `changes.UpdateOld[i]` when
`UpdateOld` is too short.  `visitIndex` is the iteration order of `Difference`. -/
def ApplyChanges.updates (proxiedByDefault : Bool) (visitIndex : List Str → List Str)
    (updateOld : List Endpoint) :
    Nat → List Endpoint → List cloudFlareChange → Option (List cloudFlareChange)
  | _, [], cloudflareChanges => some cloudflareChanges
  | i, desired :: updateNew, cloudflareChanges =>
    match updateOld.get? i with
    | none => none
    | some current =>
      ApplyChanges.updates proxiedByDefault visitIndex updateOld (i + 1) updateNew
        (cloudflareChanges
          ++ (Difference visitIndex current.Targets desired.Targets).1.map
              (newCloudFlareChange proxiedByDefault cloudFlareCreate desired)
          ++ (Difference visitIndex current.Targets desired.Targets).2.2.map
              (newCloudFlareChange proxiedByDefault cloudFlareUpdate desired)
          ++ (Difference visitIndex current.Targets desired.Targets).2.1.map
              (newCloudFlareChange proxiedByDefault cloudFlareDelete current))

/-- The list `cloudflareChanges` that `ApplyChanges` builds; `none` stands for a panic. -/
def ApplyChanges.cloudflareChanges (proxiedByDefault : Bool)
    (visitIndex : List Str → List Str) (changes : plan.Changes Endpoint) :
    Option (List cloudFlareChange) :=
  match ApplyChanges.updates proxiedByDefault visitIndex changes.UpdateOld 0 changes.UpdateNew
      (changes.Create.flatMap (fun e =>
        e.Targets.map (newCloudFlareChange proxiedByDefault cloudFlareCreate e))) with
  | none => none
  | some cloudflareChanges =>
    some (cloudflareChanges ++ changes.Delete.flatMap (fun e =>
      e.Targets.map (newCloudFlareChange proxiedByDefault cloudFlareDelete e)))

/-- Embedding of `CloudFlareProvider.ApplyChanges`: as `submitChanges`, with `none` also for
a panic while the changes are built. -/
def ApplyChanges {World : Type} (p : CloudFlareProvider World)
    (visit : MapOf (List cloudFlareChange) → MapOf (List cloudFlareChange))
    (visitZones : Nat → ZoneIDName → ZoneIDName) (visitIndex : List Str → List Str)
    (fuel : Nat) (changes : plan.Changes Endpoint) (st : ProviderState World) :
    Option (Option source.GoError) × ProviderState World :=
  match ApplyChanges.cloudflareChanges p.proxiedByDefault visitIndex changes with
  | none => (none, st)
  | some cloudflareChanges => submitChanges p visit visitZones fuel cloudflareChanges st

end cloudflare

end provider

namespace provider

namespace cloudflare

/-- A client over the records of one zone, `example.com` with the ID `z1`, for the examples:
the three calls that change records fail with `err` when it is given, and change the
records when it is not. -/
def exampleClient (err : Option source.GoError) : cloudFlareDNS (List DNSRecord) :=
  { ZoneDetails := fun zoneID w => (.ok { ID := zoneID, Name := str "example.com" }, w)
    ListZonesContext := fun _ w =>
      (.ok { Result := [{ ID := str "z1", Name := str "example.com" }], TotalPages := 1 }, w)
    DNSRecords := fun _ w => (.ok w, w)
    CreateDNSRecord := fun _ rr w => (err, if err.isSome then w else w ++ [rr])
    DeleteDNSRecord := fun _ recordID w =>
      (err, if err.isSome then w else w.filter (fun r => decide (r.ID ≠ recordID)))
    UpdateDNSRecord := fun _ recordID rr w =>
      (err, if err.isSome then w
            else w.map (fun r => if r.ID = recordID then { rr with ID := recordID } else r)) }

/-- A provider over `exampleClient`, without filters. -/
def exampleProvider (dryRun : Bool) (err : Option source.GoError) :
    CloudFlareProvider (List DNSRecord) :=
  { Client := exampleClient err
    domainFilter := fun _ => true
    zoneIDFilter := { ZoneIDs := [] }
    proxiedByDefault := false
    DryRun := dryRun
    PerPage := 50 }

/-- The records of the zone of the examples: `a.example.com` with the ID `r1`. -/
def exampleRecords : List DNSRecord :=
  [{ exampleRecord (str "a.example.com") (str "A") (str "10.0.0.1") with ID := str "r1" }]

/-- Three changes for the examples: an update of a record that is not in `exampleRecords`
(no record ID), the creation of `b.example.com` and the deletion of `a.example.com`. -/
def exampleChanges : List cloudFlareChange :=
  [{ Action := cloudFlareUpdate
     ResourceRecord := exampleRecord (str "c.example.com") (str "A") (str "10.0.0.3") },
   { Action := cloudFlareCreate
     ResourceRecord := exampleRecord (str "b.example.com") (str "A") (str "10.0.0.2") },
   { Action := cloudFlareDelete
     ResourceRecord := exampleRecord (str "a.example.com") (str "A") (str "10.0.0.1") }]

end cloudflare

end provider

/-! ## The plan (spec, section 4.3) -/

namespace strings

/-- Embedding of `strings.ToLower` on ASCII text: the bytes of `A` to `Z` become those of
`a` to `z`, every other byte is kept. -/
def ToLower (s : Str) : Str := s.map (fun c => if 65 ≤ c ∧ c ≤ 90 then c + 32 else c)

end strings

namespace plan

open endpoint

/-- Modelled from the spec: the declaration of `Plan` (package `plan`) is not part of the
sources at hand.  The spec (4.3) lists its inputs: `Current`, `Desired`, `DomainFilter`,
`ManagedRecordTypes`, `OwnerID`, `ConflictResolver`, `Policy`, `PropertyComparator`.  The
domain filter is held by its test on a name, the property comparator by its test that two
values of a property are equal; the conflict resolver is `PerResource`. -/
structure Plan where
  /-- The records of the registry. -/
  Current : List Endpoint
  /-- The records of the sources, adjusted. -/
  Desired : List Endpoint
  /-- The test of the domain filter on a DNS name. -/
  DomainFilter : Str → Bool
  /-- The record types that are managed. -/
  ManagedRecordTypes : List Str
  /-- The owner of the records that may be deleted. -/
  OwnerID : Str
  /-- The policy applied to the changes. -/
  Policy : Policy
  /-- The comparator: name of the property, previous value, current value. -/
  PropertyComparator : Str → Str → Str → Bool

/-- Modelled from the spec: the record key, "Key = (lowercase DNSName, RecordType,
SetIdentifier)". -/
def Plan.key (e : Endpoint) : Str × Str × Str :=
  (strings.ToLower e.DNSName, e.RecordType, e.SetIdentifier)

/-- Modelled from the spec: step 1, "Drop endpoints whose RecordType is not in
`ManagedRecordTypes` or whose DNSName fails the DomainFilter". -/
def Plan.filter (p : Plan) (endpoints : List Endpoint) : List Endpoint :=
  endpoints.filter (fun e =>
    decide (e.RecordType ∈ p.ManagedRecordTypes) && p.DomainFilter e.DNSName)

/-- Modelled from the spec: step 2, the candidates of a record key, the desired endpoints
with this key in their order. -/
def Plan.candidates (p : Plan) (k : Str × Str × Str) : List Endpoint :=
  (p.filter p.Desired).filter (fun e => decide (Plan.key e = k))

/-- Modelled from the spec: step 3, the index of the current endpoints by record key.  The
spec lets the key identify the endpoint; of several current endpoints with one key the
index holds the last. -/
def Plan.current (p : Plan) (k : Str × Str × Str) : Option Endpoint :=
  ((p.filter p.Current).filter (fun e => decide (Plan.key e = k))).getLast?

/-- Modelled from the spec: the record keys of the plan, those of the desired endpoints
and then those of the current ones, each once.  The spec leaves their order open. -/
def Plan.keys (p : Plan) : List (Str × Str × Str) :=
  ((p.filter p.Desired ++ p.filter p.Current).map Plan.key).dedup

/-- Modelled from the spec: step 4, "compute whether a change is needed: targets differ
(under canonical comparison), or TTL differs while desired TTL is configured (>0), or any
provider-specific property pair is unequal per `PropertyComparator`".  The canonical
comparison of targets is the one of the data model, "case-insensitive and
order-insensitive"; a property pair is a property of `desired` with the property of the
same name of `current`. -/
def Plan.shouldUpdate (p : Plan) (current desired : Endpoint) : Bool :=
  decide (sort.Strings (current.Targets.map strings.ToLower)
      ≠ sort.Strings (desired.Targets.map strings.ToLower))
    || (TTL.IsConfigured desired.RecordTTL && decide (desired.RecordTTL ≠ current.RecordTTL))
    || desired.ProviderSpecific.any (fun d =>
        current.ProviderSpecific.any (fun c =>
          decide (c.1 = d.1) && !p.PropertyComparator d.1 c.2 d.2))

/-- Modelled from the spec: step 4 for one record key.  "Key in desired, not in current:
`Create`", with the winner of `ResolveCreate`; "Key in both": the winner of `ResolveUpdate`
and, if a change is needed, "`UpdateOld`=current, `UpdateNew`=desired with labels inherited
from current"; "Key in current, not in desired, and current is owned by `OwnerID`:
`Delete`"; "not owned by us: ignored". -/
def Plan.classify (p : Plan) (changes : Changes Endpoint) (k : Str × Str × Str) :
    Changes Endpoint :=
  match p.current k, p.candidates k with
  | none, [] => changes
  | none, candidate :: candidates =>
    match PerResource.ResolveCreate (candidate :: candidates) with
    | none => changes
    | some desired => { changes with Create := changes.Create ++ [desired] }
  | some current, [] =>
    if current.Labels.find? registry.OwnerLabelKey = some p.OwnerID then
      { changes with Delete := changes.Delete ++ [current] }
    else changes
  | some current, candidate :: candidates =>
    match PerResource.ResolveUpdate current (candidate :: candidates) with
    | none => changes
    | some desired =>
      if p.shouldUpdate current desired then
        { changes with
          UpdateOld := changes.UpdateOld ++ [current]
          UpdateNew := changes.UpdateNew ++ [{ desired with Labels := current.Labels }] }
      else changes

/-- Modelled from the spec: `Plan.Calculate` (package `plan`) is not part of the sources at
hand.  The algorithm of the spec (4.3): filter, group the desired endpoints by record key,
index the current ones, classify every key, and (step 5) apply the policy. -/
def Plan.Calculate (p : Plan) : Changes Endpoint :=
  p.Policy.Apply (p.keys.foldl p.classify {})

/-- A plan for the examples, over the managed types `A` and `CNAME`, without domain filter,
with the owner `default`, the policy `sync` and the comparison of properties by equality. -/
def examplePlan (current desired : List Endpoint) : Plan :=
  { Current := current
    Desired := desired
    DomainFilter := fun _ => true
    ManagedRecordTypes := [str "A", str "CNAME"]
    OwnerID := str "default"
    Policy := Policy.SyncPolicy
    PropertyComparator := fun _ previous current => decide (previous = current) }

/-- An endpoint of type `A` for the examples, with the labels `owner` and `resource`. -/
def exampleOwned (dnsName target owner : Str) : Endpoint :=
  { DNSName := dnsName
    Targets := [target]
    RecordType := str "A"
    RecordTTL := 0
    Labels := [(str "owner", owner), (str "resource", str "r1")]
    SetIdentifier := []
    ProviderSpecific := [] }

end plan

namespace plan

open endpoint

/-- The current records of the examples: `Upd.example.com` and `del.example.com`, owned by
`default`, and `foreign.example.com`, owned by another. -/
def exampleCurrent : List Endpoint :=
  [exampleOwned (str "Upd.example.com") (str "10.0.0.1") (str "default"),
   exampleOwned (str "del.example.com") (str "10.0.0.2") (str "default"),
   exampleOwned (str "foreign.example.com") (str "10.0.0.3") (str "other")]

/-- The desired records of the examples: `upd.example.com` with a new target, and
`new.example.com`. -/
def exampleDesired : List Endpoint :=
  [exampleOwned (str "upd.example.com") (str "10.0.0.9") (str ""),
   exampleOwned (str "new.example.com") (str "10.0.0.4") (str "")]

end plan

/-! ## The controller (spec, section 4.7) -/

namespace controller

/-- Modelled from the spec: the declaration of `Controller` (package `controller`) is not
part of the sources at hand.  The spec (4.7) gives its state, `nextRunAt` and `lastRunAt`,
and the two durations `Interval` and `MinEventSyncInterval`; instants and durations are
integers (nanoseconds).  `ran` records the instants at which `RunOnce` was invoked. -/
structure Controller where
  /-- The interval between two synchronizations. -/
  Interval : Int
  /-- The minimum interval between two synchronizations triggered by events. -/
  MinEventSyncInterval : Int
  /-- The instant of the next run. -/
  nextRunAt : Int
  /-- The instant of the last run. -/
  lastRunAt : Int
  /-- The instants at which `RunOnce` was invoked, in order. -/
  ran : List Int
  deriving DecidableEq, Repr

/-- Modelled from the spec: `ScheduleRunOnce(now)` "sets
`nextRunAt := max(nextRunAt, lastRunAt + MinEventSyncInterval)`". -/
def Controller.ScheduleRunOnce (c : Controller) (_now : Int) : Controller :=
  { c with nextRunAt := max c.nextRunAt (c.lastRunAt + c.MinEventSyncInterval) }

/-- Modelled from the spec: one wake of the loop of `Run`, "On wake, if `now ≥ nextRunAt`,
invoke `RunOnce`, record `lastRunAt := now`, and set `nextRunAt := now + Interval`". -/
def Controller.wake (c : Controller) (now : Int) : Controller :=
  if now ≥ c.nextRunAt then
    { c with ran := c.ran ++ [now], lastRunAt := now, nextRunAt := now + c.Interval }
  else c

/-- What happens to a controller: an event notification, which calls `ScheduleRunOnce`, or
a wake of the loop of `Run`, each at an instant. -/
inductive Event where
  | schedule (now : Int)
  | wake (now : Int)
  deriving DecidableEq, Repr

/-- The instant of an event. -/
def Event.now : Event → Int
  | .schedule now => now
  | .wake now => now

/-- The controller after an event. -/
def Controller.step (c : Controller) : Event → Controller
  | .schedule now => c.ScheduleRunOnce now
  | .wake now => c.wake now

/-- The controller after a sequence of events. -/
def Controller.steps (c : Controller) (events : List Event) : Controller :=
  events.foldl Controller.step c

/-- A controller for the examples, in milliseconds: the last run at 0, the next one due
after the interval of 1 s, and a minimum interval of 5 s between runs triggered by events. -/
def exampleController : Controller :=
  { Interval := 1000, MinEventSyncInterval := 5000, nextRunAt := 1000, lastRunAt := 0,
    ran := [0] }

/-- The events of the examples: 100 notifications, 10 ms apart from 10 ms on, each followed
by a wake of the loop. -/
def exampleEvents : List Event :=
  (List.range 100).flatMap (fun i =>
    [Event.schedule (10 * (i + 1 : Nat)), Event.wake (10 * (i + 1 : Nat))])

end controller

/-! ## provider/zone_id_filter.go (`Match`) and source/source.go (`endpointsForHostname`) -/

namespace provider

/-- The loop of `ZoneIDFilter.Match` over the IDs of the filter still to visit. -/
def ZoneIDFilter.Match.loop (zoneID : Str) : List Str → Bool
  | [] => false
  | id :: ids =>
    if strings.HasSuffix zoneID id then true else ZoneIDFilter.Match.loop zoneID ids

/-- Embedding of `ZoneIDFilter.Match`. -/
def ZoneIDFilter.Match (f : ZoneIDFilter) (zoneID : Str) : Bool :=
  if f.ZoneIDs.length = 0 then true
  else ZoneIDFilter.Match.loop zoneID f.ZoneIDs

end provider

namespace endpoint

/-- The constant `endpoint.RecordTypeA`; its declaration is not part of the sources at hand,
the spec's data model names the record type `A`. -/
def RecordTypeA : Str := str "A"

/-- The constant `endpoint.RecordTypeCNAME`; its declaration is not part of the sources at
hand, the spec's data model names the record type `CNAME`. -/
def RecordTypeCNAME : Str := str "CNAME"

end endpoint

namespace source

open endpoint

/-- Embedding of `suitableType`.  `isIP target` stands for `net.ParseIP(target) != nil`, a
function of the Go library. -/
def suitableType (isIP : Str → Bool) (target : Str) : Str :=
  if isIP target then RecordTypeA else RecordTypeCNAME

/-- The loop of `endpointsForHostname` over the targets still to visit, with the state
`aTargets`, `cnameTargets`. -/
def endpointsForHostname.loop (isIP : Str → Bool) :
    List Str → Targets → Targets → Targets × Targets
  | [], aTargets, cnameTargets => (aTargets, cnameTargets)
  | t :: targets, aTargets, cnameTargets =>
    if suitableType isIP t = RecordTypeA then
      endpointsForHostname.loop isIP targets (aTargets ++ [t]) cnameTargets
    else
      endpointsForHostname.loop isIP targets aTargets (cnameTargets ++ [t])

/-- Embedding of `endpointsForHostname`. -/
def endpointsForHostname (isIP : Str → Bool) (hostname : Str) (targets : Targets) (ttl : Int)
    (providerSpecific : List (Str × Str)) (setIdentifier : Str) : List Endpoint :=
  let endpoints : List Endpoint := []
  let (aTargets, cnameTargets) := endpointsForHostname.loop isIP targets [] []
  let endpoints :=
    if aTargets.length > 0 then
      endpoints ++ [{ DNSName := strings.TrimSuffix hostname (str ".")
                      Targets := aTargets
                      RecordTTL := ttl
                      RecordType := RecordTypeA
                      Labels := NewLabels
                      ProviderSpecific := providerSpecific
                      SetIdentifier := setIdentifier }]
    else endpoints
  let endpoints :=
    if cnameTargets.length > 0 then
      endpoints ++ [{ DNSName := strings.TrimSuffix hostname (str ".")
                      Targets := cnameTargets
                      RecordTTL := ttl
                      RecordType := RecordTypeCNAME
                      Labels := NewLabels
                      ProviderSpecific := providerSpecific
                      SetIdentifier := setIdentifier }]
    else endpoints
  endpoints

/-- A stand-in for `net.ParseIP` in the examples: a text of digits and dots only. -/
def exampleIsIP (target : Str) : Bool :=
  target.all (fun c => (48 ≤ c && c ≤ 57) || c == 46) && !target.isEmpty

end source

namespace provider

namespace cloudflare

/-- A provider without filters for the examples, over a client whose list of zones is
empty: every page requested comes back without zones and with the page count 0. -/
def exampleEmptyProvider : CloudFlareProvider Unit :=
  { Client :=
      { ZoneDetails := fun _ w => (.error (str "not found"), w)
        ListZonesContext := fun _ w => (.ok { Result := [], TotalPages := 0 }, w)
        DNSRecords := fun _ w => (.ok [], w)
        CreateDNSRecord := fun _ _ w => (none, w)
        DeleteDNSRecord := fun _ _ w => (none, w)
        UpdateDNSRecord := fun _ _ _ w => (none, w) }
    domainFilter := fun _ => true
    zoneIDFilter := { ZoneIDs := [str ""] }
    proxiedByDefault := false
    DryRun := false
    PerPage := 50 }

end cloudflare

end provider

/-! # Lemmas -/

open endpoint plan provider

/-! ## Lemmas on the string functions -/

theorem intercalate_pair (sep a b : Str) : sep.intercalate [a, b] = a ++ sep ++ b := by
  simp [List.intercalate]

theorem intercalate_cons_cons (sep a b : Str) (l : List Str) :
    sep.intercalate (a :: b :: l) = a ++ sep ++ sep.intercalate (b :: l) := by
  simp [List.intercalate]

/-- A string that splits into exactly two pieces is the two pieces around one separator. -/
theorem split_two (t : Str) (c : Nat) (h : (strings.Split t c).length = 2) :
    t = (strings.Split t c).getD 0 [] ++ [c] ++ (strings.Split t c).getD 1 [] := by
  have hi : [c].intercalate (t.splitOn c) = t := List.intercalate_splitOn t c
  unfold strings.Split at *
  match hs : t.splitOn c, h with
  | [a, b], _ =>
    rw [hs, intercalate_pair] at hi
    simpa using hi.symm

/-- Splitting `a ++ [c] ++ b` on `c` when neither piece holds `c`. -/
theorem split_pair (a b : Str) (c : Nat) (ha : c ∉ a) (hb : c ∉ b) :
    strings.Split (a ++ [c] ++ b) c = [a, b] := by
  have : ([c].intercalate [a, b]).splitOn c = [a, b] :=
    List.splitOn_intercalate [a, b] c (by simpa using ⟨ha, hb⟩) (by simp)
  rwa [intercalate_pair] at this

theorem trim_id (s : Str) (c : Nat) (h1 : s.head? ≠ some c) (h2 : s.getLast? ≠ some c) :
    strings.Trim s c = s := by
  unfold strings.Trim
  have e1 : s.dropWhile (fun b => b == c) = s := by
    cases s with
    | nil => rfl
    | cons a s =>
      have : a ≠ c := by simpa using h1
      simp [List.dropWhile_cons, this]
  rw [e1]
  have e2 : s.reverse.dropWhile (fun b => b == c) = s.reverse := by
    cases hr : s.reverse with
    | nil => rfl
    | cons a r =>
      have hs : s = r.reverse ++ [a] := by
        have := congrArg List.reverse hr
        simpa using this
      have : a ≠ c := by
        intro hac
        apply h2
        rw [hs, hac]
        simp
      simp [List.dropWhile_cons, this]
  rw [e2, List.reverse_reverse]

/-- A token whose two pieces are `origin` and `dops` is the token `origin=dops`. -/
theorem token_eq_origin (t : Str) (h : (strings.Split t 61).length = 2)
    (hk : (strings.Split t 61).getD 0 [] = str "origin")
    (hv : (strings.Split t 61).getD 1 [] = origin) : t = str "origin=dops" := by
  have := split_two t 61 h
  rw [hk, hv] at this
  rw [this]
  decide

/-- The loop never sets `foundExternalDNSOrigin` on tokens other than `origin=dops`. -/
theorem loop_no_origin (tokens : List Str) (h : ∀ t ∈ tokens, t ≠ str "origin=dops")
    (endpointLabels : Labels) :
    NewLabelsFromString.loop tokens endpointLabels false = .error Error.ErrInvalidOrigin := by
  induction tokens generalizing endpointLabels with
  | nil => simp [NewLabelsFromString.loop]
  | cons t ts ih =>
    have hts : ∀ t ∈ ts, t ≠ str "origin=dops" := fun x hx => h x (List.mem_cons_of_mem _ hx)
    unfold NewLabelsFromString.loop
    by_cases h2 : (strings.Split t 61).length = 2
    · simp only [h2, ne_eq, not_true_eq_false, if_false]
      by_cases hk : (strings.Split t 61).getD 0 [] = str "origin"
      · by_cases hv : (strings.Split t 61).getD 1 [] = origin
        · exact absurd (token_eq_origin t h2 hk hv) (h t (List.mem_cons_self _ _))
        · rw [if_pos ⟨hk, hv⟩]
      · simp only [hk, false_and, if_false]
        split
        · exact ih hts _
        · exact ih hts _
    · simp only [h2, ne_eq, not_false_eq_true, if_true]
      exact ih hts _

/-- A token `origin=X`, `X` other than `dops` and without `=`, makes the loop fail wherever
it stands among the tokens. -/
theorem loop_foreign_origin (tokens : List Str) (X : Str) (hX : X ≠ origin) (hne : 61 ∉ X)
    (hmem : str "origin=" ++ X ∈ tokens) (endpointLabels : Labels) (found : Bool) :
    NewLabelsFromString.loop tokens endpointLabels found = .error Error.ErrInvalidOrigin := by
  have hsplit : strings.Split (str "origin=" ++ X) 61 = [str "origin", X] :=
    split_pair (str "origin") X 61 (by decide) hne
  induction tokens generalizing endpointLabels found with
  | nil => simp at hmem
  | cons t ts ih =>
    unfold NewLabelsFromString.loop
    by_cases ht : t = str "origin=" ++ X
    · subst ht
      simp [hsplit, hX]
    · have hts : str "origin=" ++ X ∈ ts := by
        rcases List.mem_cons.mp hmem with h | h
        · exact absurd h.symm ht
        · exact h
      split
      · exact ih hts _ _
      · simp only []
        split
        · rfl
        · split
          · exact ih hts _ _
          · split
            · exact ih hts _ _
            · exact ih hts _ _

/-! ## Lemmas on maps -/

theorem GoMap.find?_replace (m : GoMap) (k v k' : Str) :
    (m.map (fun e => if e.1 = k then (k, v) else e)).lookup k' =
      if k' = k then (if k ∈ m.keys then some v else none) else m.lookup k' := by
  induction m with
  | nil => simp [GoMap.keys]
  | cons e m ih =>
    obtain ⟨a, b⟩ := e
    by_cases hak : a = k
    · subst hak
      by_cases hk : k' = a
      · subst hk
        simp [GoMap.keys, List.lookup_cons]
      · have hb : (k' == a) = false := by simpa using hk
        simp only [List.map_cons, if_true, List.lookup_cons, hb, ih, if_neg hk]
    · by_cases hk : k' = k
      · subst hk
        have hb : (k' == a) = false := by simpa using fun h : k' = a => hak h.symm
        have hka : ¬ k' = a := fun h => hak h.symm
        simp only [List.map_cons, if_neg hak, List.lookup_cons, hb, ih, if_true, GoMap.keys,
          List.mem_cons, hka, false_or]
      · simp only [List.map_cons, if_neg hak, List.lookup_cons, ih, if_neg hk]

theorem GoMap.find?_none (m : GoMap) (k : Str) (h : k ∉ m.keys) : m.lookup k = none := by
  induction m with
  | nil => rfl
  | cons e m ih =>
    obtain ⟨a, b⟩ := e
    simp only [GoMap.keys, List.map_cons, List.mem_cons, not_or] at h
    have hb : (k == a) = false := by simpa using h.1
    simp only [List.lookup_cons, hb]
    exact ih h.2

/-- Reading a map after `m[k] = v`. -/
theorem GoMap.find?_set (m : GoMap) (k v k' : Str) :
    (m.set k v).find? k' = if k' = k then some v else m.find? k' := by
  unfold GoMap.set GoMap.find?
  by_cases hk : k ∈ m.keys
  · rw [if_pos hk, GoMap.find?_replace, if_pos hk]
  · rw [if_neg hk, List.lookup_append]
    by_cases h : k' = k
    · subst h
      simp [GoMap.find?_none m k' hk, List.lookup_cons]
    · have hb : (k' == k) = false := by simpa using h
      simp [List.lookup_cons, hb, h]

/-- The assignment `m[k] = v` keeps the keys distinct. -/
theorem GoMap.wellFormed_set (m : GoMap) (k v : Str) (h : m.WellFormed) :
    (m.set k v).WellFormed := by
  unfold GoMap.set GoMap.WellFormed at *
  by_cases hk : k ∈ m.keys
  · rw [if_pos hk]
    have : GoMap.keys (m.map (fun e => if e.1 = k then (k, v) else e)) = m.keys := by
      unfold GoMap.keys
      rw [List.map_map]
      apply List.map_congr_left
      intro e _
      by_cases he : e.1 = k
      · simp [he]
      · simp [he]
    rw [this]; exact h
  · rw [if_neg hk]
    unfold GoMap.keys at *
    rw [List.map_append]
    simp only [List.map_cons, List.map_nil]
    rw [List.nodup_append]
    refine ⟨h, List.nodup_singleton _, ?_⟩
    intro a ha hb
    simp only [List.mem_singleton] at hb
    exact hk (hb ▸ ha)

/-! ## Lemmas on `Serialize` and on the loop over its tokens -/

theorem token_split (l : Labels) (k : Str) (hk : 61 ∉ k) (hv : 61 ∉ l.get k) :
    strings.Split (Labels.token l k) 61 = [str "dops/" ++ k, l.get k] := by
  have h := split_pair (str "dops/" ++ k) (l.get k) 61
    (by
      intro hmem
      rcases List.mem_append.mp hmem with h | h
      · revert h; decide
      · exact hk h) hv
  have e : Labels.token l k = str "dops/" ++ k ++ [61] ++ l.get k := by
    unfold Labels.token
    have e1 : origin ++ str "/" = str "dops/" := by decide
    have e2 : str "=" = [61] := by decide
    rw [e1, e2]
  rw [e, h]

theorem loop_tokens (l : Labels) (ks : List Str)
    (h : ∀ k ∈ ks, 61 ∉ k ∧ 61 ∉ l.get k) (m : Labels) :
    NewLabelsFromString.loop (ks.map (Labels.token l)) m true = .ok (storeAll l ks m) := by
  induction ks generalizing m with
  | nil => simp [NewLabelsFromString.loop, storeAll]
  | cons k ks ih =>
    have hk := h k (List.mem_cons_self _ _)
    have hks : ∀ k ∈ ks, 61 ∉ k ∧ 61 ∉ l.get k := fun x hx => h x (List.mem_cons_of_mem _ hx)
    have hne : ¬ (str "dops/" ++ k = str "origin") := by
      intro e
      have h0 : (str "dops/" ++ k).head? = some 100 := rfl
      rw [e] at h0
      revert h0; decide
    have hpre : strings.HasPrefix (str "dops/" ++ k) origin = true := by
      show List.isPrefixOf _ _ = true
      simp [origin, str]
    have htrim : strings.TrimPrefix (str "dops/" ++ k) (origin ++ str "/") = k := by
      have e1 : origin ++ str "/" = str "dops/" := by decide
      unfold strings.TrimPrefix strings.HasPrefix
      rw [e1]
      simp
    rw [List.map_cons]
    unfold NewLabelsFromString.loop
    rw [token_split l k hk.1 hk.2]
    simp only [List.length_cons, List.length_nil, ne_eq, not_true_eq_false, if_false,
      List.getD_cons_zero, List.getD_cons_succ, hne, false_and, hpre, if_true, htrim]
    rw [ih hks]
    rfl

theorem find?_storeAll (l : Labels) (ks : List Str) (m : Labels) (k' : Str) :
    (storeAll l ks m).find? k' = if k' ∈ ks then some (l.get k') else m.find? k' := by
  induction ks generalizing m with
  | nil => simp [storeAll]
  | cons k ks ih =>
    have : storeAll l (k :: ks) m = storeAll l ks (m.set k (l.get k)) := rfl
    rw [this, ih, GoMap.find?_set]
    by_cases h1 : k' ∈ ks
    · simp [h1]
    · by_cases h2 : k' = k
      · subst h2; simp
      · simp [h1, h2]

theorem wellFormed_storeAll (l : Labels) (ks : List Str) (m : Labels) (h : m.WellFormed) :
    (storeAll l ks m).WellFormed := by
  induction ks generalizing m with
  | nil => exact h
  | cons k ks ih => exact ih _ (GoMap.wellFormed_set m k _ h)

theorem find?_eq_get (l : Labels) (k : Str) (h : k ∈ l.keys) : l.find? k = some (l.get k) := by
  unfold GoMap.find? GoMap.get
  cases hl : l.lookup k with
  | some v => rfl
  | none =>
    exfalso
    induction l with
    | nil => simp [GoMap.keys] at h
    | cons e l ih =>
      obtain ⟨a, b⟩ := e
      rw [List.lookup_cons] at hl
      by_cases hak : k = a
      · simp [hak] at hl
      · have hb : (k == a) = false := by simpa using hak
        rw [hb] at hl
        simp only [GoMap.keys, List.map_cons, List.mem_cons, hak, false_or] at h
        exact ih h hl

theorem join_cons (t : Str) (ts : List Str) :
    strings.Join (t :: ts) (str ",") = t ++ (ts.map (fun x => str "," ++ x)).flatten := by
  unfold strings.Join
  induction ts generalizing t with
  | nil => simp [List.intercalate]
  | cons a ts ih =>
    rw [intercalate_cons_cons, ih]
    simp

theorem serialize_false (l : Labels) :
    l.Serialize false =
      strings.Join (str "origin=dops" :: (sort.Strings l.keys).map (Labels.token l)) (str ",") := by
  rfl

theorem serialize_true (l : Labels) :
    l.Serialize true = str "\"" ++ l.Serialize false ++ str "\"" := by
  rfl

theorem mem_of_mem_keys (l : Labels) (k : Str) (h : k ∈ l.keys) : (k, l.get k) ∈ l := by
  have hf := find?_eq_get l k h
  unfold GoMap.find? at hf
  induction l with
  | nil => simp [GoMap.keys] at h
  | cons e l ih =>
    obtain ⟨a, b⟩ := e
    by_cases hak : k = a
    · subst hak
      simp [GoMap.get, List.lookup_cons]
    · have hb : (k == a) = false := by simpa using hak
      simp only [GoMap.keys, List.map_cons, List.mem_cons, hak, false_or] at h
      have e1 : GoMap.get ((a, b) :: l) k = GoMap.get l k := by
        simp [GoMap.get, List.lookup_cons, hb]
      rw [e1]
      refine List.mem_cons_of_mem _ (ih h ?_)
      exact find?_eq_get l k h

theorem get_of_mem (l : Labels) (h : l.WellFormed) (k v : Str) (hm : (k, v) ∈ l) :
    l.get k = v := by
  induction l with
  | nil => simp at hm
  | cons e l ih =>
    obtain ⟨a, b⟩ := e
    unfold GoMap.WellFormed GoMap.keys at h
    rw [List.map_cons, List.nodup_cons] at h
    rcases List.mem_cons.mp hm with heq | hin
    · have h1 : k = a := congrArg Prod.fst heq
      have h2 : v = b := congrArg Prod.snd heq
      subst h1; subst h2
      simp [GoMap.get, List.lookup_cons]
    · have hak : k ≠ a := by
        intro e
        apply h.1
        rw [← e]
        exact List.mem_map.mpr ⟨(k, v), hin, rfl⟩
      have hb : (k == a) = false := by simpa using hak
      have e1 : GoMap.get ((a, b) :: l) k = GoMap.get l k := by
        simp [GoMap.get, List.lookup_cons, hb]
      rw [e1]
      exact ih h.2 hin

theorem sorted_keys_of_perm (es : List (Str × Str)) (l : Labels)
    (hs : (es.map Prod.fst).Sorted (fun a b => a < b)) (hp : l.Perm es) :
    sort.Strings l.keys = es.map Prod.fst := by
  unfold sort.Strings GoMap.keys
  exact List.eq_of_perm_of_sorted
    ((List.perm_insertionSort _ _).trans (hp.map Prod.fst))
    (List.sorted_insertionSort (fun a b : Str => a ≤ b) _)
    (List.Pairwise.imp (fun h => le_of_lt h) hs)

theorem wellFormed_of_perm (es : List (Str × Str)) (l : Labels)
    (hs : (es.map Prod.fst).Sorted (fun a b => a < b)) (hp : l.Perm es) : l.WellFormed := by
  unfold GoMap.WellFormed GoMap.keys
  have hn : (es.map Prod.fst).Nodup := List.Pairwise.imp (fun h => ne_of_lt h) hs
  exact ((hp.map Prod.fst).nodup_iff).mpr hn

theorem serialize_eq_wireContent (es : List (Str × Str)) (l : Labels)
    (hs : (es.map Prod.fst).Sorted (fun a b => a < b)) (hp : l.Perm es) :
    l.Serialize false = wireContent es := by
  rw [serialize_false, sorted_keys_of_perm es l hs hp, join_cons]
  unfold wireContent
  congr 2
  rw [List.map_map, List.map_map]
  apply List.map_congr_left
  intro e he
  have hg : l.get e.1 = e.2 :=
    get_of_mem l (wellFormed_of_perm es l hs hp) e.1 e.2 (hp.mem_iff.mpr he)
  simp only [Function.comp, Labels.token, hg]
  have e1 : str ",dops/" = str "," ++ (origin ++ str "/") := by decide
  rw [e1]
  simp only [List.append_assoc]

theorem serialize_head (l : Labels) : (l.Serialize false).head? = some 111 := by
  rw [serialize_false, join_cons]
  rfl

theorem token_getLast (l : Labels) (k : Str) (h : (l.get k).getLast? ≠ some 34) :
    (Labels.token l k).getLast? ≠ some 34 := by
  unfold Labels.token
  rw [List.getLast?_append]
  cases hv : (l.get k).getLast? with
  | some c =>
    rw [hv] at h
    simpa using h
  | none =>
    have : (origin ++ str "/" ++ k ++ str "=").getLast? = some 61 := by
      rw [List.getLast?_append]; rfl
    rw [this]
    simp

/-- The text `Serialize(false)` writes ends with a double quote only when the value of the
greatest key does. -/
theorem serialize_getLast (l : Labels)
    (hq : ∀ k ∈ l.keys, (∀ k' ∈ l.keys, k' ≤ k) → (l.get k).getLast? ≠ some 34) :
    (l.Serialize false).getLast? ≠ some 34 := by
  rw [serialize_false, join_cons]
  have hperm : (sort.Strings l.keys).Perm l.keys := List.perm_insertionSort _ _
  have hsorted : (sort.Strings l.keys).Sorted (fun a b => a ≤ b) := List.sorted_insertionSort _ _
  rcases List.eq_nil_or_concat (sort.Strings l.keys) with h | ⟨init, kl, h⟩
  · rw [h]
    simp only [List.map_nil, List.flatten_nil, List.append_nil]
    decide
  · rw [List.concat_eq_append] at h
    rw [h] at hperm hsorted
    rw [h]
    have hmem : kl ∈ l.keys := hperm.mem_iff.mp (by simp)
    have hmax : ∀ k' ∈ l.keys, k' ≤ kl := by
      intro k' hk'
      have : k' ∈ init ++ [kl] := hperm.mem_iff.mpr hk'
      rcases List.mem_append.mp this with hi | hi
      · exact (List.pairwise_append.mp hsorted).2.2 k' hi kl (by simp)
      · simp only [List.mem_singleton] at hi
        rw [hi]
    have hv := token_getLast l kl (hq kl hmem hmax)
    simp only [List.map_append, List.map_cons, List.map_nil, List.flatten_append,
      List.flatten_cons, List.flatten_nil, List.append_nil]
    rw [← List.append_assoc, ← List.append_assoc, List.getLast?_append]
    cases ht : (Labels.token l kl).getLast? with
    | some c =>
      rw [ht] at hv
      simpa using hv
    | none =>
      exfalso
      have : Labels.token l kl = [] := List.getLast?_eq_none_iff.mp ht
      unfold Labels.token at this
      revert this
      simp [origin, str]

theorem token_no_comma (l : Labels) (k : Str) (hk : 44 ∉ k) (hv : 44 ∉ l.get k) :
    44 ∉ Labels.token l k := by
  unfold Labels.token
  intro h
  simp only [List.mem_append] at h
  rcases h with ((h | h) | h) | h
  · revert h; decide
  · exact hk h
  · revert h; decide
  · exact hv h

theorem tokens_serialize (l : Labels)
    (hsep : ∀ e ∈ l, 44 ∉ e.1 ∧ 61 ∉ e.1 ∧ 44 ∉ e.2 ∧ 61 ∉ e.2)
    (hq : ∀ k ∈ l.keys, (∀ k' ∈ l.keys, k' ≤ k) → (l.get k).getLast? ≠ some 34) :
    NewLabelsFromString.tokens (l.Serialize false) =
      str "origin=dops" :: (sort.Strings l.keys).map (Labels.token l) := by
  unfold NewLabelsFromString.tokens
  rw [trim_id _ 34 (by rw [serialize_head]; decide) (serialize_getLast l hq), serialize_false]
  unfold strings.Join strings.Split
  have e : str "," = [44] := by decide
  rw [e]
  apply List.splitOn_intercalate
  · intro t ht
    rcases List.mem_cons.mp ht with h | h
    · rw [h]; decide
    · obtain ⟨k, hk, rfl⟩ := List.mem_map.mp h
      have hk' : k ∈ l.keys := (List.perm_insertionSort _ _).mem_iff.mp hk
      have hm := hsep _ (mem_of_mem_keys l k hk')
      exact token_no_comma l k hm.1 hm.2.2.1
  · simp

/-! ## Lemmas on `FindZone` -/

theorem hasSuffix_iff (hostname zoneName : Str) :
    (hostname = zoneName ∨ strings.HasSuffix hostname (str "." ++ zoneName) = true) ↔
      Suits hostname zoneName := by
  unfold Suits strings.HasSuffix
  rw [List.isSuffixOf_iff_suffix]
  constructor
  · rintro (h | ⟨p, hp⟩)
    · exact Or.inl h
    · exact Or.inr ⟨p, by rw [List.append_assoc]; exact hp.symm⟩
  · rintro (h | ⟨p, hp⟩)
    · exact Or.inl h
    · exact Or.inr ⟨p, by rw [hp, List.append_assoc]⟩

theorem FindZone.inv_step (hostname : Str) (seen : List (Str × Str)) (s e : Str × Str)
    (h : provider.FindZone.Inv hostname seen s) :
    provider.FindZone.Inv hostname (seen ++ [e]) (ZoneIDName.FindZone.step hostname s e) := by
  unfold ZoneIDName.FindZone.step
  by_cases hm0 : hostname = e.2 ∨ strings.HasSuffix hostname (str "." ++ e.2) = true
  · have hm : Suits hostname e.2 := (hasSuffix_iff _ _).mp hm0
    rw [if_pos hm0]
    by_cases hc : s.2 = [] ∨ e.2.length > s.2.length
    · rw [if_pos hc]
      right
      refine ⟨by simp, hm, ?_⟩
      intro e' he' hs'
      rcases List.mem_append.mp he' with hin | hin
      · rcases h with ⟨_, hno⟩ | ⟨_, _, hmax⟩
        · exact absurd hs' (hno e' hin)
        · have := hmax e' hin hs'
          rcases hc with hc | hc
          · rw [hc] at this
            exact le_trans this (Nat.zero_le _)
          · exact le_trans this (le_of_lt hc)
      · simp only [List.mem_singleton] at hin
        rw [hin]
    · rw [if_neg hc]
      rw [not_or] at hc
      rcases h with ⟨hs, _⟩ | ⟨hin, hsu, hmax⟩
      · exact absurd (by rw [hs]) hc.1
      · right
        refine ⟨List.mem_append_left _ hin, hsu, ?_⟩
        intro e' he' hs'
        rcases List.mem_append.mp he' with hin' | hin'
        · exact hmax e' hin' hs'
        · simp only [List.mem_singleton] at hin'
          rw [hin']
          exact not_lt.mp hc.2
  · have hm : ¬ Suits hostname e.2 := fun h => hm0 ((hasSuffix_iff _ _).mpr h)
    rw [if_neg hm0]
    rcases h with ⟨hs, hno⟩ | ⟨hin, hsu, hmax⟩
    · left
      refine ⟨hs, ?_⟩
      intro e' he'
      rcases List.mem_append.mp he' with hin' | hin'
      · exact hno e' hin'
      · simp only [List.mem_singleton] at hin'
        rw [hin']; exact hm
    · right
      refine ⟨List.mem_append_left _ hin, hsu, ?_⟩
      intro e' he' hs'
      rcases List.mem_append.mp he' with hin' | hin'
      · exact hmax e' hin' hs'
      · simp only [List.mem_singleton] at hin'
        rw [hin'] at hs'
        exact absurd hs' hm

theorem FindZone.inv_foldl (hostname : Str) (z seen : List (Str × Str)) (s : Str × Str)
    (h : provider.FindZone.Inv hostname seen s) :
    provider.FindZone.Inv hostname (seen ++ z) (z.foldl (ZoneIDName.FindZone.step hostname) s) := by
  induction z generalizing seen s with
  | nil => simpa using h
  | cons e z ih =>
    have := ih (seen ++ [e]) _ (FindZone.inv_step hostname seen s e h)
    simpa using this

theorem FindZone.inv (z : ZoneIDName) (hostname : Str) :
    provider.FindZone.Inv hostname z (z.FindZone hostname) := by
  have := FindZone.inv_foldl hostname z [] ([], []) (Or.inl ⟨rfl, by simp⟩)
  simpa using this

/-! ## Lemmas on `Policies` -/

theorem lookup_other_name (name : Str) (h1 : name ≠ str "sync")
    (h2 : name ≠ str "upsert-only") (h3 : name ≠ str "create-only") :
    Policies.lookup name = none := by
  have b1 : (name == str "sync") = false := by simpa using h1
  have b2 : (name == str "upsert-only") = false := by simpa using h2
  have b3 : (name == str "create-only") = false := by simpa using h3
  simp only [Policies, List.lookup_cons, b1, b2, b3, List.lookup_nil]

/-! ## Lemmas on `PerResource` -/

theorem less_iff (x y : Endpoint) :
    PerResource.less x y = true ↔ sort.Strings x.Targets < sort.Strings y.Targets := by
  simp [PerResource.less, Targets.IsLess]

theorem less_eq_false_iff (x y : Endpoint) :
    PerResource.less x y = false ↔ sort.Strings y.Targets ≤ sort.Strings x.Targets := by
  rw [← Bool.not_eq_true, less_iff, not_lt]

theorem resolveCreate_loop_min (l seen : List Endpoint) (m : Endpoint) (hm : m ∈ seen)
    (hmin : ∀ c ∈ seen, PerResource.less c m = false) :
    ∃ r, PerResource.ResolveCreate.loop l (some m) = some r ∧ r ∈ seen ++ l ∧
      ∀ c ∈ seen ++ l, PerResource.less c r = false := by
  induction l generalizing seen m with
  | nil => exact ⟨m, rfl, by simpa using hm, by simpa using hmin⟩
  | cons ep l ih =>
    rw [PerResource.ResolveCreate.loop]
    by_cases h : PerResource.less ep m = true
    · rw [if_pos h]
      obtain ⟨r, h1, h2, h3⟩ := ih (seen ++ [ep]) ep (by simp) (by
        intro c hc
        rcases List.mem_append.mp hc with hc | hc
        · rw [less_eq_false_iff]
          have h4 := (less_eq_false_iff c m).mp (hmin c hc)
          exact le_trans (le_of_lt ((less_iff ep m).mp h)) h4
        · simp only [List.mem_singleton] at hc
          rw [hc, less_eq_false_iff])
      exact ⟨r, h1, by simpa using h2, by simpa using h3⟩
    · rw [if_neg h]
      obtain ⟨r, h1, h2, h3⟩ := ih (seen ++ [ep]) m (List.mem_append_left _ hm) (by
        intro c hc
        rcases List.mem_append.mp hc with hc | hc
        · exact hmin c hc
        · simp only [List.mem_singleton] at hc
          rw [hc]
          simpa using h)
      exact ⟨r, h1, by simpa using h2, by simpa using h3⟩

theorem resolveCreate_min (a : Endpoint) (l : List Endpoint) :
    ∃ r, PerResource.ResolveCreate (a :: l) = some r ∧ r ∈ a :: l ∧
      ∀ c ∈ a :: l, PerResource.less c r = false := by
  have := resolveCreate_loop_min l [a] a (by simp) (by
    intro c hc
    simp only [List.mem_singleton] at hc
    rw [hc, less_eq_false_iff])
  simpa [PerResource.ResolveCreate, PerResource.ResolveCreate.loop] using this

/-- The scan of `ResolveCreate` from a first candidate `a`, by the winner of the rest. -/
theorem resolveCreate_loop_cons (l : List Endpoint) (a : Endpoint) :
    PerResource.ResolveCreate.loop l (some a) =
      match PerResource.ResolveCreate.loop l none with
      | none => some a
      | some m => if PerResource.less m a then some m else some a := by
  induction l generalizing a with
  | nil => rfl
  | cons b l ih =>
    have e1 : PerResource.ResolveCreate.loop (b :: l) none
        = PerResource.ResolveCreate.loop l (some b) := rfl
    rw [e1, PerResource.ResolveCreate.loop, ih b]
    by_cases hba : PerResource.less b a = true
    · rw [if_pos hba]
      cases hl : PerResource.ResolveCreate.loop l none with
      | none => simp [hba]
      | some m =>
        by_cases hmb : PerResource.less m b = true
        · have hma : PerResource.less m a = true :=
            (less_iff m a).mpr (lt_trans ((less_iff m b).mp hmb) ((less_iff b a).mp hba))
          simp [hmb, hma]
        · simp [hmb, hba]
    · rw [if_neg hba, ih a]
      cases hl : PerResource.ResolveCreate.loop l none with
      | none => simp [hba]
      | some m =>
        by_cases hmb : PerResource.less m b = true
        · simp [hmb]
        · have hma : ¬ PerResource.less m a = true := by
            intro hma
            have h1 := (less_eq_false_iff m b).mp (by simpa using hmb)
            have h2 := (less_eq_false_iff b a).mp (by simpa using hba)
            exact absurd ((less_iff m a).mp hma) (not_lt.mpr (le_trans h2 h1))
          simp [hmb, hba, hma]

theorem sortStable_perm (l : List Endpoint) : (PerResource.sortStable l).Perm l :=
  List.perm_insertionSort _ l

theorem sortStable_sorted (l : List Endpoint) :
    (PerResource.sortStable l).Sorted (fun a b => PerResource.less b a = false) := by
  haveI : IsTotal Endpoint (fun a b => PerResource.less b a = false) :=
    ⟨fun a b => by
      simp only [less_eq_false_iff]
      exact le_total _ _⟩
  haveI : IsTrans Endpoint (fun a b => PerResource.less b a = false) :=
    ⟨fun a b c h1 h2 => by
      simp only [less_eq_false_iff] at *
      exact le_trans h1 h2⟩
  exact List.sorted_insertionSort _ l

theorem resolveCreate_cons (a : Endpoint) (l : List Endpoint) :
    PerResource.ResolveCreate (a :: l) =
      match PerResource.ResolveCreate l with
      | none => some a
      | some m => if PerResource.less m a then some m else some a :=
  resolveCreate_loop_cons l a

theorem head_orderedInsert (a : Endpoint) (s : List Endpoint) :
    (s.orderedInsert (fun a b => PerResource.less b a = false) a).head? =
      match s.head? with
      | none => some a
      | some m => if PerResource.less m a then some m else some a := by
  cases s with
  | nil => rfl
  | cons b s =>
    simp only [List.orderedInsert, List.head?_cons]
    by_cases h : PerResource.less b a = true
    · simp [h]
    · simp [h]

/-- The stable sort puts the winner of `ResolveCreate` first. -/
theorem head_sortStable (l : List Endpoint) :
    (PerResource.sortStable l).head? = PerResource.ResolveCreate l := by
  induction l with
  | nil => rfl
  | cons a l ih =>
    rw [resolveCreate_cons, ← ih]
    exact head_orderedInsert a _

theorem resolveCreate_loop_sorted (s : List Endpoint) (m : Endpoint)
    (h : ∀ c ∈ s, PerResource.less c m = false) :
    PerResource.ResolveCreate.loop s (some m) = some m := by
  induction s with
  | nil => rfl
  | cons b s ih =>
    rw [PerResource.ResolveCreate.loop, h b (List.mem_cons_self _ _)]
    simp only [Bool.false_eq_true, if_false]
    exact ih (fun c hc => h c (List.mem_cons_of_mem _ hc))

theorem resolveCreate_sorted (s : List Endpoint)
    (hs : s.Sorted (fun a b => PerResource.less b a = false)) :
    PerResource.ResolveCreate s = s.head? := by
  cases s with
  | nil => rfl
  | cons m s =>
    exact resolveCreate_loop_sorted s m (List.sorted_cons.mp hs).1

theorem resolveCreate_sortStable (l : List Endpoint) :
    PerResource.ResolveCreate (PerResource.sortStable l) = PerResource.ResolveCreate l := by
  rw [resolveCreate_sorted _ (sortStable_sorted l), head_sortStable]

/-! ## Lemmas on `multiSource` and `dedupSource` -/

open source

theorem multiSource_loop_ok {World : Type} (defaultTargets : List Str)
    (children : List (Source World)) (result : List Endpoint) (w w1 : World)
    (lists : List (List Endpoint)) (h : queryAll children w = some (lists, w1)) :
    multiSource.Endpoints.loop defaultTargets children result w =
      (.ok (result ++ (lists.map (multiSource.applyDefaultTargets defaultTargets)).flatten),
        w1) := by
  induction children generalizing result w lists with
  | nil =>
    simp only [queryAll, Option.some.injEq, Prod.mk.injEq] at h
    obtain ⟨h1, h2⟩ := h
    subst h1; subst h2
    simp [multiSource.Endpoints.loop]
  | cons s children ih =>
    rw [queryAll] at h
    rw [multiSource.Endpoints.loop]
    rcases hs : s.Endpoints w with ⟨res, w2⟩
    rw [hs] at h
    cases res with
    | error err => simp at h
    | ok endpoints =>
      simp only [] at h ⊢
      rcases hq : queryAll children w2 with _ | ⟨lists2, w3⟩
      · rw [hq] at h; simp at h
      · rw [hq] at h
        simp only [Option.some.injEq, Prod.mk.injEq] at h
        obtain ⟨h1, h2⟩ := h
        subst h1; subst h2
        rw [ih _ _ _ hq]
        simp

theorem multiSource_loop_error {World : Type} (defaultTargets : List Str)
    (pre : List (Source World)) (c : Source World) (post : List (Source World))
    (result : List Endpoint) (w w1 w2 : World) (lists : List (List Endpoint)) (err : GoError)
    (h : queryAll pre w = some (lists, w1)) (hc : c.Endpoints w1 = (.error err, w2)) :
    multiSource.Endpoints.loop defaultTargets (pre ++ c :: post) result w =
      (.error err, w2) := by
  induction pre generalizing result w lists with
  | nil =>
    simp only [queryAll, Option.some.injEq, Prod.mk.injEq] at h
    obtain ⟨_, h2⟩ := h
    subst h2
    simp [multiSource.Endpoints.loop, hc]
  | cons s pre ih =>
    rw [queryAll] at h
    rw [List.cons_append, multiSource.Endpoints.loop]
    rcases hs : s.Endpoints w with ⟨res, w3⟩
    rw [hs] at h
    cases res with
    | error e => simp at h
    | ok endpoints =>
      simp only [] at h ⊢
      rcases hq : queryAll pre w3 with _ | ⟨lists2, w4⟩
      · rw [hq] at h; simp at h
      · rw [hq] at h
        simp only [Option.some.injEq, Prod.mk.injEq] at h
        obtain ⟨_, h2⟩ := h
        subst h2
        exact ih _ _ _ hq

theorem applyDefaultTargets_length (defaultTargets : List Str) (l : List Endpoint) :
    (multiSource.applyDefaultTargets defaultTargets l).length = l.length := by
  unfold multiSource.applyDefaultTargets
  split <;> simp

theorem applyDefaultTargets_flatten (defaultTargets : List Str) (lists : List (List Endpoint)) :
    (lists.map (multiSource.applyDefaultTargets defaultTargets)).flatten =
      multiSource.applyDefaultTargets defaultTargets lists.flatten := by
  unfold multiSource.applyDefaultTargets
  by_cases h : defaultTargets.length > 0
  · simp only [h, if_true]
    induction lists with
    | nil => rfl
    | cons l lists ih =>
      simp only [List.map_cons, List.flatten_cons, List.map_append, ih]
  · simp only [h, if_false]
    simp

theorem multiSource_ok {World : Type} (children : List (Source World))
    (defaultTargets : List Str) (w w1 : World) (lists : List (List Endpoint))
    (h : queryAll children w = some (lists, w1)) :
    multiSource.Endpoints children defaultTargets w =
      (.ok (multiSource.applyDefaultTargets defaultTargets lists.flatten), w1) := by
  unfold multiSource.Endpoints
  rw [multiSource_loop_ok defaultTargets children [] w w1 lists h, applyDefaultTargets_flatten]
  simp

theorem dedup_loop_result (targetsString : Targets → Str) (l : List Endpoint)
    (collected : List Str) (result : List Endpoint) :
    dedupSource.Endpoints.loop targetsString l collected result =
      result ++ dedupSource.Endpoints.loop targetsString l collected [] := by
  induction l generalizing collected result with
  | nil => simp [dedupSource.Endpoints.loop]
  | cons ep l ih =>
    rw [dedupSource.Endpoints.loop, dedupSource.Endpoints.loop]
    split
    · exact ih _ _
    · rw [ih _ (result ++ [ep]), ih _ ([] ++ [ep])]
      simp

theorem dedup_loop_sublist (targetsString : Targets → Str) (l : List Endpoint)
    (collected : List Str) :
    (dedupSource.Endpoints.loop targetsString l collected []).Sublist l := by
  induction l generalizing collected with
  | nil => simp [dedupSource.Endpoints.loop]
  | cons ep l ih =>
    rw [dedupSource.Endpoints.loop]
    split
    · exact (ih _).cons _
    · rw [dedup_loop_result]
      exact (ih _).cons₂ _

theorem dedup_loop_append (targetsString : Targets → Str) (l1 l2 : List Endpoint)
    (collected : List Str) (result : List Endpoint) :
    ∃ collected1,
      dedupSource.Endpoints.loop targetsString (l1 ++ l2) collected result =
        dedupSource.Endpoints.loop targetsString l2 collected1
          (dedupSource.Endpoints.loop targetsString l1 collected result) ∧
      ∀ k, k ∈ collected1 ↔
        k ∈ collected ∨ ∃ e ∈ l1, dedupSource.identifier targetsString e = k := by
  induction l1 generalizing collected result with
  | nil => exact ⟨collected, rfl, by simp⟩
  | cons ep l1 ih =>
    rw [List.cons_append, dedupSource.Endpoints.loop, dedupSource.Endpoints.loop]
    by_cases h : dedupSource.identifier targetsString ep ∈ collected
    · rw [if_pos h, if_pos h]
      obtain ⟨c1, h1, h2⟩ := ih collected result
      refine ⟨c1, h1, ?_⟩
      intro k
      rw [h2 k]
      constructor
      · rintro (hk | ⟨e, he, hek⟩)
        · exact Or.inl hk
        · exact Or.inr ⟨e, List.mem_cons_of_mem _ he, hek⟩
      · rintro (hk | ⟨e, he, hek⟩)
        · exact Or.inl hk
        · rcases List.mem_cons.mp he with he | he
          · exact Or.inl (by rw [← hek, he]; exact h)
          · exact Or.inr ⟨e, he, hek⟩
    · rw [if_neg h, if_neg h]
      obtain ⟨c1, h1, h2⟩ := ih (dedupSource.identifier targetsString ep :: collected)
        (result ++ [ep])
      refine ⟨c1, h1, ?_⟩
      intro k
      rw [h2 k]
      constructor
      · rintro (hk | ⟨e, he, hek⟩)
        · rcases List.mem_cons.mp hk with hk | hk
          · exact Or.inr ⟨ep, List.mem_cons_self _ _, hk.symm⟩
          · exact Or.inl hk
        · exact Or.inr ⟨e, List.mem_cons_of_mem _ he, hek⟩
      · rintro (hk | ⟨e, he, hek⟩)
        · exact Or.inl (List.mem_cons_of_mem _ hk)
        · rcases List.mem_cons.mp he with he | he
          · exact Or.inl (by rw [← hek, he]; exact List.mem_cons_self _ _)
          · exact Or.inr ⟨e, he, hek⟩

/-- The endpoints `dedupSource.Endpoints` keeps of `pre ++ ep :: post`: those it keeps of
`pre`, then `ep` unless an endpoint of `pre` has its identifier, then endpoints of `post`. -/
theorem dedup_loop_split (targetsString : Targets → Str) (pre post : List Endpoint)
    (ep : Endpoint) :
    ∃ tail, tail.Sublist post ∧
      ((∃ e ∈ pre, dedupSource.identifier targetsString e =
            dedupSource.identifier targetsString ep) →
        dedupSource.Endpoints.loop targetsString (pre ++ ep :: post) [] [] =
          dedupSource.Endpoints.loop targetsString pre [] [] ++ tail) ∧
      ((∀ e ∈ pre, dedupSource.identifier targetsString e ≠
            dedupSource.identifier targetsString ep) →
        dedupSource.Endpoints.loop targetsString (pre ++ ep :: post) [] [] =
          dedupSource.Endpoints.loop targetsString pre [] [] ++ ep :: tail) := by
  obtain ⟨c1, h1, h2⟩ := dedup_loop_append targetsString pre (ep :: post) [] []
  rw [h1, dedup_loop_result]
  by_cases h : dedupSource.identifier targetsString ep ∈ c1
  · refine ⟨dedupSource.Endpoints.loop targetsString post c1 [], dedup_loop_sublist _ _ _, ?_, ?_⟩
    · intro _
      rw [dedupSource.Endpoints.loop, if_pos h]
    · intro hno
      exfalso
      rcases (h2 _).mp h with hk | ⟨e, he, hek⟩
      · simp at hk
      · exact hno e he hek
  · refine ⟨dedupSource.Endpoints.loop targetsString post
        (dedupSource.identifier targetsString ep :: c1) [], dedup_loop_sublist _ _ _, ?_, ?_⟩
    · rintro ⟨e, he, hek⟩
      exact absurd ((h2 _).mpr (Or.inr ⟨e, he, hek⟩)) h
    · intro _
      rw [dedupSource.Endpoints.loop, if_neg h, dedup_loop_result targetsString post _ ([] ++ [ep])]
      simp

/-! ## Lemmas on `groupByNameAndType` -/

open provider.cloudflare

theorem supported_iff (t : Str) :
    SupportedRecordType t = true ↔
      (t = str "A" ∨ t = str "CNAME" ∨ t = str "SRV" ∨ t = str "TXT" ∨ t = str "NS") := by
  unfold SupportedRecordType
  split <;> simp_all

theorem getLast_append_ne_nil (a b : Str) (hb : b ≠ []) : (a ++ b).getLast? = b.getLast? := by
  rw [List.getLast?_append]
  cases h : b.getLast? with
  | none => exact absurd (List.getLast?_eq_none_iff.mp h) hb
  | some x => rfl

/-- No supported type is the end of another one: the key `Name + Type` of a record of
supported type gives back the name and the type. -/
theorem key_injective (n1 t1 n2 t2 : Str) (h1 : SupportedRecordType t1 = true)
    (h2 : SupportedRecordType t2 = true) (h : n1 ++ t1 = n2 ++ t2) : n1 = n2 ∧ t1 = t2 := by
  have hl := congrArg List.getLast? h
  rw [supported_iff] at h1 h2
  have ht : t1 = t2 := by
    rcases h1 with rfl | rfl | rfl | rfl | rfl <;> rcases h2 with rfl | rfl | rfl | rfl | rfl <;>
      first
      | rfl
      | (exfalso
         rw [getLast_append_ne_nil _ _ (by decide), getLast_append_ne_nil _ _ (by decide)] at hl
         revert hl
         decide)
  subst ht
  exact ⟨List.append_cancel_right h, rfl⟩

theorem lookup_of_mem {V : Type} (l : List (Str × V)) (hn : (l.map Prod.fst).Nodup)
    (k : Str) (v : V) (hm : (k, v) ∈ l) : l.lookup k = some v := by
  induction l with
  | nil => simp at hm
  | cons e l ih =>
    obtain ⟨a, b⟩ := e
    rw [List.map_cons, List.nodup_cons] at hn
    rcases List.mem_cons.mp hm with heq | hin
    · have h1 : k = a := congrArg Prod.fst heq
      have h2 : v = b := congrArg Prod.snd heq
      subst h1; subst h2
      simp [List.lookup_cons]
    · have hak : k ≠ a := by
        intro e
        apply hn.1
        rw [← e]
        exact List.mem_map.mpr ⟨(k, v), hin, rfl⟩
      have hb : (k == a) = false := by simpa using hak
      rw [List.lookup_cons, hb]
      exact ih hn.2 hin

theorem lookup_none_of_not_mem {V : Type} (l : List (Str × V)) (k : Str)
    (h : k ∉ l.map Prod.fst) : l.lookup k = none := by
  induction l with
  | nil => rfl
  | cons e l ih =>
    obtain ⟨a, b⟩ := e
    simp only [List.map_cons, List.mem_cons, not_or] at h
    have hb : (k == a) = false := by simpa using h.1
    rw [List.lookup_cons, hb]
    exact ih h.2

theorem step_unsupported (groups : Groups) (r : DNSRecord)
    (hr : SupportedRecordType r.Type_ = false) : groupByNameAndType.step groups r = groups := by
  simp [groupByNameAndType.step, hr]

theorem step_new (groups : Groups) (r : DNSRecord) (hr : SupportedRecordType r.Type_ = true)
    (hk : r.Name ++ r.Type_ ∉ groups.map Prod.fst) :
    groupByNameAndType.step groups r = groups ++ [(r.Name ++ r.Type_, [r])] := by
  have h1 : Groups.set groups (r.Name ++ r.Type_) [] = groups ++ [(r.Name ++ r.Type_, [])] := by
    unfold Groups.set
    rw [if_neg hk]
  have h2 : r.Name ++ r.Type_ ∈ (groups ++ [(r.Name ++ r.Type_, [])]).map Prod.fst := by simp
  have h3 : Groups.get (groups ++ [(r.Name ++ r.Type_, [])]) (r.Name ++ r.Type_) = [] := by
    unfold Groups.get
    rw [List.lookup_append, lookup_none_of_not_mem groups _ hk]
    simp [List.lookup_cons]
  have h4 : groups.map (fun e => if e.1 = r.Name ++ r.Type_ then (r.Name ++ r.Type_, [r]) else e)
      = groups := by
    conv_rhs => rw [← List.map_id groups]
    apply List.map_congr_left
    intro e he
    have : e.1 ≠ r.Name ++ r.Type_ := fun h => hk (h ▸ List.mem_map_of_mem Prod.fst he)
    simp [this]
  unfold groupByNameAndType.step
  simp only [hr, Bool.not_true, Bool.false_eq_true, if_false, if_neg hk, h1, h3, List.nil_append]
  unfold Groups.set
  rw [if_pos h2, List.map_append, h4]
  simp

theorem step_old (groups : Groups) (r : DNSRecord) (hr : SupportedRecordType r.Type_ = true)
    (hn : (groups.map Prod.fst).Nodup) (hk : r.Name ++ r.Type_ ∈ groups.map Prod.fst) :
    groupByNameAndType.step groups r =
      groups.map (fun e => if e.1 = r.Name ++ r.Type_ then (e.1, e.2 ++ [r]) else e) := by
  unfold groupByNameAndType.step
  simp only [hr, Bool.not_true, Bool.false_eq_true, if_false, if_pos hk]
  unfold Groups.set
  rw [if_pos hk]
  apply List.map_congr_left
  intro e he
  by_cases h : e.1 = r.Name ++ r.Type_
  · rw [if_pos h, if_pos h]
    have : Groups.get groups (r.Name ++ r.Type_) = e.2 := by
      unfold Groups.get
      rw [lookup_of_mem groups hn (r.Name ++ r.Type_) e.2 (by rw [← h]; exact he)]
      rfl
    rw [this, h]
  · rw [if_neg h, if_neg h]

theorem groups_inv_step (processed : List DNSRecord) (groups : Groups) (r : DNSRecord)
    (h : groupByNameAndType.Inv processed groups) :
    groupByNameAndType.Inv (processed ++ [r]) (groupByNameAndType.step groups r) := by
  obtain ⟨hn, he, hk⟩ := h
  by_cases hr : SupportedRecordType r.Type_ = true
  · by_cases hmem : r.Name ++ r.Type_ ∈ groups.map Prod.fst
    · rw [step_old groups r hr hn hmem]
      have hkeys : (groups.map
          (fun e => if e.1 = r.Name ++ r.Type_ then (e.1, e.2 ++ [r]) else e)).map Prod.fst
          = groups.map Prod.fst := by
        rw [List.map_map]
        apply List.map_congr_left
        intro e _
        by_cases h : e.1 = r.Name ++ r.Type_ <;> simp [h]
      refine ⟨by rw [hkeys]; exact hn, ?_, ?_⟩
      · intro e' he'
        obtain ⟨e, hmem2, rfl⟩ := List.mem_map.mp he'
        obtain ⟨h1, h2⟩ := he e hmem2
        by_cases h : e.1 = r.Name ++ r.Type_
        · rw [if_pos h]
          simp only [List.filter_append, ← h1]
          simp [hr, h]
        · rw [if_neg h]
          simp only [List.filter_append, ← h1]
          have : ¬ r.Name ++ r.Type_ = e.1 := fun x => h x.symm
          simp [this, h2]
      · intro r' hr' hs'
        rw [hkeys]
        rcases List.mem_append.mp hr' with h | h
        · exact hk r' h hs'
        · simp only [List.mem_singleton] at h
          rw [h]; exact hmem
    · rw [step_new groups r hr hmem]
      refine ⟨?_, ?_, ?_⟩
      · rw [List.map_append, List.nodup_append]
        refine ⟨hn, by simp, ?_⟩
        intro a ha hb
        simp only [List.map_cons, List.map_nil, List.mem_singleton] at hb
        exact hmem (hb ▸ ha)
      · intro e he'
        rcases List.mem_append.mp he' with h | h
        · obtain ⟨h1, h2⟩ := he e h
          have : ¬ r.Name ++ r.Type_ = e.1 :=
            fun x => hmem (x ▸ List.mem_map_of_mem Prod.fst h)
          simp only [List.filter_append, ← h1]
          simp [this, h2]
        · simp only [List.mem_singleton] at h
          subst h
          have hnone : processed.filter
              (fun r' => SupportedRecordType r'.Type_ &&
                decide (r'.Name ++ r'.Type_ = r.Name ++ r.Type_)) = [] := by
            rw [List.filter_eq_nil_iff]
            intro r' hr'
            simp only [Bool.and_eq_true, decide_eq_true_eq, not_and]
            intro hs' hkey
            exact hmem (hkey ▸ hk r' hr' hs')
          simp only [List.filter_append, hnone]
          simp [hr]
      · intro r' hr' hs'
        rw [List.map_append]
        rcases List.mem_append.mp hr' with h | h
        · exact List.mem_append_left _ (hk r' h hs')
        · simp only [List.mem_singleton] at h
          rw [h]; simp
  · have hr' : SupportedRecordType r.Type_ = false := by simpa using hr
    rw [step_unsupported groups r hr']
    refine ⟨hn, ?_, ?_⟩
    · intro e he'
      obtain ⟨h1, h2⟩ := he e he'
      simp only [List.filter_append, ← h1]
      simp [hr', h2]
    · intro r' hmem hs'
      rcases List.mem_append.mp hmem with h | h
      · exact hk r' h hs'
      · simp only [List.mem_singleton] at h
        rw [h, hr'] at hs'
        exact absurd hs' (by simp)

theorem groups_inv_foldl (rest processed : List DNSRecord) (groups : Groups)
    (h : groupByNameAndType.Inv processed groups) :
    groupByNameAndType.Inv (processed ++ rest) (rest.foldl groupByNameAndType.step groups) := by
  induction rest generalizing processed groups with
  | nil => simpa using h
  | cons r rest ih =>
    have := ih (processed ++ [r]) _ (groups_inv_step processed groups r h)
    simpa using this

theorem groups_inv (records : List DNSRecord) :
    groupByNameAndType.Inv records (groupByNameAndType.groups records) := by
  have := groups_inv_foldl records [] [] ⟨by simp, by simp, by simp⟩
  simpa using this

theorem mem_distinctPairs (records : List DNSRecord) (p : Str × Str) :
    p ∈ distinctPairs records ↔
      ∃ r ∈ records, SupportedRecordType r.Type_ = true ∧ (r.Name, r.Type_) = p := by
  unfold distinctPairs
  rw [List.mem_dedup, List.mem_map]
  constructor
  · rintro ⟨r, hr, rfl⟩
    rw [List.mem_filter] at hr
    exact ⟨r, hr.1, hr.2, rfl⟩
  · rintro ⟨r, hr, hs, rfl⟩
    exact ⟨r, List.mem_filter.mpr ⟨hr, hs⟩, rfl⟩

theorem filter_key_eq (records : List DNSRecord) (n t : Str)
    (ht : SupportedRecordType t = true) :
    records.filter (fun r => SupportedRecordType r.Type_ && decide (r.Name ++ r.Type_ = n ++ t))
      = recordsOf records (n, t) := by
  unfold recordsOf
  apply List.filter_congr
  intro r _
  by_cases h : r.Name = n ∧ r.Type_ = t
  · obtain ⟨h1, h2⟩ := h
    simp [h1, h2, ht]
  · have : ¬ (SupportedRecordType r.Type_ = true ∧ r.Name ++ r.Type_ = n ++ t) := by
      rintro ⟨hs, hk⟩
      exact h (key_injective _ _ _ _ hs ht hk)
    simp only [h, decide_False]
    simpa using this

theorem mem_recordsOf (records : List DNSRecord) (p : Str × Str) (r : DNSRecord) :
    r ∈ recordsOf records p ↔ r ∈ records ∧ r.Name = p.1 ∧ r.Type_ = p.2 := by
  unfold recordsOf
  rw [List.mem_filter]
  simp

theorem recordsOf_injective (records : List DNSRecord) (p q : Str × Str)
    (hp : p ∈ distinctPairs records) (h : recordsOf records p = recordsOf records q) :
    p = q := by
  obtain ⟨r, hr, _, rfl⟩ := (mem_distinctPairs records p).mp hp
  have : r ∈ recordsOf records q := by
    rw [← h, mem_recordsOf]
    exact ⟨hr, rfl, rfl⟩
  obtain ⟨_, h1, h2⟩ := (mem_recordsOf records q r).mp this
  exact Prod.ext h1 h2

/-- The values of the map `groups` are, up to their order, the lists of the records of each
distinct pair of name and supported type. -/
theorem groups_values_perm (records : List DNSRecord) :
    ((groupByNameAndType.groups records).map Prod.snd).Perm
      ((distinctPairs records).map (recordsOf records)) := by
  obtain ⟨hn, he, hk⟩ := groups_inv records
  have key_of : ∀ e ∈ groupByNameAndType.groups records, ∀ r ∈ e.2,
      r ∈ records ∧ SupportedRecordType r.Type_ = true ∧ r.Name ++ r.Type_ = e.1 := by
    intro e hmem r hr
    rw [(he e hmem).1, List.mem_filter] at hr
    simpa using hr
  have val_of : ∀ e ∈ groupByNameAndType.groups records, ∀ r ∈ e.2,
      e.2 = recordsOf records (r.Name, r.Type_) := by
    intro e hmem r hr
    obtain ⟨_, h2, h3⟩ := key_of e hmem r hr
    rw [← filter_key_eq records _ _ h2, h3]
    exact (he e hmem).1
  rw [List.perm_ext_iff_of_nodup]
  · intro a
    rw [List.mem_map, List.mem_map]
    constructor
    · rintro ⟨e, hmem, rfl⟩
      obtain ⟨r, hr⟩ := List.exists_mem_of_ne_nil _ (he e hmem).2
      obtain ⟨h1, h2, _⟩ := key_of e hmem r hr
      exact ⟨(r.Name, r.Type_), (mem_distinctPairs records _).mpr ⟨r, h1, h2, rfl⟩,
        (val_of e hmem r hr).symm⟩
    · rintro ⟨p, hp, rfl⟩
      obtain ⟨r, hr, hs, rfl⟩ := (mem_distinctPairs records p).mp hp
      obtain ⟨e, hmem, hfst⟩ := List.mem_map.mp (hk r hr hs)
      refine ⟨e, hmem, ?_⟩
      rw [(he e hmem).1, hfst]
      exact filter_key_eq records _ _ hs
  · apply List.Nodup.map_on _ (List.Nodup.of_map Prod.fst hn)
    intro e1 h1 e2 h2 heq
    obtain ⟨r, hr⟩ := List.exists_mem_of_ne_nil _ (he e1 h1).2
    have k1 := (key_of e1 h1 r hr).2.2
    have k2 := (key_of e2 h2 r (heq ▸ hr)).2.2
    exact Prod.ext (k1.symm.trans k2) heq
  · apply List.Nodup.map_on _ (List.nodup_dedup _)
    intro p hp q _ heq
    exact recordsOf_injective records p q hp heq

theorem groups_filter (records : List DNSRecord) (groups : Groups) :
    records.foldl groupByNameAndType.step groups =
      (records.filter (fun r => SupportedRecordType r.Type_)).foldl
        groupByNameAndType.step groups := by
  induction records generalizing groups with
  | nil => rfl
  | cons r records ih =>
    by_cases hr : SupportedRecordType r.Type_ = true
    · have e : (r :: records).filter (fun r => SupportedRecordType r.Type_) =
          r :: records.filter (fun r => SupportedRecordType r.Type_) := by
        simp [List.filter_cons, hr]
      rw [e, List.foldl_cons, List.foldl_cons, ih]
    · have hr' : SupportedRecordType r.Type_ = false := by simpa using hr
      have e : (r :: records).filter (fun r => SupportedRecordType r.Type_) =
          records.filter (fun r => SupportedRecordType r.Type_) := by
        simp [List.filter_cons, hr']
      rw [e, List.foldl_cons, step_unsupported groups r hr', ih]

theorem endpointOf_recordsOf (records : List DNSRecord) (p : Str × Str)
    (hp : p ∈ distinctPairs records) :
    (groupByNameAndType.endpointOf (recordsOf records p)).Targets =
        (recordsOf records p).map (fun r => r.Content) ∧
      (groupByNameAndType.endpointOf (recordsOf records p)).RecordType = p.2 ∧
      (groupByNameAndType.endpointOf (recordsOf records p)).DNSName =
        strings.TrimSuffix p.1 (str ".") := by
  obtain ⟨r, hr, _, rfl⟩ := (mem_distinctPairs records p).mp hp
  have hmem : r ∈ recordsOf records (r.Name, r.Type_) :=
    (mem_recordsOf records _ r).mpr ⟨hr, rfl, rfl⟩
  cases hl : recordsOf records (r.Name, r.Type_) with
  | nil => rw [hl] at hmem; simp at hmem
  | cons r0 rest =>
    have h0 : r0 ∈ recordsOf records (r.Name, r.Type_) := by rw [hl]; simp
    obtain ⟨_, h1, h2⟩ := (mem_recordsOf records _ r0).mp h0
    refine ⟨rfl, ?_, ?_⟩
    · exact h2
    · show strings.TrimSuffix r0.Name (str ".") = _
      rw [h1]

/-- The endpoints returned are, up to their order, the endpoints of the distinct pairs. -/
theorem grouping_perm (visit : Groups → Groups) (hv : ∀ g, (visit g).Perm g)
    (records : List DNSRecord) :
    (groupByNameAndType visit records).Perm
      ((distinctPairs records).map
        (fun p => groupByNameAndType.endpointOf (recordsOf records p))) := by
  unfold groupByNameAndType
  have h1 := (hv (groupByNameAndType.groups records)).map
    (fun e => groupByNameAndType.endpointOf e.2)
  have h2 := (groups_values_perm records).map groupByNameAndType.endpointOf
  rw [List.map_map, List.map_map] at h2
  exact h1.trans h2

/-! ## Lemmas on `filterOwnedRecords` -/

theorem filterOwned_loop (ownerID : Str) (eps filtered : List Endpoint) :
    registry.filterOwnedRecords.loop ownerID eps filtered =
      filtered ++ eps.filter
        (fun ep => decide (ep.Labels.find? registry.OwnerLabelKey = some ownerID)) := by
  induction eps generalizing filtered with
  | nil => simp [registry.filterOwnedRecords.loop]
  | cons ep eps ih =>
    rw [registry.filterOwnedRecords.loop]
    cases h : ep.Labels.find? registry.OwnerLabelKey with
    | none =>
      simp only [ih, List.filter_cons, h]
      simp
    | some o =>
      by_cases ho : o = ownerID
      · simp only [ho, ne_eq, not_true_eq_false, if_false, ih, List.filter_cons, h]
        simp
      · simp only [ne_eq, ho, not_false_eq_true, if_true, ih, List.filter_cons, h]
        simp [ho]

/-! ## Lemmas on skipped tokens -/

theorem trim_of_not_mem (s : Str) (c : Nat) (h : c ∉ s) : strings.Trim s c = s := by
  apply trim_id
  · intro hh
    cases s with
    | nil => simp at hh
    | cons a s =>
      simp only [List.head?_cons, Option.some.injEq] at hh
      exact h (hh ▸ List.mem_cons_self _ _)
  · intro hh
    obtain ⟨ys, hys⟩ := List.getLast?_eq_some_iff.mp hh
    exact h (by rw [hys]; simp)

theorem split_append_last (a b : Str) (c : Nat) (hb : c ∉ b) :
    strings.Split (a ++ [c] ++ b) c = strings.Split a c ++ [b] := by
  unfold strings.Split List.splitOn
  have hb' : b.splitOnP (fun x => x == c) = [b] := by
    apply List.splitOnP_eq_single
    intro x hx hxc
    have : x = c := by simpa using hxc
    exact hb (this ▸ hx)
  induction a with
  | nil => simp [List.splitOnP_cons, hb']
  | cons x a ih =>
    simp only [List.cons_append, List.splitOnP_cons]
    rw [List.append_assoc] at ih
    simp only [List.cons_append, List.nil_append, List.append_assoc] at ih ⊢
    rw [ih]
    by_cases hx : (x == c) = true
    · simp [hx]
    · simp only [hx, Bool.false_eq_true, if_false]
      cases hsp : List.splitOnP (fun x => x == c) a with
      | nil => exact absurd hsp (List.splitOnP_ne_nil _ _)
      | cons h t => rfl

theorem split_length (s : Str) (c : Nat) : (strings.Split s c).length = s.count c + 1 := by
  unfold strings.Split List.splitOn
  induction s with
  | nil => rfl
  | cons x s ih =>
    rw [List.splitOnP_cons]
    by_cases hx : x = c
    · subst hx
      simp [ih]
    · have hb : (x == c) = false := by simpa using hx
      simp only [hb, Bool.false_eq_true, if_false]
      have : (List.modifyHead (List.cons x) (List.splitOnP (fun x => x == c) s)).length
          = (List.splitOnP (fun x => x == c) s).length := by
        cases List.splitOnP (fun x => x == c) s <;> rfl
      rw [this, ih, List.count_cons_of_ne (Ne.symm hx)]

/-- A last token that does not split into two pieces changes nothing. -/
theorem loop_skip_last (tokens : List Str) (s : Str) (hs : (strings.Split s 61).length ≠ 2)
    (endpointLabels : Labels) (found : Bool) :
    NewLabelsFromString.loop (tokens ++ [s]) endpointLabels found =
      NewLabelsFromString.loop tokens endpointLabels found := by
  induction tokens generalizing endpointLabels found with
  | nil =>
    rw [List.nil_append]
    conv_lhs => rw [NewLabelsFromString.loop]
    rw [if_pos hs]
  | cons t ts ih =>
    rw [List.cons_append, NewLabelsFromString.loop, NewLabelsFromString.loop]
    simp only [ih]

/-! ## Lemmas on `AdjustEndpoints` and `Difference` -/

theorem adjustEndpoints_loop (proxiedByDefault : Bool) (endpoints adjusted : List Endpoint) :
    AdjustEndpoints.loop proxiedByDefault endpoints adjusted =
      adjusted ++ endpoints.map
        (fun e => if shouldBeProxied e proxiedByDefault then { e with RecordTTL := 0 } else e) := by
  induction endpoints generalizing adjusted with
  | nil => simp [AdjustEndpoints.loop]
  | cons e endpoints ih =>
    rw [AdjustEndpoints.loop]
    by_cases h : shouldBeProxied e proxiedByDefault = true
    · simp [h, ih]
    · simp [h, ih]

theorem difference_index_mem (current : List Str) (index : List Str) (x : Str) :
    x ∈ current.foldl Difference.insert index ↔ x ∈ index ∨ x ∈ current := by
  induction current generalizing index with
  | nil => simp
  | cons c current ih =>
    rw [List.foldl_cons, ih]
    unfold Difference.insert
    by_cases hc : c ∈ index
    · rw [if_pos hc]
      constructor
      · rintro (h | h)
        · exact Or.inl h
        · exact Or.inr (List.mem_cons_of_mem _ h)
      · rintro (h | h)
        · exact Or.inl h
        · rcases List.mem_cons.mp h with h | h
          · exact Or.inl (h ▸ hc)
          · exact Or.inr h
    · rw [if_neg hc]
      simp only [List.mem_append, List.mem_singleton, List.mem_cons]
      tauto

theorem difference_index_nodup (current : List Str) (index : List Str) (h : index.Nodup) :
    (current.foldl Difference.insert index).Nodup := by
  induction current generalizing index with
  | nil => exact h
  | cons c current ih =>
    rw [List.foldl_cons]
    apply ih
    unfold Difference.insert
    by_cases hc : c ∈ index
    · rw [if_pos hc]; exact h
    · rw [if_neg hc]
      rw [List.nodup_append]
      refine ⟨h, List.nodup_singleton _, ?_⟩
      intro a ha hb
      simp only [List.mem_singleton] at hb
      exact hc (hb ▸ ha)

theorem difference_delete_mem (index : List Str) (x y : Str) :
    y ∈ Difference.delete index x ↔ y ∈ index ∧ y ≠ x := by
  unfold Difference.delete
  rw [List.mem_filter]
  simp

/-- The index left by the second loop of `Difference`: the keys that are not in `desired`. -/
theorem difference_loop_index (desired add leave index : List Str) :
    (Difference.loop desired add leave index).2.2 =
      index.filter (fun k => decide (k ∉ desired)) := by
  induction desired generalizing add leave index with
  | nil => simp [Difference.loop]
  | cons x desired ih =>
    rw [Difference.loop]
    have e : (Difference.delete index x).filter (fun k => decide (k ∉ desired)) =
        index.filter (fun k => decide (k ∉ x :: desired)) := by
      unfold Difference.delete
      rw [List.filter_filter]
      apply List.filter_congr
      intro k _
      simp only [List.mem_cons, not_or, ne_eq, decide_not, Bool.and_eq_true,
        Bool.not_eq_true', decide_eq_false_iff_not, decide_eq_true_eq]
      by_cases hk : k = x <;> simp [hk]
    split
    · rw [ih, e]
    · rw [ih, e]

/-- The lists `add` and `leave` of the second loop of `Difference`, for a list `desired`
without repeated entries. -/
theorem difference_loop_nodup (desired add leave index : List Str) (hd : desired.Nodup) :
    (Difference.loop desired add leave index).1 =
        add ++ desired.filter (fun x => decide (x ∉ index)) ∧
      (Difference.loop desired add leave index).2.1 =
        leave ++ desired.filter (fun x => decide (x ∈ index)) := by
  induction desired generalizing add leave index with
  | nil => simp [Difference.loop]
  | cons x desired ih =>
    rw [List.nodup_cons] at hd
    have e1 : desired.filter (fun y => decide (y ∉ Difference.delete index x)) =
        desired.filter (fun y => decide (y ∉ index)) := by
      apply List.filter_congr
      intro y hy
      have hyx : y ≠ x := fun h => hd.1 (h ▸ hy)
      simp [difference_delete_mem, hyx]
    have e2 : desired.filter (fun y => decide (y ∈ Difference.delete index x)) =
        desired.filter (fun y => decide (y ∈ index)) := by
      apply List.filter_congr
      intro y hy
      have hyx : y ≠ x := fun h => hd.1 (h ▸ hy)
      simp [difference_delete_mem, hyx]
    rw [Difference.loop]
    by_cases hx : x ∈ index
    · rw [if_pos hx]
      obtain ⟨h1, h2⟩ := ih add (leave ++ [x]) (Difference.delete index x) hd.2
      rw [h1, h2, e1, e2]
      simp [List.filter_cons, hx]
    · rw [if_neg hx]
      obtain ⟨h1, h2⟩ := ih (add ++ [x]) leave (Difference.delete index x) hd.2
      rw [h1, h2, e1, e2]
      simp [List.filter_cons, hx]

/-- The first loop of `Zones` issues `ZoneDetails` calls only. -/
theorem zones_byID_mutators {World : Type} (p : CloudFlareProvider World) :
    ∀ (ids : List Str) (result : List Zone) (st : ProviderState World),
      (Zones.byID p ids result st).2.calls.filter Call.isMutator
        = st.calls.filter Call.isMutator := by
  intro ids
  induction ids with
  | nil => intro result st; rfl
  | cons zoneID ids ih =>
    intro result st
    rw [Zones.byID]
    split
    · rw [ih]; simp [Call.isMutator]
    · rw [ih]; simp [Call.isMutator]

/-- The loop of `Zones` over the pages issues `ListZonesContext` calls only. -/
theorem zones_pages_mutators {World : Type} (p : CloudFlareProvider World) :
    ∀ (fuel : Nat) (result : List Zone) (st : ProviderState World),
      (Zones.pages p fuel result st).2.calls.filter Call.isMutator
        = st.calls.filter Call.isMutator := by
  intro fuel
  induction fuel with
  | zero => intro result st; rfl
  | succ fuel ih =>
    intro result st
    rw [Zones.pages]
    split
    · simp [Call.isMutator]
    · split
      · simp [Call.isMutator]
      · rw [ih]; simp [Call.isMutator]

/-- The method `Zones` issues no call that changes records. -/
theorem zones_mutators {World : Type} (p : CloudFlareProvider World) (fuel : Nat)
    (st : ProviderState World) :
    (Zones p fuel st).2.calls.filter Call.isMutator = st.calls.filter Call.isMutator := by
  unfold Zones
  split
  · exact zones_byID_mutators p _ _ _
  · exact zones_pages_mutators p _ _ _

/-- With `DryRun` the inner loop of `submitChanges` does nothing. -/
theorem submit_changes_dry {World : Type} (p : CloudFlareProvider World)
    (hdry : p.DryRun = true) (zoneID : Str) (records : List DNSRecord) :
    ∀ (changes : List cloudFlareChange) (st : ProviderState World),
      submitChanges.changes p zoneID records changes st = st := by
  intro changes
  induction changes with
  | nil => intro st; rfl
  | cons change changes ih =>
    intro st
    rw [submitChanges.changes, if_pos hdry]
    exact ih st

/-- With `DryRun` the outer loop of `submitChanges` issues `DNSRecords` calls only. -/
theorem submit_zones_dry {World : Type} (p : CloudFlareProvider World)
    (hdry : p.DryRun = true) :
    ∀ (entries : List (Str × List cloudFlareChange)) (st : ProviderState World),
      (submitChanges.zones p entries st).2.calls.filter Call.isMutator
        = st.calls.filter Call.isMutator := by
  intro entries
  induction entries with
  | nil => intro st; rfl
  | cons entry entries ih =>
    intro st
    obtain ⟨zoneID, changes⟩ := entry
    rw [submitChanges.zones]
    split
    · simp [Call.isMutator]
    · rw [ih, submit_changes_dry p hdry]; simp [Call.isMutator]

/-- With `DryRun`, `submitChanges` issues no call that changes records. -/
theorem submitChanges_dry {World : Type} (p : CloudFlareProvider World)
    (hdry : p.DryRun = true)
    (visit : MapOf (List cloudFlareChange) → MapOf (List cloudFlareChange))
    (visitZones : Nat → ZoneIDName → ZoneIDName) (fuel : Nat)
    (changes : List cloudFlareChange) (st : ProviderState World) :
    (submitChanges p visit visitZones fuel changes st).2.calls.filter Call.isMutator
      = st.calls.filter Call.isMutator := by
  unfold submitChanges
  split
  · rfl
  · have hz := zones_mutators p fuel st
    split
    · next st1 h => rw [h] at hz; exact hz
    · next err st1 h => rw [h] at hz; exact hz
    · next zones st1 h =>
      rw [h] at hz
      show (submitChanges.zones p _ st1).2.calls.filter Call.isMutator = _
      rw [submit_zones_dry p hdry]; exact hz

/-- An error of the loop over the pages is the error of a `ListZonesContext` call, the last
call issued. -/
theorem zones_pages_error {World : Type} (p : CloudFlareProvider World) (err : GoError) :
    ∀ (fuel : Nat) (result : List Zone) (st : ProviderState World),
      (Zones.pages p fuel result st).1 = some (.error err) →
        ∃ opts w, p.Client.ListZonesContext opts w
            = (.error err, (Zones.pages p fuel result st).2.world) ∧
          (Zones.pages p fuel result st).2.calls.getLast? = some (Call.ListZonesContext opts) := by
  intro fuel
  induction fuel with
  | zero => intro result st h; simp [Zones.pages] at h
  | succ fuel ih =>
    intro result st h
    rw [Zones.pages] at h ⊢
    split at h
    · next e w hc =>
      simp only [Option.some.injEq, Except.error.injEq] at h
      exact ⟨_, st.world, by rw [hc, h], by simp⟩
    · next resp w hc =>
      split at h
      · simp at h
      · next hne =>
        simp only [if_neg hne]
        exact ih _ _ h

/-- An error of `Zones` is the error of a `ListZonesContext` call, the last call issued. -/
theorem zones_error {World : Type} (p : CloudFlareProvider World) (err : GoError)
    (fuel : Nat) (st : ProviderState World)
    (h : (Zones p fuel st).1 = some (.error err)) :
    ∃ opts w, p.Client.ListZonesContext opts w = (.error err, (Zones p fuel st).2.world) ∧
      (Zones p fuel st).2.calls.getLast? = some (Call.ListZonesContext opts) := by
  unfold Zones at h ⊢
  split at h
  · simp at h
  · next hc => rw [if_neg hc]; exact zones_pages_error p err _ _ _ h

/-- An error of the outer loop of `submitChanges` is the wrapped error of a `DNSRecords`
call, the last call issued. -/
theorem submit_zones_error {World : Type} (p : CloudFlareProvider World) (err : GoError) :
    ∀ (entries : List (Str × List cloudFlareChange)) (st : ProviderState World),
      (submitChanges.zones p entries st).1 = some err →
        ∃ zoneID w e, p.Client.DNSRecords zoneID w
            = (.error e, (submitChanges.zones p entries st).2.world) ∧
          (submitChanges.zones p entries st).2.calls.getLast? = some (Call.DNSRecords zoneID) ∧
          zoneID ∈ entries.map Prod.fst ∧
          err = str "could not fetch records from zone, " ++ e := by
  intro entries
  induction entries with
  | nil => intro st h; simp [submitChanges.zones] at h
  | cons entry entries ih =>
    intro st h
    obtain ⟨zoneID, changes⟩ := entry
    rw [submitChanges.zones] at h ⊢
    split at h
    · next e w hc =>
      simp only [Option.some.injEq] at h
      exact ⟨zoneID, st.world, e, by rw [hc], by simp, by simp, h.symm⟩
    · next records w hc =>
      obtain ⟨z, w1, e, h1, h2, h3, h4⟩ := ih _ h
      refine ⟨z, w1, e, h1, h2, ?_, h4⟩
      simp only [List.map_cons, List.mem_cons]
      exact Or.inr h3

/-- The first loop of `Zones` reads `ZoneDetails` of the client only. -/
theorem zones_byID_congr {World : Type} (p q : CloudFlareProvider World)
    (h : q.Client.ZoneDetails = p.Client.ZoneDetails) :
    ∀ (ids : List Str) (result : List Zone) (st : ProviderState World),
      Zones.byID q ids result st = Zones.byID p ids result st := by
  intro ids
  induction ids with
  | nil => intro result st; rfl
  | cons zoneID ids ih =>
    intro result st
    rw [Zones.byID, Zones.byID, h]
    split
    · exact ih _ _
    · exact ih _ _

/-- The loop of `Zones` over the pages reads `ListZonesContext` of the client, the domain
filter and the page size only. -/
theorem zones_pages_congr {World : Type} (p q : CloudFlareProvider World)
    (h1 : q.Client.ListZonesContext = p.Client.ListZonesContext)
    (h2 : q.domainFilter = p.domainFilter) (h3 : q.PerPage = p.PerPage) :
    ∀ (fuel : Nat) (result : List Zone) (st : ProviderState World),
      Zones.pages q fuel result st = Zones.pages p fuel result st := by
  intro fuel
  induction fuel with
  | zero => intro result st; rfl
  | succ fuel ih =>
    intro result st
    rw [Zones.pages, Zones.pages, h1, h2, h3]
    split
    · rfl
    · split
      · rfl
      · exact ih _ _

/-- The method `Zones` does not read the three methods of the client that change records. -/
theorem zones_congr {World : Type} (p q : CloudFlareProvider World)
    (h0 : q.Client.ZoneDetails = p.Client.ZoneDetails)
    (h1 : q.Client.ListZonesContext = p.Client.ListZonesContext)
    (h2 : q.domainFilter = p.domainFilter) (h3 : q.PerPage = p.PerPage)
    (h4 : q.zoneIDFilter = p.zoneIDFilter) (fuel : Nat) (st : ProviderState World) :
    Zones q fuel st = Zones p fuel st := by
  unfold Zones
  rw [h4, zones_byID_congr p q h0, zones_pages_congr p q h1 h2 h3]

/-- The inner loop of `submitChanges` reads, of the three methods that change records, the
state of Cloudflare they leave only, and not even that with `DryRun`. -/
theorem submit_changes_congr {World : Type} (p q : CloudFlareProvider World)
    (hd : q.DryRun = p.DryRun)
    (hm : p.DryRun = true ∨
      ((∀ z rr w, (q.Client.CreateDNSRecord z rr w).2 = (p.Client.CreateDNSRecord z rr w).2) ∧
       (∀ z r w, (q.Client.DeleteDNSRecord z r w).2 = (p.Client.DeleteDNSRecord z r w).2) ∧
       (∀ z r rr w,
          (q.Client.UpdateDNSRecord z r rr w).2 = (p.Client.UpdateDNSRecord z r rr w).2)))
    (zoneID : Str) (records : List DNSRecord) :
    ∀ (changes : List cloudFlareChange) (st : ProviderState World),
      submitChanges.changes q zoneID records changes st
        = submitChanges.changes p zoneID records changes st := by
  intro changes
  induction changes with
  | nil => intro st; rfl
  | cons change changes ih =>
    intro st
    rw [submitChanges.changes, submitChanges.changes, hd]
    by_cases hdry : p.DryRun = true
    · rw [if_pos hdry, if_pos hdry]; exact ih st
    · obtain ⟨hc, hdel, hu⟩ := hm.resolve_left hdry
      rw [if_neg hdry, if_neg hdry, hc, hdel, hu]
      simp only [ih]

/-- The outer loop of `submitChanges`, likewise. -/
theorem submit_zones_congr {World : Type} (p q : CloudFlareProvider World)
    (hr : q.Client.DNSRecords = p.Client.DNSRecords)
    (hd : q.DryRun = p.DryRun)
    (hm : p.DryRun = true ∨
      ((∀ z rr w, (q.Client.CreateDNSRecord z rr w).2 = (p.Client.CreateDNSRecord z rr w).2) ∧
       (∀ z r w, (q.Client.DeleteDNSRecord z r w).2 = (p.Client.DeleteDNSRecord z r w).2) ∧
       (∀ z r rr w,
          (q.Client.UpdateDNSRecord z r rr w).2 = (p.Client.UpdateDNSRecord z r rr w).2))) :
    ∀ (entries : List (Str × List cloudFlareChange)) (st : ProviderState World),
      submitChanges.zones q entries st = submitChanges.zones p entries st := by
  intro entries
  induction entries with
  | nil => intro st; rfl
  | cons entry entries ih =>
    intro st
    obtain ⟨zoneID, changes⟩ := entry
    rw [submitChanges.zones, submitChanges.zones, hr]
    split
    · rfl
    · rw [submit_changes_congr p q hd hm, ih]

/-- The method `submitChanges` gives the same result and leaves the same state with two
providers that differ only in the errors that the three methods changing records return
(with `DryRun`: in these three methods altogether). -/
theorem submitChanges_congr {World : Type} (p q : CloudFlareProvider World)
    (h0 : q.Client.ZoneDetails = p.Client.ZoneDetails)
    (h1 : q.Client.ListZonesContext = p.Client.ListZonesContext)
    (hr : q.Client.DNSRecords = p.Client.DNSRecords)
    (h2 : q.domainFilter = p.domainFilter) (h3 : q.PerPage = p.PerPage)
    (h4 : q.zoneIDFilter = p.zoneIDFilter) (hd : q.DryRun = p.DryRun)
    (hm : p.DryRun = true ∨
      ((∀ z rr w, (q.Client.CreateDNSRecord z rr w).2 = (p.Client.CreateDNSRecord z rr w).2) ∧
       (∀ z r w, (q.Client.DeleteDNSRecord z r w).2 = (p.Client.DeleteDNSRecord z r w).2) ∧
       (∀ z r rr w,
          (q.Client.UpdateDNSRecord z r rr w).2 = (p.Client.UpdateDNSRecord z r rr w).2)))
    (visit : MapOf (List cloudFlareChange) → MapOf (List cloudFlareChange))
    (visitZones : Nat → ZoneIDName → ZoneIDName) (fuel : Nat)
    (changes : List cloudFlareChange) (st : ProviderState World) :
    submitChanges q visit visitZones fuel changes st
      = submitChanges p visit visitZones fuel changes st := by
  unfold submitChanges
  rw [zones_congr p q h0 h1 h2 h3 h4]
  split
  · rfl
  · split
    · rfl
    · rfl
    · rw [submit_zones_congr p q hr hd hm]

/-- The calls of the inner loop of `submitChanges` without `DryRun`: one per change that is
a creation, or an update or deletion of a record found in `records`, in the order of the
changes, whatever the calls return. -/
theorem submit_changes_calls {World : Type} (p : CloudFlareProvider World)
    (hdry : p.DryRun = false) (zoneID : Str) (records : List DNSRecord) :
    ∀ (changes : List cloudFlareChange) (st : ProviderState World),
      (submitChanges.changes p zoneID records changes st).calls
        = st.calls ++ changes.filterMap (fun change =>
            if change.Action = cloudFlareUpdate then
              if getRecordID records change.ResourceRecord = str "" then none
              else some (Call.UpdateDNSRecord zoneID
                (getRecordID records change.ResourceRecord) change.ResourceRecord)
            else if change.Action = cloudFlareDelete then
              if getRecordID records change.ResourceRecord = str "" then none
              else some (Call.DeleteDNSRecord zoneID
                (getRecordID records change.ResourceRecord))
            else if change.Action = cloudFlareCreate then
              some (Call.CreateDNSRecord zoneID change.ResourceRecord)
            else none) := by
  intro changes
  induction changes with
  | nil => intro st; simp [submitChanges.changes]
  | cons change changes ih =>
    intro st
    rw [submitChanges.changes, hdry]
    simp only [Bool.false_eq_true, if_false]
    by_cases hu : change.Action = cloudFlareUpdate
    · by_cases hid : getRecordID records change.ResourceRecord = str ""
      · rw [if_pos hu, if_pos hid, ih, List.filterMap_cons]; simp only [if_pos hu, if_pos hid]
      · rw [if_pos hu, if_neg hid, ih, List.filterMap_cons]; simp only [if_pos hu, if_neg hid]; simp
    · by_cases hdel : change.Action = cloudFlareDelete
      · by_cases hid : getRecordID records change.ResourceRecord = str ""
        · rw [if_neg hu, if_pos hdel, if_pos hid, ih, List.filterMap_cons]
          simp only [if_neg hu, if_pos hdel, if_pos hid]
        · rw [if_neg hu, if_pos hdel, if_neg hid, ih, List.filterMap_cons]
          simp only [if_neg hu, if_pos hdel, if_neg hid]; simp
      · by_cases hc : change.Action = cloudFlareCreate
        · rw [if_neg hu, if_neg hdel, if_pos hc, ih, List.filterMap_cons]
          simp only [if_neg hu, if_neg hdel, if_pos hc]; simp
        · rw [if_neg hu, if_neg hdel, if_neg hc, ih, List.filterMap_cons]
          simp only [if_neg hu, if_neg hdel, if_neg hc]

/-- The winner of `ResolveCreate` is one of the candidates. -/
theorem resolveCreate_mem (candidates : List Endpoint) (r : Endpoint)
    (h : PerResource.ResolveCreate candidates = some r) : r ∈ candidates := by
  cases candidates with
  | nil => simp [PerResource.ResolveCreate, PerResource.ResolveCreate.loop] at h
  | cons a l =>
    obtain ⟨r1, h1, h2, _⟩ := resolveCreate_min a l
    rw [h1] at h
    rw [← Option.some.inj h]; exact h2

/-- The winner of `ResolveUpdate` is one of the candidates. -/
theorem resolveUpdate_mem (current : Endpoint) (candidates : List Endpoint) (r : Endpoint)
    (h : PerResource.ResolveUpdate current candidates = some r) : r ∈ candidates := by
  unfold PerResource.ResolveUpdate at h
  simp only at h
  split at h
  · next ep hf =>
    rw [← Option.some.inj h]
    exact (sortStable_perm candidates).mem_iff.mp (List.mem_of_find?_eq_some hf)
  · exact (sortStable_perm candidates).mem_iff.mp (resolveCreate_mem _ r h)

/-- The current endpoint of a record key has this key. -/
theorem plan_current_key (p : Plan) (k : Str × Str × Str) (c : Endpoint)
    (h : p.current k = some c) : Plan.key c = k := by
  unfold Plan.current at h
  obtain ⟨ys, hys⟩ := List.getLast?_eq_some_iff.mp h
  have hm : c ∈ (p.filter p.Current).filter (fun e => decide (Plan.key e = k)) := by
    rw [hys]; simp
  simpa using (List.mem_filter.mp hm).2

/-- The candidates of a record key are desired endpoints with this key. -/
theorem plan_candidates_key (p : Plan) (k : Str × Str × Str) (e : Endpoint)
    (h : e ∈ p.candidates k) : e ∈ p.candidates (Plan.key e) ∧ Plan.key e = k := by
  unfold Plan.candidates at h ⊢
  obtain ⟨h1, h2⟩ := List.mem_filter.mp h
  exact ⟨List.mem_filter.mpr ⟨h1, by simp⟩, by simpa using h2⟩

/-- The classification of one record key keeps the invariants of the changes: a created
endpoint is a candidate of its key, a deleted one has a key without candidates, and the
updates are paired by key. -/
theorem plan_classify_inv (p : Plan) (changes : Changes Endpoint) (k : Str × Str × Str)
    (h : (∀ c ∈ changes.Create, c ∈ p.candidates (Plan.key c)) ∧
      (∀ d ∈ changes.Delete, p.candidates (Plan.key d) = []) ∧
      List.Forall₂ (fun o n => Plan.key o = Plan.key n) changes.UpdateOld changes.UpdateNew) :
    (∀ c ∈ (p.classify changes k).Create, c ∈ p.candidates (Plan.key c)) ∧
      (∀ d ∈ (p.classify changes k).Delete, p.candidates (Plan.key d) = []) ∧
      List.Forall₂ (fun o n => Plan.key o = Plan.key n) (p.classify changes k).UpdateOld
        (p.classify changes k).UpdateNew := by
  obtain ⟨h1, h2, h3⟩ := h
  unfold Plan.classify
  split
  · exact ⟨h1, h2, h3⟩
  · next candidate candidates hcur hcand =>
    split
    · exact ⟨h1, h2, h3⟩
    · next desired hres =>
      refine ⟨?_, h2, h3⟩
      intro c hc
      simp only [List.mem_append, List.mem_singleton] at hc
      rcases hc with hc | hc
      · exact h1 c hc
      · have hm := resolveCreate_mem _ _ hres
        rw [← hcand, ← hc] at hm
        exact (plan_candidates_key p k c hm).1
  · next current hcur hcand =>
    split
    · refine ⟨h1, ?_, h3⟩
      intro d hd
      simp only [List.mem_append, List.mem_singleton] at hd
      rcases hd with hd | hd
      · exact h2 d hd
      · rw [hd, plan_current_key p k current hcur, hcand]
    · exact ⟨h1, h2, h3⟩
  · next current candidate candidates hcur hcand =>
    split
    · exact ⟨h1, h2, h3⟩
    · next desired hres =>
      split
      · refine ⟨h1, h2, ?_⟩
        refine List.rel_append h3 (List.Forall₂.cons ?_ List.Forall₂.nil)
        have hm := resolveUpdate_mem _ _ _ hres
        rw [← hcand] at hm
        have hk := (plan_candidates_key p k desired hm).2
        rw [plan_current_key p k current hcur]
        exact hk.symm
      · exact ⟨h1, h2, h3⟩

/-- The classification of a list of record keys keeps the invariants of the changes. -/
theorem plan_foldl_inv (p : Plan) (ks : List (Str × Str × Str)) :
    ∀ (changes : Changes Endpoint),
      ((∀ c ∈ changes.Create, c ∈ p.candidates (Plan.key c)) ∧
        (∀ d ∈ changes.Delete, p.candidates (Plan.key d) = []) ∧
        List.Forall₂ (fun o n => Plan.key o = Plan.key n) changes.UpdateOld changes.UpdateNew) →
      (∀ c ∈ (ks.foldl p.classify changes).Create, c ∈ p.candidates (Plan.key c)) ∧
        (∀ d ∈ (ks.foldl p.classify changes).Delete, p.candidates (Plan.key d) = []) ∧
        List.Forall₂ (fun o n => Plan.key o = Plan.key n) (ks.foldl p.classify changes).UpdateOld
          (ks.foldl p.classify changes).UpdateNew := by
  induction ks with
  | nil => intro changes h; exact h
  | cons k ks ih =>
    intro changes h
    rw [List.foldl_cons]
    exact ih _ (plan_classify_inv p changes k h)

/-- The invariants of the changes before the policy is applied. -/
theorem plan_raw_inv (p : Plan) :
    (∀ c ∈ (p.keys.foldl p.classify {}).Create, ∀ d ∈ (p.keys.foldl p.classify {}).Delete,
        Plan.key c ≠ Plan.key d) ∧
      List.Forall₂ (fun o n => Plan.key o = Plan.key n) (p.keys.foldl p.classify {}).UpdateOld
        (p.keys.foldl p.classify {}).UpdateNew := by
  obtain ⟨h1, h2, h3⟩ := plan_foldl_inv p p.keys {}
    (And.intro (by intro c hc; cases hc)
      (And.intro (by intro d hd; cases hd) List.Forall₂.nil))
  refine ⟨?_, h3⟩
  intro c hc d hd hkey
  have hm := h1 c hc
  rw [hkey, h2 d hd] at hm
  cases hm

/-- The loop of `Match` finds an ID that `zoneID` ends with iff there is one. -/
theorem match_loop_iff (zoneID : Str) (ids : List Str) :
    ZoneIDFilter.Match.loop zoneID ids = true ↔ ∃ id ∈ ids, id <:+ zoneID := by
  induction ids with
  | nil => simp [ZoneIDFilter.Match.loop]
  | cons id ids ih =>
    rw [ZoneIDFilter.Match.loop]
    by_cases h : strings.HasSuffix zoneID id = true
    · rw [if_pos h]
      have h1 : id <:+ zoneID := List.isSuffixOf_iff_suffix.mp h
      simp [h1]
    · rw [if_neg h, ih]
      have h1 : ¬ id <:+ zoneID := fun hs => h (List.isSuffixOf_iff_suffix.mpr hs)
      simp [h1]

/-- The loop of `endpointsForHostname` splits the targets by `isIP`, in their order. -/
theorem endpointsForHostname_loop (isIP : Str → Bool) (targets : List Str) :
    ∀ (aTargets cnameTargets : Targets),
      endpointsForHostname.loop isIP targets aTargets cnameTargets
        = (aTargets ++ targets.filter isIP,
           cnameTargets ++ targets.filter (fun t => !isIP t)) := by
  induction targets with
  | nil => intro a c; simp [endpointsForHostname.loop]
  | cons t targets ih =>
    intro a c
    rw [endpointsForHostname.loop]
    by_cases h : isIP t = true
    · have h1 : suitableType isIP t = RecordTypeA := by simp [suitableType, h]
      rw [if_pos h1, ih]
      simp [h]
    · have h1 : suitableType isIP t ≠ RecordTypeA := by
        simp only [suitableType, h]
        decide
      rw [if_neg h1, ih]
      simp [h]

/-- `TrimSuffix` takes one trailing dot away. -/
theorem trimSuffix_dot (h : Str) : strings.TrimSuffix (h ++ str ".") (str ".") = h := by
  have h1 : strings.HasSuffix (h ++ str ".") (str ".") = true :=
    List.isSuffixOf_iff_suffix.mpr (List.suffix_append _ _)
  unfold strings.TrimSuffix
  rw [if_pos h1]
  have h2 : (str ".").length = 1 := rfl
  simp [h2]

/-- `TrimSuffix` keeps a text that does not end with a dot. -/
theorem trimSuffix_no_dot (h : Str) (hd : h.getLast? ≠ some 46) :
    strings.TrimSuffix h (str ".") = h := by
  have h1 : ¬ strings.HasSuffix h (str ".") = true := by
    intro hs
    obtain ⟨t, ht⟩ := List.isSuffixOf_iff_suffix.mp hs
    apply hd
    rw [← ht]
    have e : str "." = [46] := by decide
    simp [e]
  unfold strings.TrimSuffix
  rw [if_neg h1]

/-- `dropWhile` on an appended list. -/
theorem dropWhile_append_all (p : Nat → Bool) (s t : List Nat) :
    (s ++ t).dropWhile p = if s.all p then t.dropWhile p else s.dropWhile p ++ t := by
  induction s with
  | nil => simp
  | cons a s ih =>
    by_cases ha : p a = true
    · simp [List.dropWhile_cons, ha, ih]
    · simp [List.dropWhile_cons, ha]

/-- `Trim` of a text between two bytes `c` is `Trim` of the text. -/
theorem trim_enclosed (s : Str) (c : Nat) :
    strings.Trim ([c] ++ s ++ [c]) c = strings.Trim s c := by
  unfold strings.Trim
  have e1 : ([c] ++ s ++ [c]).dropWhile (fun b => b == c)
      = (s ++ [c]).dropWhile (fun b => b == c) := by
    simp [List.dropWhile_cons]
  rw [e1, dropWhile_append_all]
  by_cases hall : s.all (fun b => b == c) = true
  · rw [if_pos hall]
    have e2 : s.dropWhile (fun b => b == c) = [] := by
      rw [List.dropWhile_eq_nil_iff]
      intro x hx
      exact List.all_eq_true.mp hall x hx
    rw [e2]
    simp [List.dropWhile_cons]
  · rw [if_neg hall]
    simp [List.dropWhile_cons]

/-- The second loop of `Difference` sends every entry of `desired` to `leave` or to `add`:
`mask` tells which, position by position. -/
theorem difference_loop_mask (desired : List Str) :
    ∀ (add leave index : List Str), ∃ mask : List Bool,
      mask.length = desired.length ∧
      (Difference.loop desired add leave index).1
        = add ++ ((desired.zip mask).filter (fun e => !e.2)).map Prod.fst ∧
      (Difference.loop desired add leave index).2.1
        = leave ++ ((desired.zip mask).filter (fun e => e.2)).map Prod.fst := by
  induction desired with
  | nil => intro add leave index; exact ⟨[], rfl, by simp [Difference.loop], by simp [Difference.loop]⟩
  | cons x desired ih =>
    intro add leave index
    rw [Difference.loop]
    by_cases hx : x ∈ index
    · rw [if_pos hx]
      obtain ⟨mask, h1, h2, h3⟩ := ih add (leave ++ [x]) (Difference.delete index x)
      refine ⟨true :: mask, by simp [h1], ?_, ?_⟩
      · rw [h2]; simp
      · rw [h3]; simp
    · rw [if_neg hx]
      obtain ⟨mask, h1, h2, h3⟩ := ih (add ++ [x]) leave (Difference.delete index x)
      refine ⟨false :: mask, by simp [h1], ?_, ?_⟩
      · rw [h2]; simp
      · rw [h3]; simp

/-- The two parts of a list along a mask have the length of the list together. -/
theorem mask_length (desired : List Str) :
    ∀ mask : List Bool, mask.length = desired.length →
      (((desired.zip mask).filter (fun e => !e.2)).map Prod.fst).length
        + (((desired.zip mask).filter (fun e => e.2)).map Prod.fst).length = desired.length := by
  induction desired with
  | nil => intro mask _; simp
  | cons x desired ih =>
    intro mask h
    cases mask with
    | nil => simp at h
    | cons b mask =>
      have h1 : mask.length = desired.length := by simpa using h
      have := ih mask h1
      cases b
      · simp only [List.zip_cons_cons, List.filter_cons, Bool.not_false, if_true,
          Bool.false_eq_true, if_false, List.map_cons, List.length_cons] at this ⊢
        omega
      · simp only [List.zip_cons_cons, List.filter_cons, Bool.not_true, if_true,
          Bool.false_eq_true, if_false, List.map_cons, List.length_cons] at this ⊢
        omega

/-- The value under a key after `m[k] = v`. -/
theorem mapOf_lookup_set {V : Type} (m : MapOf V) (k : Str) (v : V) (k' : Str) :
    (m.set k v).lookup k' = if k' = k then some v else m.lookup k' := by
  unfold MapOf.set
  by_cases hk : k ∈ m.map Prod.fst
  · rw [if_pos hk]
    induction m with
    | nil => simp at hk
    | cons e m ih =>
      obtain ⟨a, b⟩ := e
      by_cases ha : a = k
      · subst ha
        by_cases h : k' = a
        · subst h; simp [List.lookup_cons]
        · have hb : (k' == a) = false := by simpa using h
          simp only [List.map_cons, if_true, List.lookup_cons, hb, if_neg h]
          by_cases hm : a ∈ m.map Prod.fst
          · rw [ih hm, if_neg h]
          · have e1 : m.map (fun e => if e.1 = a then (a, v) else e) = m := by
              refine (List.map_congr_left ?_).trans (List.map_id m)
              intro e he
              have : e.1 ≠ a := fun hh => hm (hh ▸ List.mem_map_of_mem Prod.fst he)
              rw [if_neg this]; rfl
            rw [e1]
      · have hm : k ∈ m.map Prod.fst := by
          simp only [List.map_cons, List.mem_cons] at hk
          rcases hk with hk | hk
          · exact absurd hk.symm ha
          · exact hk
        simp only [List.map_cons, if_neg ha, List.lookup_cons]
        by_cases h : k' = a
        · subst h
          have hne : ¬ k' = k := ha
          simp [hne]
        · have hb : (k' == a) = false := by simpa using h
          rw [hb]
          exact ih hm
  · rw [if_neg hk, List.lookup_append]
    by_cases h : k' = k
    · subst h
      have : List.lookup k' m = none := by
        rw [List.lookup_eq_none_iff]
        intro e he
        have : k' ≠ e.1 := fun hh => hk (hh ▸ List.mem_map_of_mem Prod.fst he)
        simpa using this
      simp [this, List.lookup_cons]
    · have hb : (k' == k) = false := by simpa using h
      rw [if_neg h]
      cases hl : List.lookup k' m with
      | none => simp [List.lookup_cons, hb]
      | some x => simp

/-- The keys after `m[k] = v`. -/
theorem mapOf_keys_set {V : Type} (m : MapOf V) (k : Str) (v : V) :
    (m.set k v).map Prod.fst = if k ∈ m.map Prod.fst then m.map Prod.fst
      else m.map Prod.fst ++ [k] := by
  unfold MapOf.set
  by_cases hk : k ∈ m.map Prod.fst
  · rw [if_pos hk, if_pos hk, List.map_map]
    apply List.map_congr_left
    intro e _
    by_cases he : e.1 = k
    · simp [he]
    · simp [he]
  · rw [if_neg hk, if_neg hk]
    simp

/-- The value Go reads under a key after `m[k] = v`. -/
theorem mapOf_index_set {V : Type} (m : MapOf V) (k : Str) (v : V) (k' : Str) (zero : V) :
    (m.set k v).index k' zero = if k' = k then v else m.index k' zero := by
  unfold MapOf.index
  rw [mapOf_lookup_set]
  by_cases h : k' = k
  · simp [h]
  · simp [h]

/-- The keys of a `ZoneIDName` after `Add`. -/
theorem zoneIDName_keys_set (mp : ZoneIDName) (k v : Str) :
    (GoMap.set mp k v).map Prod.fst = if k ∈ mp.map Prod.fst then mp.map Prod.fst
      else mp.map Prod.fst ++ [k] :=
  mapOf_keys_set mp k v

/-- The first loop of `changesByZone` from the maps `ch` and `mp` with the same keys: the
keys are then those and the zone IDs, each once, and every zone ID has the empty list. -/
theorem changesByZone_init_fold (zones : List Zone) :
    ∀ (ch : MapOf (List cloudFlareChange)) (mp : ZoneIDName),
      ch.map Prod.fst = mp.map Prod.fst → (ch.map Prod.fst).Nodup →
      ((zones.foldl (fun state z => (state.1.set z.ID [], GoMap.set state.2 z.ID z.Name))
          (ch, mp)).1.map Prod.fst
        = (zones.foldl (fun state z => (state.1.set z.ID [], GoMap.set state.2 z.ID z.Name))
          (ch, mp)).2.map Prod.fst) ∧
      ((zones.foldl (fun state z => (state.1.set z.ID [], GoMap.set state.2 z.ID z.Name))
          (ch, mp)).1.map Prod.fst).Nodup ∧
      (∀ k, k ∈ (zones.foldl
            (fun state z => (state.1.set z.ID [], GoMap.set state.2 z.ID z.Name))
            (ch, mp)).1.map Prod.fst ↔ k ∈ ch.map Prod.fst ∨ k ∈ zones.map Zone.ID) ∧
      (∀ k, (zones.foldl (fun state z => (state.1.set z.ID [], GoMap.set state.2 z.ID z.Name))
            (ch, mp)).1.index k []
          = if k ∈ zones.map Zone.ID then [] else ch.index k []) := by
  induction zones with
  | nil => intro ch mp h1 h2; exact ⟨h1, h2, by simp, by simp⟩
  | cons z zones ih =>
    intro ch mp h1 h2
    rw [List.foldl_cons]
    have hk1 : (ch.set z.ID []).map Prod.fst = (GoMap.set mp z.ID z.Name).map Prod.fst := by
      rw [mapOf_keys_set, zoneIDName_keys_set, h1]
    have hk2 : ((ch.set z.ID []).map Prod.fst).Nodup := by
      rw [mapOf_keys_set]
      by_cases hz : z.ID ∈ ch.map Prod.fst
      · rw [if_pos hz]; exact h2
      · rw [if_neg hz]
        exact List.Nodup.append h2 (List.nodup_singleton _) (by simpa using hz)
    obtain ⟨i1, i2, i3, i4⟩ := ih (ch.set z.ID []) (GoMap.set mp z.ID z.Name) hk1 hk2
    refine ⟨i1, i2, ?_, ?_⟩
    · intro k
      rw [i3, mapOf_keys_set]
      by_cases hz : z.ID ∈ ch.map Prod.fst
      · rw [if_pos hz]
        simp only [List.map_cons, List.mem_cons]
        constructor
        · rintro (h | h)
          · exact Or.inl h
          · exact Or.inr (Or.inr h)
        · rintro (h | h | h)
          · exact Or.inl h
          · exact Or.inl (h ▸ hz)
          · exact Or.inr h
      · rw [if_neg hz]
        simp only [List.map_cons, List.mem_cons, List.mem_append, List.mem_singleton]
        tauto
    · intro k
      rw [i4, mapOf_index_set]
      by_cases hk : k ∈ zones.map Zone.ID
      · have : k ∈ (z :: zones).map Zone.ID := by simp [List.mem_cons] at hk ⊢; exact Or.inr hk
        rw [if_pos hk, if_pos this]
      · rw [if_neg hk]
        by_cases hz : k = z.ID
        · rw [if_pos hz, if_pos (by simp [hz])]
        · rw [if_neg hz, if_neg (by simpa [hz] using hk)]

/-- The maps after the first loop of `changesByZone`. -/
theorem changesByZone_init_keys (zones : List Zone) :
    (changesByZone.init zones).1.map Prod.fst = (changesByZone.init zones).2.map Prod.fst ∧
    ((changesByZone.init zones).1.map Prod.fst).Nodup ∧
    (∀ k, k ∈ (changesByZone.init zones).1.map Prod.fst ↔ k ∈ zones.map Zone.ID) ∧
    (∀ k, (changesByZone.init zones).1.index k [] = []) := by
  obtain ⟨h1, h2, h3, h4⟩ := changesByZone_init_fold zones [] [] rfl List.nodup_nil
  refine ⟨h1, h2, ?_, ?_⟩
  · intro k
    have := h3 k
    simpa using this
  · intro k
    have := h4 k
    unfold changesByZone.init
    rw [this]
    by_cases hk : k ∈ zones.map Zone.ID
    · rw [if_pos hk]
    · rw [if_neg hk]; rfl

/-- With pairwise distinct zone IDs, the map `zoneNameIDMapper` holds the zones in their
order. -/
theorem changesByZone_init_mapper (zones : List Zone) :
    ∀ (ch : MapOf (List cloudFlareChange)) (mp : ZoneIDName),
      (zones.map Zone.ID).Nodup → (∀ k ∈ zones.map Zone.ID, k ∉ mp.map Prod.fst) →
      (zones.foldl (fun state z => (state.1.set z.ID [], GoMap.set state.2 z.ID z.Name))
          (ch, mp)).2 = mp ++ zones.map (fun z => (z.ID, z.Name)) := by
  induction zones with
  | nil => intro ch mp _ _; simp
  | cons z zones ih =>
    intro ch mp hnd hdis
    rw [List.foldl_cons]
    simp only [List.map_cons, List.nodup_cons] at hnd
    have hz : z.ID ∉ mp.map Prod.fst := hdis z.ID (by simp)
    have hset : GoMap.set mp z.ID z.Name = mp ++ [(z.ID, z.Name)] := by
      unfold GoMap.set GoMap.keys
      rw [if_neg hz]
    rw [ih _ _ hnd.2 (by
      intro k hk
      rw [hset]
      simp only [List.map_append, List.map_cons, List.map_nil, List.mem_append,
        List.mem_singleton, not_or]
      refine ⟨hdis k (by simp [List.mem_cons]; exact Or.inr (by simpa using hk)), ?_⟩
      intro hkz
      exact hnd.1 (hkz ▸ hk)), hset]
    simp

/-- The zone ID that `FindZone` returns is empty or a key of the map. -/
theorem findZone_id_mem (z : ZoneIDName) (hostname : Str) :
    (z.FindZone hostname).1 = [] ∨ (z.FindZone hostname).1 ∈ z.map Prod.fst := by
  rcases FindZone.inv z hostname with ⟨h, _⟩ | ⟨h, _, _⟩
  · left; rw [h]
  · right; exact List.mem_map_of_mem Prod.fst h

/-- The second loop of `changesByZone`, from the change number `i` and the map `changes`
that holds every zone ID `FindZone` can return: the keys stay, and the list of a key gains
the changes for which `FindZone` returns this key, in their order; none for the empty
key. -/
theorem changesByZone_loop_index (visitZones : Nat → ZoneIDName → ZoneIDName)
    (mapper : ZoneIDName) (changeSet : List cloudFlareChange) :
    ∀ (i : Nat) (changes : MapOf (List cloudFlareChange)),
      (∀ j hostname, (ZoneIDName.FindZone (visitZones j mapper) hostname).1 = [] ∨
        (ZoneIDName.FindZone (visitZones j mapper) hostname).1 ∈ changes.map Prod.fst) →
      (changesByZone.loop visitZones mapper i changeSet changes).map Prod.fst
        = changes.map Prod.fst ∧
      ∀ k, (changesByZone.loop visitZones mapper i changeSet changes).index k []
        = changes.index k [] ++
          if k = str "" then []
          else ((changeSet.enumFrom i).filter (fun ic =>
            decide ((ZoneIDName.FindZone (visitZones ic.1 mapper)
              ic.2.ResourceRecord.Name).1 = k))).map Prod.snd := by
  induction changeSet with
  | nil => intro i changes _; simp [changesByZone.loop]
  | cons c changeSet ih =>
    intro i changes hsel
    rw [changesByZone.loop]
    by_cases hz : (ZoneIDName.FindZone (visitZones i mapper) c.ResourceRecord.Name).1 = str ""
    · rw [if_pos hz]
      obtain ⟨h1, h2⟩ := ih (i + 1) changes hsel
      refine ⟨h1, ?_⟩
      intro k
      rw [h2 k]
      by_cases hk : k = str ""
      · rw [if_pos hk, if_pos hk]
      · rw [if_neg hk, if_neg hk]
        have hne : ¬ (ZoneIDName.FindZone (visitZones i mapper) c.ResourceRecord.Name).1 = k := by
          rw [hz]; exact fun h => hk h.symm
        simp only [List.enumFrom_cons, List.filter_cons, hne, decide_False,
          Bool.false_eq_true, if_false]
    · rw [if_neg hz]
      have hmem : (ZoneIDName.FindZone (visitZones i mapper) c.ResourceRecord.Name).1
          ∈ changes.map Prod.fst := by
        rcases hsel i c.ResourceRecord.Name with h | h
        · exact absurd h hz
        · exact h
      have hkeys : (changes.set
          (ZoneIDName.FindZone (visitZones i mapper) c.ResourceRecord.Name).1
          (changes.index
            (ZoneIDName.FindZone (visitZones i mapper) c.ResourceRecord.Name).1 []
            ++ [c])).map Prod.fst = changes.map Prod.fst := by
        rw [mapOf_keys_set, if_pos hmem]
      obtain ⟨h1, h2⟩ := ih (i + 1) _ (by rw [hkeys]; exact hsel)
      refine ⟨h1.trans hkeys, ?_⟩
      intro k
      rw [h2 k, mapOf_index_set]
      by_cases hk : k = str ""
      · have hne : ¬ k = (ZoneIDName.FindZone (visitZones i mapper) c.ResourceRecord.Name).1 :=
          fun h => hz (h ▸ hk)
        rw [if_pos hk, if_pos hk, if_neg hne]
      · rw [if_neg hk, if_neg hk]
        by_cases hkz : k = (ZoneIDName.FindZone (visitZones i mapper) c.ResourceRecord.Name).1
        · rw [if_pos hkz]
          simp only [List.enumFrom_cons, List.filter_cons, ← hkz, decide_True, if_true,
            List.map_cons, List.append_assoc, List.singleton_append]
        · rw [if_neg hkz]
          have hne : ¬ (ZoneIDName.FindZone (visitZones i mapper) c.ResourceRecord.Name).1 = k :=
            fun h => hkz h.symm
          simp only [List.enumFrom_cons, List.filter_cons, hne, decide_False,
            Bool.false_eq_true, if_false]

/-- The loop of `Zones` over the pages against an API that reports the page count 0, from a
page of at least 1: it does not end within `fuel` rounds, and requests `fuel` pages in
turn. -/
theorem zones_pages_zero {World : Type} (p : CloudFlareProvider World)
    (hzero : ∀ opts w, ∃ resp,
      (p.Client.ListZonesContext opts w).1 = .ok resp ∧ resp.TotalPages = 0) :
    ∀ (fuel : Nat) (result : List Zone) (st : ProviderState World), 1 ≤ st.Page →
      (Zones.pages p fuel result st).1 = none ∧
      (Zones.pages p fuel result st).2.calls = st.calls ++ (List.range fuel).map (fun (i : Nat) =>
        Call.ListZonesContext { Page := st.Page + (i : Int), PerPage := p.PerPage }) := by
  intro fuel
  induction fuel with
  | zero => intro result st _; simp [Zones.pages]
  | succ fuel ih =>
    intro result st hpage
    obtain ⟨resp, h1, h2⟩ := hzero { Page := st.Page, PerPage := p.PerPage } st.world
    have hpair : p.Client.ListZonesContext { Page := st.Page, PerPage := p.PerPage } st.world
        = (.ok resp, (p.Client.ListZonesContext
            { Page := st.Page, PerPage := p.PerPage } st.world).2) :=
      Prod.ext h1 rfl
    rw [Zones.pages, hpair]
    have hne : ¬ st.Page = resp.TotalPages := by rw [h2]; omega
    simp only [if_neg hne]
    obtain ⟨i1, i2⟩ := ih
      (result ++ resp.Result.filter (fun zone => p.domainFilter zone.Name))
      { world := (p.Client.ListZonesContext
          { Page := st.Page, PerPage := p.PerPage } st.world).2,
        Page := st.Page + 1,
        calls := st.calls ++
          [Call.ListZonesContext { Page := st.Page, PerPage := p.PerPage }] }
      (by show 1 ≤ st.Page + 1; omega)
    refine ⟨i1, ?_⟩
    rw [i2, List.range_succ_eq_map]
    simp only [List.map_cons, List.map_map, List.append_assoc, List.singleton_append,
      Nat.cast_zero, add_zero]
    congr 2
    apply List.map_congr_left
    intro i _
    simp only [Function.comp, Nat.cast_succ]
    congr 2
    omega

/-- The loop of `Zones` over the pages against an API that answers the request for the page
`i` with `page i` and reports the page count `n`, from a page `m` pages before `n`: with
fuel for `m + 1` rounds it requests these pages in turn and returns, in page order, the
zones listed whose name passes the domain filter. -/
theorem zones_pages_total {World : Type} (p : CloudFlareProvider World)
    (page : Int → ZonesResponse) (n : Int)
    (hresp : ∀ opts w, (p.Client.ListZonesContext opts w).1 = .ok (page opts.Page))
    (htotal : ∀ i, (page i).TotalPages = n) :
    ∀ (m fuel : Nat) (result : List Zone) (st : ProviderState World),
      st.Page + (m : Int) = n → m + 1 ≤ fuel →
      (Zones.pages p fuel result st).1 = some (.ok (result ++
        (List.range (m + 1)).flatMap (fun (i : Nat) =>
          (page (st.Page + (i : Int))).Result.filter (fun zone => p.domainFilter zone.Name)))) ∧
      (Zones.pages p fuel result st).2.calls = st.calls ++
        (List.range (m + 1)).map (fun (i : Nat) =>
          Call.ListZonesContext { Page := st.Page + (i : Int), PerPage := p.PerPage }) := by
  intro m
  induction m with
  | zero =>
    intro fuel result st hn hfuel
    obtain ⟨fuel, rfl⟩ : ∃ f, fuel = f + 1 := ⟨fuel - 1, by omega⟩
    have hpair : p.Client.ListZonesContext { Page := st.Page, PerPage := p.PerPage } st.world
        = (.ok (page st.Page), (p.Client.ListZonesContext
            { Page := st.Page, PerPage := p.PerPage } st.world).2) :=
      Prod.ext (hresp _ _) rfl
    rw [Zones.pages, hpair]
    have he : st.Page = (page st.Page).TotalPages := by rw [htotal]; simpa using hn
    simp only [if_pos he]
    simp [List.range_succ]
  | succ m ih =>
    intro fuel result st hn hfuel
    obtain ⟨fuel, rfl⟩ : ∃ f, fuel = f + 1 := ⟨fuel - 1, by omega⟩
    have hpair : p.Client.ListZonesContext { Page := st.Page, PerPage := p.PerPage } st.world
        = (.ok (page st.Page), (p.Client.ListZonesContext
            { Page := st.Page, PerPage := p.PerPage } st.world).2) :=
      Prod.ext (hresp _ _) rfl
    rw [Zones.pages, hpair]
    have hne : ¬ st.Page = (page st.Page).TotalPages := by
      rw [htotal]
      intro h
      rw [h] at hn
      simp only [Nat.cast_succ] at hn
      omega
    simp only [if_neg hne]
    obtain ⟨i1, i2⟩ := ih fuel
      (result ++ (page st.Page).Result.filter (fun zone => p.domainFilter zone.Name))
      { world := (p.Client.ListZonesContext
          { Page := st.Page, PerPage := p.PerPage } st.world).2,
        Page := st.Page + 1,
        calls := st.calls ++
          [Call.ListZonesContext { Page := st.Page, PerPage := p.PerPage }] }
      (by show st.Page + 1 + (m : Int) = n; simp only [Nat.cast_succ] at hn; omega)
      (by omega)
    refine ⟨?_, ?_⟩
    · rw [i1, List.range_succ_eq_map (m + 1)]
      simp only [List.flatMap_cons, List.flatMap_map, List.append_assoc, Nat.cast_zero,
        add_zero, Nat.cast_succ]
      have e : ∀ i : Nat, st.Page + 1 + (i : Int) = st.Page + ((i : Int) + 1) := by
        intro i; omega
      simp only [e]
    · rw [i2, List.range_succ_eq_map (m + 1)]
      simp only [List.map_cons, List.map_map, List.append_assoc, List.singleton_append,
        Nat.cast_zero, add_zero]
      congr 2
      apply List.map_congr_left
      intro i _
      simp only [Function.comp, Nat.cast_succ]
      congr 2
      omega

/-! # Theorems -/

/-! ## Labels -/

/-- C1, as amended: for every label map `L` whose keys and values contain neither `,`
(byte 44) nor `=` (byte 61), and in which the value of the greatest key (the last one
`Serialize` writes) does not end with a double quote (byte 34),
`NewLabelsFromString(L.Serialize(false))` succeeds, and the map it returns is a map with the
same entry as `L` under every key. -/
theorem labels_roundtrip (L : Labels)
    (hsep : ∀ e ∈ L, 44 ∉ e.1 ∧ 61 ∉ e.1 ∧ 44 ∉ e.2 ∧ 61 ∉ e.2)
    (hq : ∀ k ∈ L.keys, (∀ k' ∈ L.keys, k' ≤ k) → (L.get k).getLast? ≠ some 34) :
    ∃ M : Labels, NewLabelsFromString (L.Serialize false) = .ok M ∧ M.WellFormed ∧
      ∀ k, M.find? k = L.find? k := by
  have hperm : ∀ k, k ∈ sort.Strings L.keys ↔ k ∈ L.keys :=
    fun k => (List.perm_insertionSort _ _).mem_iff
  refine ⟨storeAll L (sort.Strings L.keys) [], ?_, ?_, ?_⟩
  · unfold NewLabelsFromString
    rw [tokens_serialize L hsep hq]
    have hstep : ∀ ts, NewLabelsFromString.loop (str "origin=dops" :: ts) [] false =
        NewLabelsFromString.loop ts [] true := by
      intro ts
      rw [NewLabelsFromString.loop]
      rfl
    rw [hstep]
    apply loop_tokens
    intro k hk
    have hm := hsep _ (mem_of_mem_keys L k ((hperm k).mp hk))
    exact ⟨hm.2.1, hm.2.2.2⟩
  · exact wellFormed_storeAll L _ [] List.nodup_nil
  · intro k
    rw [find?_storeAll]
    by_cases hk : k ∈ L.keys
    · rw [if_pos ((hperm k).mpr hk), find?_eq_get L k hk]
    · rw [if_neg (fun h => hk ((hperm k).mp h))]
      exact (GoMap.find?_none L k hk).symm

/-- The round trip at a map with two entries, one value holding a double quote inside. -/
theorem labels_roundtrip_witness :
    (∀ e ∈ [(str "owner", str "me"), (str "a", str "x\"y")],
        44 ∉ e.1 ∧ 61 ∉ e.1 ∧ 44 ∉ e.2 ∧ 61 ∉ e.2) ∧
    (∀ k ∈ GoMap.keys [(str "owner", str "me"), (str "a", str "x\"y")],
        (∀ k' ∈ GoMap.keys [(str "owner", str "me"), (str "a", str "x\"y")], k' ≤ k) →
          (GoMap.get [(str "owner", str "me"), (str "a", str "x\"y")] k).getLast? ≠ some 34) ∧
    (∃ M : Labels,
      NewLabelsFromString
        (Labels.Serialize [(str "owner", str "me"), (str "a", str "x\"y")] false) = .ok M ∧
      M.WellFormed ∧
      ∀ k, M.find? k = GoMap.find? [(str "owner", str "me"), (str "a", str "x\"y")] k) :=
  ⟨by decide, by decide,
   labels_roundtrip [(str "owner", str "me"), (str "a", str "x\"y")] (by decide) (by decide)⟩

/-- C1, as stated, fails: the map with the one entry `a ↦ x"` has no `,` and no `=`, and
reading back what `Serialize(false)` writes for it gives `a ↦ x`. -/
theorem labels_roundtrip_counterexample :
    GoMap.WellFormed [(str "a", str "x\"")] ∧
    (∀ e ∈ [(str "a", str "x\"")], 44 ∉ e.1 ∧ 61 ∉ e.1 ∧ 44 ∉ e.2 ∧ 61 ∉ e.2) ∧
    Labels.Serialize [(str "a", str "x\"")] false = str "origin=dops,dops/a=x\"" ∧
    NewLabelsFromString (Labels.Serialize [(str "a", str "x\"")] false)
      = .ok [(str "a", str "x")] ∧
    GoMap.find? [(str "a", str "x")] (str "a") ≠
      GoMap.find? [(str "a", str "x\"")] (str "a") := by
  decide

/-- C2: a label text which, once its leading and trailing double quotes are stripped and it
is split on `,`, has no token that is exactly `origin=dops` makes `NewLabelsFromString`
return `ErrInvalidOrigin`, and no labels with it. -/
theorem newLabels_missing_origin (t : Str)
    (h : ∀ tok ∈ strings.Split (strings.Trim t 34) 44, tok ≠ str "origin=dops") :
    NewLabelsFromString t = .error Error.ErrInvalidOrigin :=
  loop_no_origin _ h []

/-- The empty text and the text `dops/owner=me` are rejected. -/
theorem newLabels_missing_origin_witness :
    ((∀ tok ∈ strings.Split (strings.Trim (str "") 34) 44, tok ≠ str "origin=dops") ∧
      NewLabelsFromString (str "") = .error Error.ErrInvalidOrigin) ∧
    ((∀ tok ∈ strings.Split (strings.Trim (str "dops/owner=me") 34) 44,
        tok ≠ str "origin=dops") ∧
      NewLabelsFromString (str "dops/owner=me") = .error Error.ErrInvalidOrigin) :=
  ⟨⟨by decide, newLabels_missing_origin (str "") (by decide)⟩,
   ⟨by decide, newLabels_missing_origin (str "dops/owner=me") (by decide)⟩⟩

/-- C3, as amended: a label text among whose tokens there is one of the form `origin=X`,
with `X` other than `dops` and without `=` (byte 61), makes `NewLabelsFromString` return
`ErrInvalidOrigin`, whatever the other tokens are. -/
theorem newLabels_foreign_origin (t X : Str) (hX : X ≠ str "dops") (hne : 61 ∉ X)
    (hmem : str "origin=" ++ X ∈ NewLabelsFromString.tokens t) :
    NewLabelsFromString t = .error Error.ErrInvalidOrigin :=
  loop_foreign_origin _ X hX hne hmem [] false

/-- A quoted text with `origin=dops` and, later, `origin=other` is rejected. -/
theorem newLabels_foreign_origin_witness :
    (str "other" ≠ str "dops" ∧ 61 ∉ str "other" ∧
      str "origin=" ++ str "other" ∈
        NewLabelsFromString.tokens (str "\"origin=dops,dops/owner=me,origin=other\"")) ∧
    NewLabelsFromString (str "\"origin=dops,dops/owner=me,origin=other\"")
      = .error Error.ErrInvalidOrigin :=
  ⟨by decide,
   newLabels_foreign_origin (str "\"origin=dops,dops/owner=me,origin=other\"") (str "other")
    (by decide) (by decide) (by decide)⟩

/-- C3, as stated, fails: the text `origin=dops,origin=a=b` has the token `origin=a=b`, of
the form `origin=X` with `X = a=b` other than `dops`, and `NewLabelsFromString` accepts it,
with an empty label map. -/
theorem newLabels_foreign_origin_counterexample :
    str "a=b" ≠ str "dops" ∧
    str "origin=" ++ str "a=b" ∈ NewLabelsFromString.tokens (str "origin=dops,origin=a=b") ∧
    NewLabelsFromString (str "origin=dops,origin=a=b") = .ok [] := by
  decide

/-- C4: for a label map whose entries, listed by ascending key, are `es` (in whatever
order the map itself holds them), `Serialize(false)` is `origin=dops` followed by
`,dops/<key>=<value>` for each entry of `es` in turn, `Serialize(true)` is that text between
two double quotes, and for the empty map the text is `origin=dops` alone. -/
theorem serialize_format (es : List (Str × Str)) (l : Labels)
    (hs : (es.map Prod.fst).Sorted (fun a b => a < b)) (hp : l.Perm es) :
    l.Serialize false = wireContent es ∧
    l.Serialize true = str "\"" ++ wireContent es ++ str "\"" ∧
    Labels.Serialize [] false = str "origin=dops" ∧
    Labels.Serialize [] true = str "\"origin=dops\"" := by
  refine ⟨serialize_eq_wireContent es l hs hp, ?_, by decide, by decide⟩
  rw [serialize_true, serialize_eq_wireContent es l hs hp]

/-- The map of scenario S1, held in descending key order. -/
theorem serialize_format_witness :
    (([(str "owner", str "default"), (str "resource", str "r1")].map Prod.fst).Sorted
        (fun a b => a < b) ∧
      List.Perm [(str "resource", str "r1"), (str "owner", str "default")]
        [(str "owner", str "default"), (str "resource", str "r1")]) ∧
    wireContent [(str "owner", str "default"), (str "resource", str "r1")]
      = str "origin=dops,dops/owner=default,dops/resource=r1" ∧
    (Labels.Serialize [(str "resource", str "r1"), (str "owner", str "default")] false
        = wireContent [(str "owner", str "default"), (str "resource", str "r1")] ∧
      Labels.Serialize [(str "resource", str "r1"), (str "owner", str "default")] true
        = str "\"" ++ wireContent [(str "owner", str "default"), (str "resource", str "r1")]
            ++ str "\"" ∧
      Labels.Serialize [] false = str "origin=dops" ∧
      Labels.Serialize [] true = str "\"origin=dops\"") :=
  ⟨⟨by decide, by decide⟩, by decide,
   serialize_format [(str "owner", str "default"), (str "resource", str "r1")]
    [(str "resource", str "r1"), (str "owner", str "default")] (by decide) (by decide)⟩

/-! ## Policies -/

/-- C5: `UpsertOnlyPolicy.Apply` returns a change set with an empty `Delete`, and with the
`Create`, `UpdateOld` and `UpdateNew` of its argument, entry for entry. -/
theorem upsertOnly_apply {Endpoint : Type} (c : Changes Endpoint) :
    (UpsertOnlyPolicy.Apply c).Delete = [] ∧
    (UpsertOnlyPolicy.Apply c).Create = c.Create ∧
    (UpsertOnlyPolicy.Apply c).UpdateOld = c.UpdateOld ∧
    (UpsertOnlyPolicy.Apply c).UpdateNew = c.UpdateNew ∧
    Policy.Apply Policy.UpsertOnlyPolicy c = UpsertOnlyPolicy.Apply c :=
  ⟨rfl, rfl, rfl, rfl, rfl⟩

/-- C6: `CreateOnlyPolicy.Apply` returns a change set with empty `UpdateOld`, `UpdateNew`
and `Delete`, and with the `Create` of its argument, entry for entry. -/
theorem createOnly_apply {Endpoint : Type} (c : Changes Endpoint) :
    (CreateOnlyPolicy.Apply c).UpdateOld = [] ∧
    (CreateOnlyPolicy.Apply c).UpdateNew = [] ∧
    (CreateOnlyPolicy.Apply c).Delete = [] ∧
    (CreateOnlyPolicy.Apply c).Create = c.Create ∧
    Policy.Apply Policy.CreateOnlyPolicy c = CreateOnlyPolicy.Apply c :=
  ⟨rfl, rfl, rfl, rfl, rfl⟩

/-- C7: `SyncPolicy.Apply` returns its argument: the four sequences are unchanged. -/
theorem sync_apply {Endpoint : Type} (c : Changes Endpoint) :
    SyncPolicy.Apply c = c ∧
    (SyncPolicy.Apply c).Create = c.Create ∧
    (SyncPolicy.Apply c).UpdateOld = c.UpdateOld ∧
    (SyncPolicy.Apply c).UpdateNew = c.UpdateNew ∧
    (SyncPolicy.Apply c).Delete = c.Delete ∧
    Policy.Apply Policy.SyncPolicy c = SyncPolicy.Apply c :=
  ⟨rfl, rfl, rfl, rfl, rfl, rfl⟩

/-- C8: the lookup of a name in `Policies` finds `SyncPolicy` exactly for `sync`,
`UpsertOnlyPolicy` exactly for `upsert-only` and `CreateOnlyPolicy` exactly for
`create-only`; it succeeds exactly for these three names, and every other name, the empty
one included, is rejected with `invalid policy: <name>`. -/
theorem policies_lookup (name : Str) :
    (Policies.lookup name = some Policy.SyncPolicy ↔ name = str "sync") ∧
    (Policies.lookup name = some Policy.UpsertOnlyPolicy ↔ name = str "upsert-only") ∧
    (Policies.lookup name = some Policy.CreateOnlyPolicy ↔ name = str "create-only") ∧
    ((∃ p, lookupPolicy name = .ok p) ↔
      (name = str "sync" ∨ name = str "upsert-only" ∨ name = str "create-only")) ∧
    (lookupPolicy name = .error (str "invalid policy: " ++ name) ↔
      ¬ (name = str "sync" ∨ name = str "upsert-only" ∨ name = str "create-only")) ∧
    lookupPolicy (str "") = .error (str "invalid policy: ") := by
  by_cases h1 : name = str "sync"
  · subst h1
    exact ⟨by decide, by decide, by decide,
      ⟨fun _ => Or.inl rfl, fun _ => ⟨Policy.SyncPolicy, by decide⟩⟩, by decide, by decide⟩
  · by_cases h2 : name = str "upsert-only"
    · subst h2
      exact ⟨by decide, by decide, by decide,
        ⟨fun _ => Or.inr (Or.inl rfl), fun _ => ⟨Policy.UpsertOnlyPolicy, by decide⟩⟩,
        by decide, by decide⟩
    · by_cases h3 : name = str "create-only"
      · subst h3
        exact ⟨by decide, by decide, by decide,
          ⟨fun _ => Or.inr (Or.inr rfl), fun _ => ⟨Policy.CreateOnlyPolicy, by decide⟩⟩,
          by decide, by decide⟩
      · have hl := lookup_other_name name h1 h2 h3
        have he : lookupPolicy name = .error (str "invalid policy: " ++ name) := by
          unfold lookupPolicy
          rw [hl]
        refine ⟨?_, ?_, ?_, ?_, ?_, by decide⟩
        · rw [hl]; simp [h1]
        · rw [hl]; simp [h2]
        · rw [hl]; simp [h3]
        · rw [he]; simp [h1, h2, h3]
        · rw [he]; simp [h1, h2, h3]

/-! ## Zone routing -/

/-- C9: when some zone name of the map suits the hostname (is equal to it, or the hostname
ends with `.` and that name), `FindZone` returns an entry of the map whose name suits the
hostname and is at least as long as every zone name of the map that suits it; this holds
for every iteration order of the map. -/
theorem findZone_longest (z : ZoneIDName) (hostname : Str)
    (hex : ∃ e ∈ z, Suits hostname e.2) :
    z.FindZone hostname ∈ z ∧ Suits hostname (z.FindZone hostname).2 ∧
      ∀ e ∈ z, Suits hostname e.2 → e.2.length ≤ (z.FindZone hostname).2.length := by
  rcases FindZone.inv z hostname with ⟨_, hno⟩ | h
  · obtain ⟨e, he, hs⟩ := hex
    exact absurd hs (hno e he)
  · exact h

/-- The zones `a.example.com` and `example.com`, in both orders, on `x.a.example.com`. -/
theorem findZone_longest_witness :
    (∃ e ∈ [(str "z2", str "example.com"), (str "z1", str "a.example.com")],
        Suits (str "x.a.example.com") e.2) ∧
    ZoneIDName.FindZone [(str "z2", str "example.com"), (str "z1", str "a.example.com")]
        (str "x.a.example.com") = (str "z1", str "a.example.com") ∧
    ZoneIDName.FindZone [(str "z1", str "a.example.com"), (str "z2", str "example.com")]
        (str "x.a.example.com") = (str "z1", str "a.example.com") ∧
    (ZoneIDName.FindZone [(str "z2", str "example.com"), (str "z1", str "a.example.com")]
        (str "x.a.example.com")
        ∈ [(str "z2", str "example.com"), (str "z1", str "a.example.com")] ∧
      Suits (str "x.a.example.com")
        (ZoneIDName.FindZone [(str "z2", str "example.com"), (str "z1", str "a.example.com")]
          (str "x.a.example.com")).2 ∧
      ∀ e ∈ [(str "z2", str "example.com"), (str "z1", str "a.example.com")],
        Suits (str "x.a.example.com") e.2 →
          e.2.length ≤
            (ZoneIDName.FindZone
              [(str "z2", str "example.com"), (str "z1", str "a.example.com")]
              (str "x.a.example.com")).2.length) :=
  ⟨⟨(str "z2", str "example.com"), by decide, Or.inr ⟨str "x.a", by decide⟩⟩,
   by decide, by decide,
   findZone_longest [(str "z2", str "example.com"), (str "z1", str "a.example.com")]
    (str "x.a.example.com")
    ⟨(str "z2", str "example.com"), by decide, Or.inr ⟨str "x.a", by decide⟩⟩⟩

/-- C10: when no zone name of the map suits the hostname (none is equal to it, and the
hostname ends with `.` and the name for none), `FindZone` returns the empty zone ID and the
empty zone name. -/
theorem findZone_no_zone (z : ZoneIDName) (hostname : Str)
    (hno : ∀ e ∈ z, ¬ Suits hostname e.2) :
    z.FindZone hostname = ([], []) := by
  rcases FindZone.inv z hostname with ⟨h, _⟩ | ⟨hin, hs, _⟩
  · exact h
  · exact absurd hs (hno _ hin)

/-- The zone `example.com` does not suit `badexample.com`. -/
theorem findZone_no_zone_witness :
    (∀ e ∈ [(str "z2", str "example.com")], ¬ Suits (str "badexample.com") e.2) ∧
    ZoneIDName.FindZone [(str "z2", str "example.com")] (str "badexample.com") = ([], []) :=
  ⟨fun e he => by
      rw [List.mem_singleton] at he
      subst he
      rw [← hasSuffix_iff]
      decide,
   findZone_no_zone [(str "z2", str "example.com")] (str "badexample.com")
    (fun e he => by
      rw [List.mem_singleton] at he
      subst he
      rw [← hasSuffix_iff]
      decide)⟩

/-! ## Conflict resolution -/

/-- C11: for a non-empty candidate list `ResolveCreate` returns a member `r` of the list,
and no candidate has Targets less than those of `r` under `Targets.IsLess`. -/
theorem resolveCreate_minimal (candidates : List Endpoint) (hne : candidates ≠ []) :
    ∃ r, PerResource.ResolveCreate candidates = some r ∧ r ∈ candidates ∧
      ∀ c ∈ candidates, Targets.IsLess c.Targets r.Targets = false := by
  cases candidates with
  | nil => exact absurd rfl hne
  | cons a l => exact resolveCreate_min a l

/-- The candidates with Targets `[10.0.0.2]` and `[10.0.0.1]`, in both orders: the winner is
the one with `[10.0.0.1]`. -/
theorem resolveCreate_minimal_witness :
    [exampleEndpoint (str "svc.example.com") [str "10.0.0.2"] (str "r1"),
      exampleEndpoint (str "svc.example.com") [str "10.0.0.1"] (str "r2")] ≠ [] ∧
    PerResource.ResolveCreate
      [exampleEndpoint (str "svc.example.com") [str "10.0.0.2"] (str "r1"),
        exampleEndpoint (str "svc.example.com") [str "10.0.0.1"] (str "r2")]
      = some (exampleEndpoint (str "svc.example.com") [str "10.0.0.1"] (str "r2")) ∧
    PerResource.ResolveCreate
      [exampleEndpoint (str "svc.example.com") [str "10.0.0.1"] (str "r2"),
        exampleEndpoint (str "svc.example.com") [str "10.0.0.2"] (str "r1")]
      = some (exampleEndpoint (str "svc.example.com") [str "10.0.0.1"] (str "r2")) ∧
    (∃ r, PerResource.ResolveCreate
        [exampleEndpoint (str "svc.example.com") [str "10.0.0.2"] (str "r1"),
          exampleEndpoint (str "svc.example.com") [str "10.0.0.1"] (str "r2")] = some r ∧
      r ∈ [exampleEndpoint (str "svc.example.com") [str "10.0.0.2"] (str "r1"),
          exampleEndpoint (str "svc.example.com") [str "10.0.0.1"] (str "r2")] ∧
      ∀ c ∈ [exampleEndpoint (str "svc.example.com") [str "10.0.0.2"] (str "r1"),
          exampleEndpoint (str "svc.example.com") [str "10.0.0.1"] (str "r2")],
        Targets.IsLess c.Targets r.Targets = false) :=
  ⟨by decide, by decide, by decide,
   resolveCreate_minimal
    [exampleEndpoint (str "svc.example.com") [str "10.0.0.2"] (str "r1"),
      exampleEndpoint (str "svc.example.com") [str "10.0.0.1"] (str "r2")] (by decide)⟩

/-- C12, as amended: for every candidate list and every permutation of it, the winners
`ResolveCreate` returns have the same Targets up to the order of the targets: their sorted
Targets are equal (and there is no winner for either when the list is empty). -/
theorem resolveCreate_perm (candidates permuted : List Endpoint)
    (hp : candidates.Perm permuted) :
    (PerResource.ResolveCreate candidates).map (fun r => sort.Strings r.Targets) =
      (PerResource.ResolveCreate permuted).map (fun r => sort.Strings r.Targets) := by
  cases candidates with
  | nil =>
    rw [List.nil_perm.mp hp]
  | cons a l =>
    cases permuted with
    | nil => exact absurd (List.perm_nil.mp hp) (by simp)
    | cons b l2 =>
      obtain ⟨r, h1, h2, h3⟩ := resolveCreate_min a l
      obtain ⟨r2, k1, k2, k3⟩ := resolveCreate_min b l2
      rw [h1, k1]
      simp only [Option.map_some', Option.some.injEq]
      have e1 := (less_eq_false_iff r2 r).mp (h3 r2 (hp.mem_iff.mpr k2))
      have e2 := (less_eq_false_iff r r2).mp (k3 r (hp.mem_iff.mp h2))
      exact le_antisymm e1 e2

/-- Two candidates in both orders: the winners have the same sorted Targets. -/
theorem resolveCreate_perm_witness :
    List.Perm
      [exampleEndpoint (str "svc.example.com") [str "b", str "a"] (str "r1"),
        exampleEndpoint (str "svc.example.com") [str "a", str "b"] (str "r2"),
        exampleEndpoint (str "svc.example.com") [str "c"] (str "r3")]
      [exampleEndpoint (str "svc.example.com") [str "c"] (str "r3"),
        exampleEndpoint (str "svc.example.com") [str "a", str "b"] (str "r2"),
        exampleEndpoint (str "svc.example.com") [str "b", str "a"] (str "r1")] ∧
    (PerResource.ResolveCreate
        [exampleEndpoint (str "svc.example.com") [str "b", str "a"] (str "r1"),
          exampleEndpoint (str "svc.example.com") [str "a", str "b"] (str "r2"),
          exampleEndpoint (str "svc.example.com") [str "c"] (str "r3")]).map
        (fun r => sort.Strings r.Targets) =
      (PerResource.ResolveCreate
        [exampleEndpoint (str "svc.example.com") [str "c"] (str "r3"),
          exampleEndpoint (str "svc.example.com") [str "a", str "b"] (str "r2"),
          exampleEndpoint (str "svc.example.com") [str "b", str "a"] (str "r1")]).map
        (fun r => sort.Strings r.Targets) :=
  ⟨by decide,
   resolveCreate_perm
    [exampleEndpoint (str "svc.example.com") [str "b", str "a"] (str "r1"),
      exampleEndpoint (str "svc.example.com") [str "a", str "b"] (str "r2"),
      exampleEndpoint (str "svc.example.com") [str "c"] (str "r3")]
    [exampleEndpoint (str "svc.example.com") [str "c"] (str "r3"),
      exampleEndpoint (str "svc.example.com") [str "a", str "b"] (str "r2"),
      exampleEndpoint (str "svc.example.com") [str "b", str "a"] (str "r1")] (by decide)⟩

/-- C12, as stated, fails: of two candidates with the Targets `[b, a]` and `[a, b]` neither
is less than the other, the first one of the list wins, and the two orders of the list give
winners with the Targets `[b, a]` and `[a, b]`. -/
theorem resolveCreate_perm_counterexample :
    List.Perm
      [exampleEndpoint (str "svc.example.com") [str "b", str "a"] (str "r1"),
        exampleEndpoint (str "svc.example.com") [str "a", str "b"] (str "r2")]
      [exampleEndpoint (str "svc.example.com") [str "a", str "b"] (str "r2"),
        exampleEndpoint (str "svc.example.com") [str "b", str "a"] (str "r1")] ∧
    (PerResource.ResolveCreate
        [exampleEndpoint (str "svc.example.com") [str "b", str "a"] (str "r1"),
          exampleEndpoint (str "svc.example.com") [str "a", str "b"] (str "r2")]).map
        (fun r => r.Targets) = some [str "b", str "a"] ∧
    (PerResource.ResolveCreate
        [exampleEndpoint (str "svc.example.com") [str "a", str "b"] (str "r2"),
          exampleEndpoint (str "svc.example.com") [str "b", str "a"] (str "r1")]).map
        (fun r => r.Targets) = some [str "a", str "b"] ∧
    [str "b", str "a"] ≠ [str "a", str "b"] := by
  decide

/-- C13: when some candidate has the `resource` label of `current`, `ResolveUpdate` returns
a candidate with that `resource` label, and no candidate with that label has Targets less
than those of the returned one. -/
theorem resolveUpdate_same_resource (current : Endpoint) (candidates : List Endpoint)
    (hex : ∃ c ∈ candidates,
      c.Labels.get (str "resource") = current.Labels.get (str "resource")) :
    ∃ r, PerResource.ResolveUpdate current candidates = some r ∧ r ∈ candidates ∧
      r.Labels.get (str "resource") = current.Labels.get (str "resource") ∧
      ∀ c ∈ candidates, c.Labels.get (str "resource") = current.Labels.get (str "resource") →
        Targets.IsLess c.Targets r.Targets = false := by
  obtain ⟨c0, hc0, hl0⟩ := hex
  have hperm := sortStable_perm candidates
  have hsorted := sortStable_sorted candidates
  unfold PerResource.ResolveUpdate
  simp only []
  cases hf : (PerResource.sortStable candidates).find?
      (fun ep => decide (ep.Labels.get (str "resource") = current.Labels.get (str "resource")))
    with
  | none =>
    exfalso
    rw [List.find?_eq_none] at hf
    exact hf c0 (hperm.mem_iff.mpr hc0) (by simpa using hl0)
  | some r =>
    obtain ⟨hp, pre, post, hs, hpre⟩ := List.find?_eq_some.mp hf
    have hr : r ∈ PerResource.sortStable candidates := by rw [hs]; simp
    refine ⟨r, rfl, hperm.mem_iff.mp hr, by simpa using hp, ?_⟩
    intro c hc hl
    have hcs : c ∈ pre ++ r :: post := hs ▸ hperm.mem_iff.mpr hc
    rcases List.mem_append.mp hcs with h | h
    · have := hpre c h
      simp [hl] at this
    · rcases List.mem_cons.mp h with h | h
      · rw [h]
        exact (less_eq_false_iff r r).mpr (le_refl _)
      · rw [hs] at hsorted
        have h2 := (List.pairwise_append.mp hsorted).2.1
        exact (List.pairwise_cons.mp h2).1 c h

/-- The current owner has resource `r1`; of the two candidates of `r1` the one with the
smaller Targets is returned, though the candidate of `r2` has smaller Targets still. -/
theorem resolveUpdate_same_resource_witness :
    (∃ c ∈ [exampleEndpoint (str "svc.example.com") [str "10.0.0.3"] (str "r1"),
          exampleEndpoint (str "svc.example.com") [str "10.0.0.1"] (str "r2"),
          exampleEndpoint (str "svc.example.com") [str "10.0.0.2"] (str "r1")],
        c.Labels.get (str "resource") =
          (exampleEndpoint (str "svc.example.com") [str "10.0.0.9"] (str "r1")).Labels.get
            (str "resource")) ∧
    PerResource.ResolveUpdate
        (exampleEndpoint (str "svc.example.com") [str "10.0.0.9"] (str "r1"))
        [exampleEndpoint (str "svc.example.com") [str "10.0.0.3"] (str "r1"),
          exampleEndpoint (str "svc.example.com") [str "10.0.0.1"] (str "r2"),
          exampleEndpoint (str "svc.example.com") [str "10.0.0.2"] (str "r1")]
      = some (exampleEndpoint (str "svc.example.com") [str "10.0.0.2"] (str "r1")) ∧
    (∃ r, PerResource.ResolveUpdate
          (exampleEndpoint (str "svc.example.com") [str "10.0.0.9"] (str "r1"))
          [exampleEndpoint (str "svc.example.com") [str "10.0.0.3"] (str "r1"),
            exampleEndpoint (str "svc.example.com") [str "10.0.0.1"] (str "r2"),
            exampleEndpoint (str "svc.example.com") [str "10.0.0.2"] (str "r1")] = some r ∧
      r ∈ [exampleEndpoint (str "svc.example.com") [str "10.0.0.3"] (str "r1"),
            exampleEndpoint (str "svc.example.com") [str "10.0.0.1"] (str "r2"),
            exampleEndpoint (str "svc.example.com") [str "10.0.0.2"] (str "r1")] ∧
      r.Labels.get (str "resource") =
        (exampleEndpoint (str "svc.example.com") [str "10.0.0.9"] (str "r1")).Labels.get
          (str "resource") ∧
      ∀ c ∈ [exampleEndpoint (str "svc.example.com") [str "10.0.0.3"] (str "r1"),
            exampleEndpoint (str "svc.example.com") [str "10.0.0.1"] (str "r2"),
            exampleEndpoint (str "svc.example.com") [str "10.0.0.2"] (str "r1")],
        c.Labels.get (str "resource") =
          (exampleEndpoint (str "svc.example.com") [str "10.0.0.9"] (str "r1")).Labels.get
            (str "resource") →
        Targets.IsLess c.Targets r.Targets = false) :=
  ⟨by decide, by decide,
   resolveUpdate_same_resource
    (exampleEndpoint (str "svc.example.com") [str "10.0.0.9"] (str "r1"))
    [exampleEndpoint (str "svc.example.com") [str "10.0.0.3"] (str "r1"),
      exampleEndpoint (str "svc.example.com") [str "10.0.0.1"] (str "r2"),
      exampleEndpoint (str "svc.example.com") [str "10.0.0.2"] (str "r1")] (by decide)⟩

/-- C14: when no candidate has the `resource` label of `current`, `ResolveUpdate` returns
the winner `ResolveCreate` returns for the same candidates; for the empty list that is nil. -/
theorem resolveUpdate_fallback (current : Endpoint) (candidates : List Endpoint)
    (hno : ∀ c ∈ candidates,
      c.Labels.get (str "resource") ≠ current.Labels.get (str "resource")) :
    PerResource.ResolveUpdate current candidates = PerResource.ResolveCreate candidates ∧
    PerResource.ResolveUpdate current [] = none := by
  refine ⟨?_, rfl⟩
  have hperm := sortStable_perm candidates
  unfold PerResource.ResolveUpdate
  simp only []
  have hf : (PerResource.sortStable candidates).find?
      (fun ep => decide (ep.Labels.get (str "resource") = current.Labels.get (str "resource")))
      = none := by
    rw [List.find?_eq_none]
    intro x hx
    simpa using hno x (hperm.mem_iff.mp hx)
  rw [hf]
  exact resolveCreate_sortStable candidates

/-- The current owner has resource `r9`, no candidate has: the winner is the one of
`ResolveCreate`, the first of the two candidates with the smallest Targets. -/
theorem resolveUpdate_fallback_witness :
    (∀ c ∈ [exampleEndpoint (str "svc.example.com") [str "10.0.0.3"] (str "r1"),
          exampleEndpoint (str "svc.example.com") [str "10.0.0.1"] (str "r2"),
          exampleEndpoint (str "svc.example.com") [str "10.0.0.1"] (str "r3")],
        c.Labels.get (str "resource") ≠
          (exampleEndpoint (str "svc.example.com") [str "10.0.0.9"] (str "r9")).Labels.get
            (str "resource")) ∧
    PerResource.ResolveCreate
        [exampleEndpoint (str "svc.example.com") [str "10.0.0.3"] (str "r1"),
          exampleEndpoint (str "svc.example.com") [str "10.0.0.1"] (str "r2"),
          exampleEndpoint (str "svc.example.com") [str "10.0.0.1"] (str "r3")]
      = some (exampleEndpoint (str "svc.example.com") [str "10.0.0.1"] (str "r2")) ∧
    (PerResource.ResolveUpdate
        (exampleEndpoint (str "svc.example.com") [str "10.0.0.9"] (str "r9"))
        [exampleEndpoint (str "svc.example.com") [str "10.0.0.3"] (str "r1"),
          exampleEndpoint (str "svc.example.com") [str "10.0.0.1"] (str "r2"),
          exampleEndpoint (str "svc.example.com") [str "10.0.0.1"] (str "r3")]
      = PerResource.ResolveCreate
        [exampleEndpoint (str "svc.example.com") [str "10.0.0.3"] (str "r1"),
          exampleEndpoint (str "svc.example.com") [str "10.0.0.1"] (str "r2"),
          exampleEndpoint (str "svc.example.com") [str "10.0.0.1"] (str "r3")] ∧
      PerResource.ResolveUpdate
        (exampleEndpoint (str "svc.example.com") [str "10.0.0.9"] (str "r9")) [] = none) :=
  ⟨by decide, by decide,
   resolveUpdate_fallback
    (exampleEndpoint (str "svc.example.com") [str "10.0.0.9"] (str "r9"))
    [exampleEndpoint (str "svc.example.com") [str "10.0.0.3"] (str "r1"),
      exampleEndpoint (str "svc.example.com") [str "10.0.0.1"] (str "r2"),
      exampleEndpoint (str "svc.example.com") [str "10.0.0.1"] (str "r3")] (by decide)⟩

/-! ## Sources -/

/-- C15, as amended: when the wrapped source succeeds, `dedupSource.Endpoints` returns its
endpoints in their original relative order, with an endpoint removed iff an earlier endpoint
of the list has the same identifier text
`DNSName + " / " + SetIdentifier + " / " + Targets.String()`; an endpoint with the same
`DNSName`, `SetIdentifier` and `Targets` as an earlier one is removed, and endpoints whose
identifier texts differ are never merged.  For every place `pre ++ ep :: post` of an endpoint
in the list, the result is what is kept of `pre` alone, then `ep` unless it is removed, then
endpoints of `post`. -/
theorem dedup_endpoints {World : Type} (targetsString : Targets → Str) (src : Source World)
    (w w1 : World) (endpoints : List Endpoint)
    (hs : src.Endpoints w = (.ok endpoints, w1)) :
    ∃ result, dedupSource.Endpoints targetsString src w = (.ok result, w1) ∧
      result.Sublist endpoints ∧
      ∀ pre ep post, endpoints = pre ++ ep :: post →
        ∃ tail, tail.Sublist post ∧
          ((∃ e ∈ pre, dedupSource.identifier targetsString e =
                dedupSource.identifier targetsString ep) →
            result = dedupSource.Endpoints.loop targetsString pre [] [] ++ tail) ∧
          ((∀ e ∈ pre, dedupSource.identifier targetsString e ≠
                dedupSource.identifier targetsString ep) →
            result = dedupSource.Endpoints.loop targetsString pre [] [] ++ ep :: tail) ∧
          ((∃ e ∈ pre, e.DNSName = ep.DNSName ∧ e.SetIdentifier = ep.SetIdentifier ∧
                e.Targets = ep.Targets) →
            result = dedupSource.Endpoints.loop targetsString pre [] [] ++ tail) := by
  refine ⟨dedupSource.Endpoints.loop targetsString endpoints [] [], ?_,
    dedup_loop_sublist _ _ _, ?_⟩
  · unfold dedupSource.Endpoints
    rw [hs]
  · intro pre ep post he
    subst he
    obtain ⟨tail, h1, h2, h3⟩ := dedup_loop_split targetsString pre post ep
    refine ⟨tail, h1, h2, h3, ?_⟩
    rintro ⟨e, hmem, hd, hsi, ht⟩
    exact h2 ⟨e, hmem, by unfold dedupSource.identifier; rw [hd, hsi, ht]⟩

/-- Three endpoints, the third one a repetition of the first with other labels: it is
removed, the other two are kept in their order. -/
theorem dedup_endpoints_witness :
    (exampleSource 1 (.ok
        [exampleEndpoint (str "a.example.com") [str "10.0.0.1"] (str "r1"),
          exampleEndpoint (str "b.example.com") [str "10.0.0.1"] (str "r1"),
          exampleEndpoint (str "a.example.com") [str "10.0.0.1"] (str "r2")])).Endpoints []
      = (.ok
        [exampleEndpoint (str "a.example.com") [str "10.0.0.1"] (str "r1"),
          exampleEndpoint (str "b.example.com") [str "10.0.0.1"] (str "r1"),
          exampleEndpoint (str "a.example.com") [str "10.0.0.1"] (str "r2")], [1]) ∧
    dedupSource.Endpoints (fun t => strings.Join t (str ";"))
        (exampleSource 1 (.ok
          [exampleEndpoint (str "a.example.com") [str "10.0.0.1"] (str "r1"),
            exampleEndpoint (str "b.example.com") [str "10.0.0.1"] (str "r1"),
            exampleEndpoint (str "a.example.com") [str "10.0.0.1"] (str "r2")])) []
      = (.ok
        [exampleEndpoint (str "a.example.com") [str "10.0.0.1"] (str "r1"),
          exampleEndpoint (str "b.example.com") [str "10.0.0.1"] (str "r1")], [1]) ∧
    (∃ result, dedupSource.Endpoints (fun t => strings.Join t (str ";"))
        (exampleSource 1 (.ok
          [exampleEndpoint (str "a.example.com") [str "10.0.0.1"] (str "r1"),
            exampleEndpoint (str "b.example.com") [str "10.0.0.1"] (str "r1"),
            exampleEndpoint (str "a.example.com") [str "10.0.0.1"] (str "r2")])) []
        = (.ok result, [1]) ∧
      result.Sublist
        [exampleEndpoint (str "a.example.com") [str "10.0.0.1"] (str "r1"),
          exampleEndpoint (str "b.example.com") [str "10.0.0.1"] (str "r1"),
          exampleEndpoint (str "a.example.com") [str "10.0.0.1"] (str "r2")] ∧
      ∀ pre ep post,
        [exampleEndpoint (str "a.example.com") [str "10.0.0.1"] (str "r1"),
          exampleEndpoint (str "b.example.com") [str "10.0.0.1"] (str "r1"),
          exampleEndpoint (str "a.example.com") [str "10.0.0.1"] (str "r2")]
          = pre ++ ep :: post →
        ∃ tail, tail.Sublist post ∧
          ((∃ e ∈ pre, dedupSource.identifier (fun t => strings.Join t (str ";")) e =
                dedupSource.identifier (fun t => strings.Join t (str ";")) ep) →
            result = dedupSource.Endpoints.loop (fun t => strings.Join t (str ";")) pre [] []
              ++ tail) ∧
          ((∀ e ∈ pre, dedupSource.identifier (fun t => strings.Join t (str ";")) e ≠
                dedupSource.identifier (fun t => strings.Join t (str ";")) ep) →
            result = dedupSource.Endpoints.loop (fun t => strings.Join t (str ";")) pre [] []
              ++ ep :: tail) ∧
          ((∃ e ∈ pre, e.DNSName = ep.DNSName ∧ e.SetIdentifier = ep.SetIdentifier ∧
                e.Targets = ep.Targets) →
            result = dedupSource.Endpoints.loop (fun t => strings.Join t (str ";")) pre [] []
              ++ tail)) :=
  ⟨by decide, by decide,
   dedup_endpoints (fun t => strings.Join t (str ";"))
    (exampleSource 1 (.ok
      [exampleEndpoint (str "a.example.com") [str "10.0.0.1"] (str "r1"),
        exampleEndpoint (str "b.example.com") [str "10.0.0.1"] (str "r1"),
        exampleEndpoint (str "a.example.com") [str "10.0.0.1"] (str "r2")])) [] [1] _
    (by decide)⟩

/-- C15, as stated, fails: the endpoint with `DNSName` `a / b` and `SetIdentifier` `c` has
the identifier text of the earlier endpoint with `DNSName` `a` and `SetIdentifier` `b / c`
(same Targets), whatever `Targets.String` returns, and is removed though the two differ in
`DNSName` and in `SetIdentifier`. -/
theorem dedup_endpoints_counterexample :
    str "a" ≠ str "a / b" ∧ str "b / c" ≠ str "c" ∧
    ∀ targetsString : Targets → Str,
      dedupSource.Endpoints targetsString
        (exampleSource 1 (.ok
          [{ exampleEndpoint (str "a") [str "10.0.0.1"] (str "r1") with
              SetIdentifier := str "b / c" },
            { exampleEndpoint (str "a / b") [str "10.0.0.1"] (str "r1") with
              SetIdentifier := str "c" }])) []
      = (.ok [{ exampleEndpoint (str "a") [str "10.0.0.1"] (str "r1") with
              SetIdentifier := str "b / c" }], [1]) := by
  refine ⟨by decide, by decide, ?_⟩
  intro targetsString
  have hid : dedupSource.identifier targetsString
        { exampleEndpoint (str "a / b") [str "10.0.0.1"] (str "r1") with
          SetIdentifier := str "c" } =
      dedupSource.identifier targetsString
        { exampleEndpoint (str "a") [str "10.0.0.1"] (str "r1") with
          SetIdentifier := str "b / c" } := by
    simp [dedupSource.identifier, exampleEndpoint, str]
  simp [dedupSource.Endpoints, exampleSource, dedupSource.Endpoints.loop, hid]

/-- C16: when every child source succeeds (the children, queried in turn, return the lists
`lists`), `multiSource.Endpoints` returns the concatenation of these lists in child order,
every endpoint at its place (carrying the default targets when there are any): the length
of the result is the sum of the lengths of the lists, and without default targets the result
is the concatenation itself. -/
theorem multiSource_concat {World : Type} (children : List (Source World))
    (defaultTargets : List Str) (w w1 : World) (lists : List (List Endpoint))
    (h : queryAll children w = some (lists, w1)) :
    ∃ result, multiSource.Endpoints children defaultTargets w = (.ok result, w1) ∧
      result = (lists.map (multiSource.applyDefaultTargets defaultTargets)).flatten ∧
      result = multiSource.applyDefaultTargets defaultTargets lists.flatten ∧
      result.length = (lists.map List.length).sum ∧
      result.map (fun ep => ep.DNSName) = lists.flatten.map (fun ep => ep.DNSName) ∧
      (defaultTargets = [] → result = lists.flatten) := by
  refine ⟨_, ?_, rfl, applyDefaultTargets_flatten _ _, ?_, ?_, ?_⟩
  · unfold multiSource.Endpoints
    rw [multiSource_loop_ok defaultTargets children [] w w1 lists h]
    simp
  · rw [applyDefaultTargets_flatten, applyDefaultTargets_length, List.length_flatten]
  · rw [applyDefaultTargets_flatten]
    unfold multiSource.applyDefaultTargets
    split
    · rw [List.map_map]; rfl
    · rfl
  · intro hd
    rw [applyDefaultTargets_flatten, hd]
    rfl

/-- Two children with two and one endpoints, no default targets. -/
theorem multiSource_concat_witness :
    queryAll
        [exampleSource 1 (.ok [exampleEndpoint (str "a.example.com") [str "10.0.0.1"] (str "r1"),
            exampleEndpoint (str "b.example.com") [str "10.0.0.2"] (str "r1")]),
          exampleSource 2 (.ok [exampleEndpoint (str "c.example.com") [str "10.0.0.3"] (str "r2")])]
        []
      = some ([[exampleEndpoint (str "a.example.com") [str "10.0.0.1"] (str "r1"),
            exampleEndpoint (str "b.example.com") [str "10.0.0.2"] (str "r1")],
          [exampleEndpoint (str "c.example.com") [str "10.0.0.3"] (str "r2")]], [1, 2]) ∧
    multiSource.Endpoints
        [exampleSource 1 (.ok [exampleEndpoint (str "a.example.com") [str "10.0.0.1"] (str "r1"),
            exampleEndpoint (str "b.example.com") [str "10.0.0.2"] (str "r1")]),
          exampleSource 2 (.ok [exampleEndpoint (str "c.example.com") [str "10.0.0.3"] (str "r2")])]
        [] []
      = (.ok [exampleEndpoint (str "a.example.com") [str "10.0.0.1"] (str "r1"),
          exampleEndpoint (str "b.example.com") [str "10.0.0.2"] (str "r1"),
          exampleEndpoint (str "c.example.com") [str "10.0.0.3"] (str "r2")], [1, 2]) ∧
    (∃ result, multiSource.Endpoints
        [exampleSource 1 (.ok [exampleEndpoint (str "a.example.com") [str "10.0.0.1"] (str "r1"),
            exampleEndpoint (str "b.example.com") [str "10.0.0.2"] (str "r1")]),
          exampleSource 2 (.ok [exampleEndpoint (str "c.example.com") [str "10.0.0.3"] (str "r2")])]
        [] [] = (.ok result, [1, 2]) ∧
      result = (List.map (multiSource.applyDefaultTargets [])
        [[exampleEndpoint (str "a.example.com") [str "10.0.0.1"] (str "r1"),
            exampleEndpoint (str "b.example.com") [str "10.0.0.2"] (str "r1")],
          [exampleEndpoint (str "c.example.com") [str "10.0.0.3"] (str "r2")]]).flatten ∧
      result = multiSource.applyDefaultTargets []
        (List.flatten [[exampleEndpoint (str "a.example.com") [str "10.0.0.1"] (str "r1"),
            exampleEndpoint (str "b.example.com") [str "10.0.0.2"] (str "r1")],
          [exampleEndpoint (str "c.example.com") [str "10.0.0.3"] (str "r2")]]) ∧
      result.length = (List.map List.length
        [[exampleEndpoint (str "a.example.com") [str "10.0.0.1"] (str "r1"),
            exampleEndpoint (str "b.example.com") [str "10.0.0.2"] (str "r1")],
          [exampleEndpoint (str "c.example.com") [str "10.0.0.3"] (str "r2")]]).sum ∧
      result.map (fun ep => ep.DNSName) =
        (List.flatten [[exampleEndpoint (str "a.example.com") [str "10.0.0.1"] (str "r1"),
            exampleEndpoint (str "b.example.com") [str "10.0.0.2"] (str "r1")],
          [exampleEndpoint (str "c.example.com") [str "10.0.0.3"] (str "r2")]]).map
          (fun ep => ep.DNSName) ∧
      (([] : List Str) = [] → result =
        List.flatten [[exampleEndpoint (str "a.example.com") [str "10.0.0.1"] (str "r1"),
            exampleEndpoint (str "b.example.com") [str "10.0.0.2"] (str "r1")],
          [exampleEndpoint (str "c.example.com") [str "10.0.0.3"] (str "r2")]])) :=
  ⟨by decide, by decide,
   multiSource_concat
    [exampleSource 1 (.ok [exampleEndpoint (str "a.example.com") [str "10.0.0.1"] (str "r1"),
        exampleEndpoint (str "b.example.com") [str "10.0.0.2"] (str "r1")]),
      exampleSource 2 (.ok [exampleEndpoint (str "c.example.com") [str "10.0.0.3"] (str "r2")])]
    [] [] [1, 2] _ (by decide)⟩

/-- C17: when every child source succeeds, the endpoints `multiSource.Endpoints` returns
correspond one by one to the endpoints the children produced: with non-empty
`DefaultTargets` the Targets of a returned endpoint are `DefaultTargets` and its other
fields are those the child produced; with empty `DefaultTargets` the returned endpoint is
the one the child produced. -/
theorem multiSource_frame {World : Type} (children : List (Source World))
    (defaultTargets : List Str) (w w1 : World) (lists : List (List Endpoint))
    (h : queryAll children w = some (lists, w1)) :
    ∃ result, multiSource.Endpoints children defaultTargets w = (.ok result, w1) ∧
      List.Forall₂
        (fun r c =>
          (defaultTargets ≠ [] →
            r.Targets = defaultTargets ∧ r.DNSName = c.DNSName ∧
            r.RecordType = c.RecordType ∧ r.RecordTTL = c.RecordTTL ∧ r.Labels = c.Labels ∧
            r.SetIdentifier = c.SetIdentifier ∧ r.ProviderSpecific = c.ProviderSpecific) ∧
          (defaultTargets = [] → r = c))
        result lists.flatten := by
  refine ⟨_, multiSource_ok children defaultTargets w w1 lists h, ?_⟩
  unfold multiSource.applyDefaultTargets
  by_cases hd : defaultTargets = []
  · subst hd
    simp only [List.length_nil, gt_iff_lt, lt_self_iff_false, if_false]
    exact List.forall₂_same.mpr (fun c _ => ⟨fun hne => absurd rfl hne, fun _ => rfl⟩)
  · have hlen : defaultTargets.length > 0 := List.length_pos.mpr hd
    simp only [hlen, if_true]
    rw [List.forall₂_map_left_iff]
    exact List.forall₂_same.mpr
      (fun c _ => ⟨fun _ => ⟨rfl, rfl, rfl, rfl, rfl, rfl, rfl⟩, fun he => absurd he hd⟩)

/-- Two children and the default target `192.0.2.1`: the three returned endpoints have it
as their only target. -/
theorem multiSource_frame_witness :
    queryAll
        [exampleSource 1 (.ok [exampleEndpoint (str "a.example.com") [str "10.0.0.1"] (str "r1"),
            exampleEndpoint (str "b.example.com") [str "10.0.0.2"] (str "r1")]),
          exampleSource 2 (.ok [exampleEndpoint (str "c.example.com") [str "10.0.0.3"] (str "r2")])]
        []
      = some ([[exampleEndpoint (str "a.example.com") [str "10.0.0.1"] (str "r1"),
            exampleEndpoint (str "b.example.com") [str "10.0.0.2"] (str "r1")],
          [exampleEndpoint (str "c.example.com") [str "10.0.0.3"] (str "r2")]], [1, 2]) ∧
    multiSource.Endpoints
        [exampleSource 1 (.ok [exampleEndpoint (str "a.example.com") [str "10.0.0.1"] (str "r1"),
            exampleEndpoint (str "b.example.com") [str "10.0.0.2"] (str "r1")]),
          exampleSource 2 (.ok [exampleEndpoint (str "c.example.com") [str "10.0.0.3"] (str "r2")])]
        [str "192.0.2.1"] []
      = (.ok [exampleEndpoint (str "a.example.com") [str "192.0.2.1"] (str "r1"),
          exampleEndpoint (str "b.example.com") [str "192.0.2.1"] (str "r1"),
          exampleEndpoint (str "c.example.com") [str "192.0.2.1"] (str "r2")], [1, 2]) ∧
    (∃ result, multiSource.Endpoints
        [exampleSource 1 (.ok [exampleEndpoint (str "a.example.com") [str "10.0.0.1"] (str "r1"),
            exampleEndpoint (str "b.example.com") [str "10.0.0.2"] (str "r1")]),
          exampleSource 2 (.ok [exampleEndpoint (str "c.example.com") [str "10.0.0.3"] (str "r2")])]
        [str "192.0.2.1"] [] = (.ok result, [1, 2]) ∧
      List.Forall₂
        (fun r c =>
          ([str "192.0.2.1"] ≠ [] →
            r.Targets = [str "192.0.2.1"] ∧ r.DNSName = c.DNSName ∧
            r.RecordType = c.RecordType ∧ r.RecordTTL = c.RecordTTL ∧ r.Labels = c.Labels ∧
            r.SetIdentifier = c.SetIdentifier ∧ r.ProviderSpecific = c.ProviderSpecific) ∧
          ([str "192.0.2.1"] = [] → r = c))
        result
        (List.flatten [[exampleEndpoint (str "a.example.com") [str "10.0.0.1"] (str "r1"),
            exampleEndpoint (str "b.example.com") [str "10.0.0.2"] (str "r1")],
          [exampleEndpoint (str "c.example.com") [str "10.0.0.3"] (str "r2")]])) :=
  ⟨by decide, by decide,
   multiSource_frame
    [exampleSource 1 (.ok [exampleEndpoint (str "a.example.com") [str "10.0.0.1"] (str "r1"),
        exampleEndpoint (str "b.example.com") [str "10.0.0.2"] (str "r1")]),
      exampleSource 2 (.ok [exampleEndpoint (str "c.example.com") [str "10.0.0.3"] (str "r2")])]
    [str "192.0.2.1"] [] [1, 2] _ (by decide)⟩

/-- C18: when the children `pre` succeed and the next child `c` returns an error,
`multiSource.Endpoints` returns that error and no endpoints, in the state of the world the
call of `c` left: the children after `c` are not queried. -/
theorem multiSource_error {World : Type} (pre : List (Source World)) (c : Source World)
    (post : List (Source World)) (defaultTargets : List Str) (w w1 w2 : World)
    (lists : List (List Endpoint)) (err : GoError)
    (h : queryAll pre w = some (lists, w1)) (hc : c.Endpoints w1 = (.error err, w2)) :
    multiSource.Endpoints (pre ++ c :: post) defaultTargets w = (.error err, w2) :=
  multiSource_loop_error defaultTargets pre c post [] w w1 w2 lists err h hc

/-- Three children, the second one failing: the error is returned, and the state of the
world shows that the children 1 and 2 were queried and the child 3 was not. -/
theorem multiSource_error_witness :
    queryAll
        [exampleSource 1
          (.ok [exampleEndpoint (str "a.example.com") [str "10.0.0.1"] (str "r1")])] []
      = some ([[exampleEndpoint (str "a.example.com") [str "10.0.0.1"] (str "r1")]], [1]) ∧
    (exampleSource 2 (.error (str "connection refused"))).Endpoints [1]
      = (.error (str "connection refused"), [1, 2]) ∧
    multiSource.Endpoints
        ([exampleSource 1
            (.ok [exampleEndpoint (str "a.example.com") [str "10.0.0.1"] (str "r1")])] ++
          exampleSource 2 (.error (str "connection refused")) ::
          [exampleSource 3
            (.ok [exampleEndpoint (str "c.example.com") [str "10.0.0.3"] (str "r2")])])
        [] []
      = (.error (str "connection refused"), [1, 2]) :=
  ⟨by decide, by decide,
   multiSource_error
    [exampleSource 1 (.ok [exampleEndpoint (str "a.example.com") [str "10.0.0.1"] (str "r1")])]
    (exampleSource 2 (.error (str "connection refused")))
    [exampleSource 3 (.ok [exampleEndpoint (str "c.example.com") [str "10.0.0.3"] (str "r2")])]
    [] [] [1] [1, 2]
    [[exampleEndpoint (str "a.example.com") [str "10.0.0.1"] (str "r1")]]
    (str "connection refused") (by decide) (by decide)⟩

/-! ## Records of the provider -/

/-- C19: whatever the order in which the map of the groups is visited, `groupByNameAndType`
returns, up to their order, exactly one endpoint for each distinct `(Name, Type)` pair of
the records of supported type; the Targets of the endpoint of a pair are the Contents of
exactly the records with that Name and Type, in input order, and its record type is that
Type (its name that Name, without a trailing dot), so that records with different
`(Name, Type)` never share an endpoint. -/
theorem groupByNameAndType_groups (visit : Groups → Groups)
    (hv : ∀ g, (visit g).Perm g) (records : List DNSRecord) :
    (distinctPairs records).Nodup ∧
    (∀ p, p ∈ distinctPairs records ↔
      ∃ r ∈ records, SupportedRecordType r.Type_ = true ∧ (r.Name, r.Type_) = p) ∧
    (groupByNameAndType visit records).Perm
      ((distinctPairs records).map
        (fun p => groupByNameAndType.endpointOf (recordsOf records p))) ∧
    (groupByNameAndType visit records).length = (distinctPairs records).length ∧
    (∀ p ∈ distinctPairs records,
      (groupByNameAndType.endpointOf (recordsOf records p)).Targets =
          (records.filter (fun r => decide (r.Name = p.1 ∧ r.Type_ = p.2))).map
            (fun r => r.Content) ∧
        (groupByNameAndType.endpointOf (recordsOf records p)).RecordType = p.2 ∧
        (groupByNameAndType.endpointOf (recordsOf records p)).DNSName =
          strings.TrimSuffix p.1 (str ".")) := by
  have hperm := grouping_perm visit hv records
  refine ⟨List.nodup_dedup _, mem_distinctPairs records, hperm, ?_, ?_⟩
  · rw [hperm.length_eq, List.length_map]
  · intro p hp
    exact endpointOf_recordsOf records p hp

/-- Four records of one name, two of type `A`, one of type `TXT` and one of the unsupported
type `MX`, the map visited in the reverse order of its entries: the endpoint of `TXT`, then
the endpoint of `A` with the two contents in input order. -/
theorem groupByNameAndType_groups_witness :
    (∀ g : Groups, (List.reverse g).Perm g) ∧
    groupByNameAndType List.reverse
        [exampleRecord (str "a.example.com") (str "A") (str "10.0.0.1"),
          exampleRecord (str "a.example.com") (str "TXT") (str "heritage"),
          exampleRecord (str "a.example.com") (str "MX") (str "mail.example.com"),
          exampleRecord (str "a.example.com") (str "A") (str "10.0.0.2")]
      = [(NewEndpointWithTTL (str "a.example.com") (str "TXT") 300
            [str "heritage"]).WithProviderSpecific CloudflareProxiedKey (str "false"),
          (NewEndpointWithTTL (str "a.example.com") (str "A") 300
            [str "10.0.0.1", str "10.0.0.2"]).WithProviderSpecific CloudflareProxiedKey
            (str "false")] ∧
    distinctPairs
        [exampleRecord (str "a.example.com") (str "A") (str "10.0.0.1"),
          exampleRecord (str "a.example.com") (str "TXT") (str "heritage"),
          exampleRecord (str "a.example.com") (str "MX") (str "mail.example.com"),
          exampleRecord (str "a.example.com") (str "A") (str "10.0.0.2")]
      = [(str "a.example.com", str "TXT"), (str "a.example.com", str "A")] ∧
    (groupByNameAndType List.reverse
        [exampleRecord (str "a.example.com") (str "A") (str "10.0.0.1"),
          exampleRecord (str "a.example.com") (str "TXT") (str "heritage"),
          exampleRecord (str "a.example.com") (str "MX") (str "mail.example.com"),
          exampleRecord (str "a.example.com") (str "A") (str "10.0.0.2")]).Perm
      ((distinctPairs
        [exampleRecord (str "a.example.com") (str "A") (str "10.0.0.1"),
          exampleRecord (str "a.example.com") (str "TXT") (str "heritage"),
          exampleRecord (str "a.example.com") (str "MX") (str "mail.example.com"),
          exampleRecord (str "a.example.com") (str "A") (str "10.0.0.2")]).map
        (fun p => groupByNameAndType.endpointOf (recordsOf
          [exampleRecord (str "a.example.com") (str "A") (str "10.0.0.1"),
            exampleRecord (str "a.example.com") (str "TXT") (str "heritage"),
            exampleRecord (str "a.example.com") (str "MX") (str "mail.example.com"),
            exampleRecord (str "a.example.com") (str "A") (str "10.0.0.2")] p))) :=
  ⟨fun g => List.reverse_perm g, by decide, by decide,
   (groupByNameAndType_groups List.reverse (fun g => List.reverse_perm g)
    [exampleRecord (str "a.example.com") (str "A") (str "10.0.0.1"),
      exampleRecord (str "a.example.com") (str "TXT") (str "heritage"),
      exampleRecord (str "a.example.com") (str "MX") (str "mail.example.com"),
      exampleRecord (str "a.example.com") (str "A") (str "10.0.0.2")]).2.2.1⟩

/-- C20: `SupportedRecordType(t)` is true iff `t` is one of `A`, `CNAME`, `SRV`, `TXT`,
`NS`; every endpoint `groupByNameAndType` returns has a supported record type, and the
records of unsupported type contribute nothing: without them the result is the same. -/
theorem supportedRecordType_filter (visit : Groups → Groups)
    (hv : ∀ g, (visit g).Perm g) (records : List DNSRecord) (t : Str) :
    (SupportedRecordType t = true ↔
      (t = str "A" ∨ t = str "CNAME" ∨ t = str "SRV" ∨ t = str "TXT" ∨ t = str "NS")) ∧
    (∀ e ∈ groupByNameAndType visit records, SupportedRecordType e.RecordType = true) ∧
    groupByNameAndType visit records =
      groupByNameAndType visit (records.filter (fun r => SupportedRecordType r.Type_)) ∧
    (∀ e ∈ groupByNameAndType visit records, ∀ target ∈ e.Targets,
      ∃ r ∈ records, SupportedRecordType r.Type_ = true ∧ r.Content = target) := by
  have hmem := mem_distinctPairs records
  have hperm := grouping_perm visit hv records
  have hfields := fun p hp => endpointOf_recordsOf records p hp
  have hof : ∀ e ∈ groupByNameAndType visit records,
      ∃ p ∈ distinctPairs records, e = groupByNameAndType.endpointOf (recordsOf records p) := by
    intro e he
    obtain ⟨p, hp, rfl⟩ := List.mem_map.mp (hperm.mem_iff.mp he)
    exact ⟨p, hp, rfl⟩
  refine ⟨supported_iff t, ?_, ?_, ?_⟩
  · intro e he
    obtain ⟨p, hp, rfl⟩ := hof e he
    rw [(hfields p hp).2.1]
    obtain ⟨r, _, hs, rfl⟩ := (hmem p).mp hp
    exact hs
  · unfold groupByNameAndType groupByNameAndType.groups
    rw [groups_filter records []]
  · intro e he target ht
    obtain ⟨p, hp, rfl⟩ := hof e he
    rw [(hfields p hp).1] at ht
    unfold recordsOf at ht
    obtain ⟨r, hr, rfl⟩ := List.mem_map.mp ht
    rw [List.mem_filter] at hr
    obtain ⟨r0, _, hs, hp0⟩ := (hmem p).mp hp
    have h2 : r.Type_ = p.2 := (of_decide_eq_true hr.2).2
    refine ⟨r, hr.1, ?_, rfl⟩
    rw [h2, ← hp0]
    exact hs

/-- A record of type `A` and a record of the unsupported type `MX`: one endpoint, of type
`A`, and the same result as for the record of type `A` alone. -/
theorem supportedRecordType_filter_witness :
    (∀ g : Groups, (id g).Perm g) ∧
    SupportedRecordType (str "MX") = false ∧
    SupportedRecordType (str "A") = true ∧
    groupByNameAndType id
        [exampleRecord (str "a.example.com") (str "MX") (str "mail.example.com"),
          exampleRecord (str "a.example.com") (str "A") (str "10.0.0.1")]
      = [(NewEndpointWithTTL (str "a.example.com") (str "A") 300
            [str "10.0.0.1"]).WithProviderSpecific CloudflareProxiedKey (str "false")] ∧
    (∀ e ∈ groupByNameAndType id
        [exampleRecord (str "a.example.com") (str "MX") (str "mail.example.com"),
          exampleRecord (str "a.example.com") (str "A") (str "10.0.0.1")],
      SupportedRecordType e.RecordType = true) :=
  ⟨fun g => List.Perm.refl g, by decide, by decide, by decide,
   (supportedRecordType_filter id (fun g => List.Perm.refl g)
    [exampleRecord (str "a.example.com") (str "MX") (str "mail.example.com"),
      exampleRecord (str "a.example.com") (str "A") (str "10.0.0.1")] (str "MX")).2.1⟩

/-! ## Ownership and configuration -/

/-- C21: `filterOwnedRecords` returns the endpoints whose Labels hold the key `owner` with
the value `ownerID`, in their order, and no others; an endpoint without the key `owner` is
never returned, also when `ownerID` is the empty string. -/
theorem filterOwnedRecords_owned (ownerID : Str) (eps : List Endpoint) :
    registry.filterOwnedRecords ownerID eps =
      eps.filter (fun ep => decide (ep.Labels.find? (str "owner") = some ownerID)) ∧
    (registry.filterOwnedRecords ownerID eps).Sublist eps ∧
    (∀ ep, ep ∈ registry.filterOwnedRecords ownerID eps ↔
      ep ∈ eps ∧ ep.Labels.find? (str "owner") = some ownerID) ∧
    (∀ ep, ep.Labels.find? (str "owner") = none →
      ep ∉ registry.filterOwnedRecords ownerID eps) ∧
    registry.filterOwnedRecords (str "")
      [{ exampleEndpoint (str "a.example.com") [str "10.0.0.1"] (str "r1") with
          Labels := [] }] = [] := by
  have h : registry.filterOwnedRecords ownerID eps =
      eps.filter (fun ep => decide (ep.Labels.find? (str "owner") = some ownerID)) := by
    unfold registry.filterOwnedRecords
    rw [filterOwned_loop]
    rfl
  refine ⟨h, ?_, ?_, ?_, by decide⟩
  · rw [h]; exact List.filter_sublist _
  · intro ep
    rw [h, List.mem_filter]
    simp
  · intro ep hnone hmem
    rw [h, List.mem_filter] at hmem
    simp [hnone] at hmem

/-- C22: `ValidateConfig` returns an error iff the log format is neither `text` nor `json`,
or there is no source, or the provider is empty, or `TXTPrefix` and `TXTSuffix` are both
non-empty; the error `txt-prefix and txt-suffix are mutually exclusive` is returned only
when both are non-empty. -/
theorem validateConfig_rejects (cfg : dops.Config) :
    ((∃ msg, dops.validation.ValidateConfig cfg = some msg) ↔
      ((cfg.LogFormat ≠ str "text" ∧ cfg.LogFormat ≠ str "json") ∨ cfg.Sources = [] ∨
        cfg.Provider = [] ∨ (cfg.TXTPrefix ≠ [] ∧ cfg.TXTSuffix ≠ []))) ∧
    (dops.validation.ValidateConfig cfg = none ↔
      ((cfg.LogFormat = str "text" ∨ cfg.LogFormat = str "json") ∧ cfg.Sources ≠ [] ∧
        cfg.Provider ≠ [] ∧ (cfg.TXTPrefix = [] ∨ cfg.TXTSuffix = []))) ∧
    (dops.validation.ValidateConfig cfg =
        some (str "txt-prefix and txt-suffix are mutually exclusive") →
      cfg.TXTPrefix ≠ [] ∧ cfg.TXTSuffix ≠ []) := by
  have hp : ∀ l : Str, l.length > 0 ↔ l ≠ [] := fun l => List.length_pos
  have hs : cfg.Sources.length = 0 ↔ cfg.Sources = [] := List.length_eq_zero
  have hstr : str "" = ([] : Str) := rfl
  unfold dops.validation.ValidateConfig
  by_cases h1 : cfg.LogFormat ≠ str "text" ∧ cfg.LogFormat ≠ str "json"
  · rw [if_pos h1]
    refine ⟨⟨fun _ => Or.inl h1, fun _ => ⟨_, rfl⟩⟩, ⟨fun h => by simp at h, ?_⟩, ?_⟩
    · rintro ⟨h, _⟩
      rcases h with h | h
      · exact absurd h h1.1
      · exact absurd h h1.2
    · intro h
      exfalso
      have h0 : (str "unsupported log format: " ++ cfg.LogFormat).head? = some 117 := rfl
      rw [Option.some.inj h] at h0
      revert h0
      decide
  · rw [if_neg h1]
    have h1' : cfg.LogFormat = str "text" ∨ cfg.LogFormat = str "json" := by
      by_contra hc
      rw [not_or] at hc
      exact h1 hc
    by_cases h2 : cfg.Sources.length = 0
    · rw [if_pos h2]
      refine ⟨⟨fun _ => Or.inr (Or.inl (hs.mp h2)), fun _ => ⟨_, rfl⟩⟩,
        ⟨fun h => by simp at h, fun h => absurd (hs.mp h2) h.2.1⟩, fun h => ?_⟩
      exfalso; revert h; decide
    · rw [if_neg h2]
      by_cases h3 : cfg.Provider = str ""
      · rw [if_pos h3]
        refine ⟨⟨fun _ => Or.inr (Or.inr (Or.inl h3)), fun _ => ⟨_, rfl⟩⟩,
          ⟨fun h => by simp at h, fun h => absurd h3 h.2.2.1⟩, fun h => ?_⟩
        exfalso; revert h; decide
      · rw [if_neg h3]
        by_cases h4 : cfg.TXTPrefix.length > 0 ∧ cfg.TXTSuffix.length > 0
        · rw [if_pos h4]
          have h4' : cfg.TXTPrefix ≠ [] ∧ cfg.TXTSuffix ≠ [] :=
            ⟨(hp _).mp h4.1, (hp _).mp h4.2⟩
          refine ⟨⟨fun _ => Or.inr (Or.inr (Or.inr h4')), fun _ => ⟨_, rfl⟩⟩,
            ⟨fun h => by simp at h, ?_⟩, fun _ => h4'⟩
          rintro ⟨_, _, _, h | h⟩
          · exact absurd h h4'.1
          · exact absurd h h4'.2
        · rw [if_neg h4]
          have h4' : cfg.TXTPrefix = [] ∨ cfg.TXTSuffix = [] := by
            by_contra hc
            rw [not_or] at hc
            exact h4 ⟨(hp _).mpr hc.1, (hp _).mpr hc.2⟩
          refine ⟨⟨fun h => by simp at h, ?_⟩,
            ⟨fun _ => ⟨h1', fun h => h2 (hs.mpr h), h3, h4'⟩, fun _ => rfl⟩,
            fun h => by simp at h⟩
          rintro (h | h | h | h)
          · exact absurd h h1
          · exact absurd (hs.mpr h) h2
          · exact absurd h h3
          · rcases h4' with h5 | h5
            · exact absurd h5 h.1
            · exact absurd h5 h.2

/-! ## Tokens of a label text -/

/-- C29: for a label text `t` without double quote and a token `s` without `,`, without
double quote and with a number of `=` other than one, `NewLabelsFromString(t + "," + s)`
returns what `NewLabelsFromString(t)` returns, labels or `ErrInvalidOrigin`. -/
theorem newLabels_skips_token (t s : Str) (ht : 34 ∉ t) (hcomma : 44 ∉ s) (hquote : 34 ∉ s)
    (heq : s.count 61 ≠ 1) :
    NewLabelsFromString (t ++ str "," ++ s) = NewLabelsFromString t := by
  have hts : (34 : Nat) ∉ t ++ str "," ++ s := by
    intro h
    rcases List.mem_append.mp h with h | h
    · rcases List.mem_append.mp h with h | h
      · exact ht h
      · revert h; decide
    · exact hquote h
  have hlen : (strings.Split s 61).length ≠ 2 := by
    rw [split_length]
    omega
  unfold NewLabelsFromString NewLabelsFromString.tokens
  rw [trim_of_not_mem _ 34 hts, trim_of_not_mem _ 34 ht]
  have e : str "," = [44] := by decide
  rw [e, split_append_last t s 44 hcomma]
  exact loop_skip_last _ s hlen [] false

/-- The tokens `a=b=c` (two `=`) and `junk` (none) after an owned label text. -/
theorem newLabels_skips_token_witness :
    (34 ∉ str "origin=dops,dops/owner=me" ∧ 44 ∉ str "a=b=c" ∧ 34 ∉ str "a=b=c" ∧
      (str "a=b=c").count 61 ≠ 1) ∧
    NewLabelsFromString (str "origin=dops,dops/owner=me") = .ok [(str "owner", str "me")] ∧
    NewLabelsFromString (str "origin=dops,dops/owner=me" ++ str "," ++ str "a=b=c")
      = NewLabelsFromString (str "origin=dops,dops/owner=me") ∧
    NewLabelsFromString (str "dops/owner=me" ++ str "," ++ str "junk")
      = NewLabelsFromString (str "dops/owner=me") :=
  ⟨by decide, by decide,
   newLabels_skips_token (str "origin=dops,dops/owner=me") (str "a=b=c")
    (by decide) (by decide) (by decide) (by decide),
   newLabels_skips_token (str "dops/owner=me") (str "junk")
    (by decide) (by decide) (by decide) (by decide)⟩

/-- C30, at the failing input: the text `origin=dops,dopsfoo=bar` is parsed successfully and
the returned map has the entry `dopsfoo ↦ bar`, though the text has no token
`dops/dopsfoo=bar` and the key `dopsfoo` of its token is not of the form `dops/<key>`:
the parser tests the prefix `dops` and strips the prefix `dops/`. -/
theorem newLabels_prefix_without_slash :
    NewLabelsFromString (str "origin=dops,dopsfoo=bar") = .ok [(str "dopsfoo", str "bar")] ∧
    NewLabelsFromString.tokens (str "origin=dops,dopsfoo=bar")
      = [str "origin=dops", str "dopsfoo=bar"] ∧
    str "dops/" ++ str "dopsfoo" ++ str "=" ++ str "bar" ∉
      NewLabelsFromString.tokens (str "origin=dops,dopsfoo=bar") ∧
    strings.HasPrefix (str "dopsfoo") (str "dops/") = false := by
  decide

/-! ## Endpoints and targets of the provider -/

/-- C25: `AdjustEndpoints` returns as many endpoints as it is given, in the same order;
the returned endpoint has `RecordTTL` 0 when `shouldBeProxied` holds for the given one and
its `RecordTTL` otherwise, and all its other fields are those of the given one. -/
theorem adjustEndpoints_frame (proxiedByDefault : Bool) (endpoints : List Endpoint) :
    (AdjustEndpoints proxiedByDefault endpoints).length = endpoints.length ∧
    List.Forall₂
      (fun r e =>
        r.DNSName = e.DNSName ∧ r.Targets = e.Targets ∧ r.RecordType = e.RecordType ∧
        r.Labels = e.Labels ∧ r.SetIdentifier = e.SetIdentifier ∧
        r.ProviderSpecific = e.ProviderSpecific ∧
        r.RecordTTL = (if shouldBeProxied e proxiedByDefault then 0 else e.RecordTTL))
      (AdjustEndpoints proxiedByDefault endpoints) endpoints := by
  have h : AdjustEndpoints proxiedByDefault endpoints = endpoints.map
      (fun e => if shouldBeProxied e proxiedByDefault then { e with RecordTTL := 0 } else e) := by
    unfold AdjustEndpoints
    rw [adjustEndpoints_loop]
    rfl
  rw [h]
  refine ⟨List.length_map _ _, ?_⟩
  rw [List.forall₂_map_left_iff]
  apply List.forall₂_same.mpr
  intro e _
  by_cases hp : shouldBeProxied e proxiedByDefault = true
  · simp [hp]
  · simp [hp]

/-- C26, as amended: for `desired` without repeated entries, `Difference(current, desired)`
returns `add`, the entries of `desired` that do not occur in `current`, and `leave`, the
entries of `desired` that occur in `current`, both in the order of `desired`, and `remove`,
a list without repetition of exactly the entries of `current` that do not occur in
`desired`, whatever the order in which the map `index` is visited. -/
theorem difference_of_nodup (visit : List Str → List Str) (hv : ∀ l, (visit l).Perm l)
    (current desired : List Str) (hd : desired.Nodup) :
    (Difference visit current desired).1 = desired.filter (fun x => decide (x ∉ current)) ∧
    (Difference visit current desired).2.2 = desired.filter (fun x => decide (x ∈ current)) ∧
    (Difference visit current desired).2.1.Nodup ∧
    (∀ x, x ∈ (Difference visit current desired).2.1 ↔ x ∈ current ∧ x ∉ desired) := by
  have hmem : ∀ x, x ∈ current.foldl Difference.insert [] ↔ x ∈ current := by
    intro x
    rw [difference_index_mem]
    simp
  have hnd := difference_index_nodup current [] List.nodup_nil
  obtain ⟨h1, h2⟩ := difference_loop_nodup desired [] [] (current.foldl Difference.insert []) hd
  have h3 := difference_loop_index desired [] [] (current.foldl Difference.insert [])
  have e1 : (Difference visit current desired).1 =
      (Difference.loop desired [] [] (current.foldl Difference.insert [])).1 := rfl
  have e2 : (Difference visit current desired).2.2 =
      (Difference.loop desired [] [] (current.foldl Difference.insert [])).2.1 := rfl
  have e3 : (Difference visit current desired).2.1 =
      visit (Difference.loop desired [] [] (current.foldl Difference.insert [])).2.2 := rfl
  refine ⟨?_, ?_, ?_, ?_⟩
  · rw [e1, h1, List.nil_append]
    apply List.filter_congr
    intro x _
    simp [hmem]
  · rw [e2, h2, List.nil_append]
    apply List.filter_congr
    intro x _
    simp [hmem]
  · rw [e3, (hv _).nodup_iff, h3]
    exact hnd.filter _
  · intro x
    rw [e3, (hv _).mem_iff, h3, List.mem_filter, hmem]
    simp

/-- The example of two targets against two targets, one of them shared. -/
theorem difference_of_nodup_witness :
    (∀ l : List Str, (id l).Perm l) ∧ [str "bar", str "baz"].Nodup ∧
    Difference id [str "foo", str "bar"] [str "bar", str "baz"]
      = ([str "baz"], [str "foo"], [str "bar"]) ∧
    ((Difference id [str "foo", str "bar"] [str "bar", str "baz"]).1 =
        [str "bar", str "baz"].filter (fun x => decide (x ∉ [str "foo", str "bar"])) ∧
      (Difference id [str "foo", str "bar"] [str "bar", str "baz"]).2.2 =
        [str "bar", str "baz"].filter (fun x => decide (x ∈ [str "foo", str "bar"])) ∧
      (Difference id [str "foo", str "bar"] [str "bar", str "baz"]).2.1.Nodup ∧
      (∀ x, x ∈ (Difference id [str "foo", str "bar"] [str "bar", str "baz"]).2.1 ↔
        x ∈ [str "foo", str "bar"] ∧ x ∉ [str "bar", str "baz"])) :=
  ⟨fun l => List.Perm.refl l, by decide, by decide,
   difference_of_nodup id (fun l => List.Perm.refl l) [str "foo", str "bar"]
    [str "bar", str "baz"] (by decide)⟩

/-- C26, as stated, fails: with `current = [a]` and `desired = [a, a]` the first `a` goes to
`leave` and is deleted from the index, so the second `a` goes to `add`, though it occurs in
`current`. -/
theorem difference_of_nodup_counterexample :
    Difference id [str "a"] [str "a", str "a"] = ([str "a"], [], [str "a"]) ∧
    str "a" ∈ (Difference id [str "a"] [str "a", str "a"]).1 ∧
    str "a" ∈ [str "a", str "a"] ∧ str "a" ∈ [str "a"] := by
  decide

/-! ## Changes submitted to Cloudflare -/

/-- C23: the Cloudflare client is an API of which every call may fail.  (1) With the empty
change list `submitChanges` returns nil and leaves the state as it is: no call.  (2) When it
returns an error, the last call issued is a `ListZonesContext` call that failed with this
error, or a `DNSRecords` call that failed, with its error after the text
`could not fetch records from zone, `.  (3) The errors that `CreateDNSRecord`,
`DeleteDNSRecord` and `UpdateDNSRecord` return are not read: with any other errors, or none,
returned by them, the result and the calls issued are the same.  (4) In a zone, the calls
after `DNSRecords` are one per change, in the order of the changes: none for an update or
deletion whose record ID is not found (and none at all with `DryRun`), whatever the calls
before returned. -/
theorem submitChanges_errors {World : Type} (p : CloudFlareProvider World)
    (visit : MapOf (List cloudFlareChange) → MapOf (List cloudFlareChange))
    (visitZones : Nat → ZoneIDName → ZoneIDName) (fuel : Nat)
    (changes : List cloudFlareChange) (st : ProviderState World) :
    submitChanges p visit visitZones fuel [] st = (some none, st) ∧
    (∀ err, (submitChanges p visit visitZones fuel changes st).1 = some (some err) →
      (∃ opts w, p.Client.ListZonesContext opts w
          = (.error err, (submitChanges p visit visitZones fuel changes st).2.world) ∧
        (submitChanges p visit visitZones fuel changes st).2.calls.getLast?
          = some (Call.ListZonesContext opts)) ∨
      (∃ zoneID w e, p.Client.DNSRecords zoneID w
          = (.error e, (submitChanges p visit visitZones fuel changes st).2.world) ∧
        (submitChanges p visit visitZones fuel changes st).2.calls.getLast?
          = some (Call.DNSRecords zoneID) ∧
        err = str "could not fetch records from zone, " ++ e)) ∧
    (∀ (create : Str → DNSRecord → World → Option GoError)
        (delete : Str → Str → World → Option GoError)
        (update : Str → Str → DNSRecord → World → Option GoError),
      submitChanges
          { p with Client := { p.Client with
              CreateDNSRecord := fun z rr w => (create z rr w, (p.Client.CreateDNSRecord z rr w).2)
              DeleteDNSRecord := fun z r w => (delete z r w, (p.Client.DeleteDNSRecord z r w).2)
              UpdateDNSRecord := fun z r rr w =>
                (update z r rr w, (p.Client.UpdateDNSRecord z r rr w).2) } }
          visit visitZones fuel changes st
        = submitChanges p visit visitZones fuel changes st) ∧
    (∀ zoneID records,
      (submitChanges.changes p zoneID records changes st).calls
        = st.calls ++
          if p.DryRun then []
          else changes.filterMap (fun change =>
            if change.Action = cloudFlareUpdate then
              if getRecordID records change.ResourceRecord = str "" then none
              else some (Call.UpdateDNSRecord zoneID
                (getRecordID records change.ResourceRecord) change.ResourceRecord)
            else if change.Action = cloudFlareDelete then
              if getRecordID records change.ResourceRecord = str "" then none
              else some (Call.DeleteDNSRecord zoneID
                (getRecordID records change.ResourceRecord))
            else if change.Action = cloudFlareCreate then
              some (Call.CreateDNSRecord zoneID change.ResourceRecord)
            else none)) := by
  refine ⟨rfl, ?_, ?_, ?_⟩
  · intro err h
    unfold submitChanges at h ⊢
    split at h
    · simp at h
    · next hlen =>
      rw [if_neg hlen]
      split at h
      · simp at h
      · next e st1 hz =>
        simp only [Option.some.injEq] at h
        subst h
        have hz1 : (Zones p fuel st).1 = some (.error e) := by rw [hz]
        obtain ⟨opts, w, h1, h2⟩ := zones_error p e fuel st hz1
        rw [hz] at h1 h2
        exact Or.inl ⟨opts, w, h1, h2⟩
      · next zones st1 hz =>
        simp only [Option.some.injEq] at h
        obtain ⟨zoneID, w, e, h1, h2, _, h4⟩ := submit_zones_error p err _ _ h
        exact Or.inr ⟨zoneID, w, e, h1, h2, h4⟩
  · intro create delete update
    apply submitChanges_congr
    all_goals first | rfl | exact Or.inr ⟨fun _ _ _ => rfl, fun _ _ _ => rfl, fun _ _ _ _ => rfl⟩
  · intro zoneID records
    by_cases hdry : p.DryRun = true
    · rw [submit_changes_dry p hdry, if_pos hdry]; simp
    · rw [submit_changes_calls p (by simpa using hdry), if_neg hdry]

/-- C23, an example: the three changes of `exampleChanges` with a client of which every
call that changes records fails.  The result is nil; the update without record ID issues no
call, and the creation and the deletion after it are both attempted. -/
theorem submitChanges_errors_witness :
    submitChanges (exampleProvider false (some (str "api error"))) id (fun _ => id) 1
        exampleChanges { world := exampleRecords, Page := 1, calls := [] }
      = (some none,
          { world := exampleRecords, Page := 1,
            calls := [Call.ListZonesContext { Page := 1, PerPage := 50 },
                      Call.DNSRecords (str "z1"),
                      Call.CreateDNSRecord (str "z1")
                        (exampleRecord (str "b.example.com") (str "A") (str "10.0.0.2")),
                      Call.DeleteDNSRecord (str "z1") (str "r1")] }) ∧
    submitChanges (exampleProvider false (some (str "api error"))) id (fun _ => id) 1 []
        { world := exampleRecords, Page := 1, calls := [] }
      = (some none, { world := exampleRecords, Page := 1, calls := [] }) :=
  ⟨by rfl,
   (submitChanges_errors (exampleProvider false (some (str "api error"))) id (fun _ => id) 1
      exampleChanges { world := exampleRecords, Page := 1, calls := [] }).1⟩

/-- C24: with `DryRun`, `submitChanges` and `ApplyChanges` issue no `CreateDNSRecord`,
`UpdateDNSRecord` or `DeleteDNSRecord` call, for every list of changes and every state of
Cloudflare: the calls of these three kinds in the trace are those issued before, and the
result and the state left are the same with any other three methods in their place. -/
theorem applyChanges_dryRun {World : Type} (p : CloudFlareProvider World)
    (hdry : p.DryRun = true)
    (visit : MapOf (List cloudFlareChange) → MapOf (List cloudFlareChange))
    (visitZones : Nat → ZoneIDName → ZoneIDName) (visitIndex : List Str → List Str)
    (fuel : Nat) (cloudflareChanges : List cloudFlareChange) (changes : plan.Changes Endpoint)
    (st : ProviderState World) :
    (submitChanges p visit visitZones fuel cloudflareChanges st).2.calls.filter Call.isMutator
      = st.calls.filter Call.isMutator ∧
    (ApplyChanges p visit visitZones visitIndex fuel changes st).2.calls.filter Call.isMutator
      = st.calls.filter Call.isMutator ∧
    (∀ (create : Str → DNSRecord → World → Option GoError × World)
        (delete : Str → Str → World → Option GoError × World)
        (update : Str → Str → DNSRecord → World → Option GoError × World),
      submitChanges
          { p with Client := { p.Client with
              CreateDNSRecord := create, DeleteDNSRecord := delete, UpdateDNSRecord := update } }
          visit visitZones fuel cloudflareChanges st
        = submitChanges p visit visitZones fuel cloudflareChanges st ∧
      ApplyChanges
          { p with Client := { p.Client with
              CreateDNSRecord := create, DeleteDNSRecord := delete, UpdateDNSRecord := update } }
          visit visitZones visitIndex fuel changes st
        = ApplyChanges p visit visitZones visitIndex fuel changes st) := by
  refine ⟨submitChanges_dry p hdry visit visitZones fuel cloudflareChanges st, ?_, ?_⟩
  · unfold ApplyChanges
    split
    · rfl
    · exact submitChanges_dry p hdry visit visitZones fuel _ st
  · intro create delete update
    have hs : ∀ cs, submitChanges
          { p with Client := { p.Client with
              CreateDNSRecord := create, DeleteDNSRecord := delete, UpdateDNSRecord := update } }
          visit visitZones fuel cs st = submitChanges p visit visitZones fuel cs st := by
      intro cs
      apply submitChanges_congr
      all_goals first | rfl | exact Or.inl hdry
    refine ⟨hs _, ?_⟩
    simp only [ApplyChanges]
    cases ApplyChanges.cloudflareChanges p.proxiedByDefault visitIndex changes with
    | none => rfl
    | some cs => exact hs cs

/-- C24, an example: the three changes of `exampleChanges` with `DryRun`; the calls are one
`ListZonesContext` and one `DNSRecords`. -/
theorem applyChanges_dryRun_witness :
    (exampleProvider true none).DryRun = true ∧
    (submitChanges (exampleProvider true none) id (fun _ => id) 1 exampleChanges
        { world := exampleRecords, Page := 1, calls := [] }).2.calls
      = [Call.ListZonesContext { Page := 1, PerPage := 50 }, Call.DNSRecords (str "z1")] ∧
    (submitChanges (exampleProvider true none) id (fun _ => id) 1 exampleChanges
        { world := exampleRecords, Page := 1, calls := [] }).2.calls.filter Call.isMutator
      = [] :=
  ⟨rfl, by rfl,
   (applyChanges_dryRun (exampleProvider true none) rfl id (fun _ => id) id 1 exampleChanges
      {} { world := exampleRecords, Page := 1, calls := [] }).1⟩

/-! ## The change set of the plan -/

/-- C27: in the change set that `Plan.Calculate` returns, under each of the three policies,
no endpoint of `Create` has the record key (lowercase DNSName, RecordType, SetIdentifier) of
an endpoint of `Delete`, nor the same triple (DNSName, RecordType, SetIdentifier);
`UpdateOld` and `UpdateNew` have the same length, and `UpdateOld[i]` and `UpdateNew[i]` have
the same record key for every `i`. -/
theorem calculate_invariants (p : Plan) :
    (∀ c ∈ p.Calculate.Create, ∀ d ∈ p.Calculate.Delete, Plan.key c ≠ Plan.key d) ∧
    (∀ c ∈ p.Calculate.Create, ∀ d ∈ p.Calculate.Delete,
      (c.DNSName, c.RecordType, c.SetIdentifier)
        ≠ (d.DNSName, d.RecordType, d.SetIdentifier)) ∧
    p.Calculate.UpdateOld.length = p.Calculate.UpdateNew.length ∧
    List.Forall₂ (fun o n => Plan.key o = Plan.key n) p.Calculate.UpdateOld
      p.Calculate.UpdateNew := by
  have key : (∀ c ∈ p.Calculate.Create, ∀ d ∈ p.Calculate.Delete, Plan.key c ≠ Plan.key d) ∧
      List.Forall₂ (fun o n => Plan.key o = Plan.key n) p.Calculate.UpdateOld
        p.Calculate.UpdateNew := by
    obtain ⟨h1, h2⟩ := plan_raw_inv p
    unfold Plan.Calculate
    cases p.Policy with
    | SyncPolicy => exact ⟨h1, h2⟩
    | UpsertOnlyPolicy =>
      exact And.intro (by intro c _ d hd; cases hd) h2
    | CreateOnlyPolicy =>
      exact And.intro (by intro c _ d hd; cases hd) List.Forall₂.nil
  refine ⟨key.1, ?_, key.2.length_eq, key.2⟩
  intro c hc d hd h
  apply key.1 c hc d hd
  simp only [Prod.mk.injEq] at h
  simp only [Plan.key, h.1, h.2.1, h.2.2]

/-- C27, an example: the current records `Upd.example.com`, `del.example.com` (both owned)
and `foreign.example.com` (owned by another), the desired records `upd.example.com` with a
new target and `new.example.com`.  The plan creates `new.example.com`, deletes
`del.example.com` and pairs `Upd.example.com` with `upd.example.com`. -/
theorem calculate_invariants_witness :
    (examplePlan exampleCurrent exampleDesired).Calculate.Create.map (fun e => e.DNSName)
      = [str "new.example.com"] ∧
    (examplePlan exampleCurrent exampleDesired).Calculate.Delete.map (fun e => e.DNSName)
      = [str "del.example.com"] ∧
    (examplePlan exampleCurrent exampleDesired).Calculate.UpdateOld.map (fun e => e.DNSName)
      = [str "Upd.example.com"] ∧
    (examplePlan exampleCurrent exampleDesired).Calculate.UpdateNew.map (fun e => e.DNSName)
      = [str "upd.example.com"] ∧
    (examplePlan exampleCurrent exampleDesired).Calculate.UpdateOld.length
      = (examplePlan exampleCurrent exampleDesired).Calculate.UpdateNew.length :=
  ⟨by decide, by decide, by decide, by decide,
   (calculate_invariants (examplePlan exampleCurrent exampleDesired)).2.2.1⟩

/-! ## The control loop -/

open controller

/-- C28: `ScheduleRunOnce` sets `nextRunAt` to `max(nextRunAt, lastRunAt +
MinEventSyncInterval)`.  After one call, further calls, however many and at whatever
instants, leave the controller as it is; so does every sequence of calls and wakes of the
loop at instants before `lastRunAt + MinEventSyncInterval`: no `RunOnce` is invoked there,
and with one more wake, at any instant, at most one `RunOnce` has been invoked in all. -/
theorem scheduleRunOnce_coalesces (c : Controller) (now : Int) (nows : List Int)
    (events : List Event)
    (hwin : ∀ e ∈ events, e.now < c.lastRunAt + c.MinEventSyncInterval) :
    (c.ScheduleRunOnce now).nextRunAt
      = max c.nextRunAt (c.lastRunAt + c.MinEventSyncInterval) ∧
    nows.foldl Controller.ScheduleRunOnce (c.ScheduleRunOnce now) = c.ScheduleRunOnce now ∧
    (c.ScheduleRunOnce now).steps events = c.ScheduleRunOnce now ∧
    (∀ t, ((c.ScheduleRunOnce now).steps (events ++ [Event.wake t])).ran.length
      ≤ c.ran.length + 1) := by
  have hidem : ∀ t, (c.ScheduleRunOnce now).ScheduleRunOnce t = c.ScheduleRunOnce now := by
    intro t
    simp [Controller.ScheduleRunOnce]
  have hsteps : ∀ evs : List Event,
      (∀ e ∈ evs, e.now < c.lastRunAt + c.MinEventSyncInterval) →
      (c.ScheduleRunOnce now).steps evs = c.ScheduleRunOnce now := by
    intro evs
    induction evs with
    | nil => intro _; rfl
    | cons e evs ih =>
      intro h
      have he := h e (List.mem_cons_self _ _)
      have hstep : (c.ScheduleRunOnce now).step e = c.ScheduleRunOnce now := by
        cases e with
        | schedule t => exact hidem t
        | wake t =>
          have hlt : ¬ t ≥ (c.ScheduleRunOnce now).nextRunAt := by
            simp only [Controller.ScheduleRunOnce, Event.now] at he ⊢
            have := le_max_right c.nextRunAt (c.lastRunAt + c.MinEventSyncInterval)
            omega
          simp only [Controller.step, Controller.wake, if_neg hlt]
      simp only [Controller.steps, List.foldl_cons, hstep]
      exact ih (fun e1 h1 => h e1 (List.mem_cons_of_mem _ h1))
  refine ⟨rfl, ?_, hsteps events hwin, ?_⟩
  · induction nows with
    | nil => rfl
    | cons t nows ih => rw [List.foldl_cons, hidem t]; exact ih
  · intro t
    have h1 : (c.ScheduleRunOnce now).steps (events ++ [Event.wake t])
        = (c.ScheduleRunOnce now).wake t := by
      have h2 := hsteps events hwin
      simp only [Controller.steps] at h2
      simp only [Controller.steps, List.foldl_append, h2, List.foldl_cons, List.foldl_nil,
        Controller.step]
    rw [h1]
    unfold Controller.wake
    split
    · simp [Controller.ScheduleRunOnce]
    · simp [Controller.ScheduleRunOnce]

set_option maxRecDepth 100000 in
/-- C28, an example in milliseconds: 100 notifications within 1 s after the run at 0, with
a minimum interval of 5 s, a wake of the loop after each.  No `RunOnce` is invoked before
5 s, and one at the wake at 5 s. -/
theorem scheduleRunOnce_coalesces_witness :
    (∀ e ∈ exampleEvents,
      e.now < exampleController.lastRunAt + exampleController.MinEventSyncInterval) ∧
    (exampleController.ScheduleRunOnce 5).steps exampleEvents
      = { exampleController with nextRunAt := 5000 } ∧
    ((exampleController.ScheduleRunOnce 5).steps (exampleEvents ++ [Event.wake 5000])).ran
      = [0, 5000] :=
  ⟨by decide,
   (scheduleRunOnce_coalesces exampleController 5 [] exampleEvents (by decide)).2.2.1,
   by decide⟩

/-! ## Proxying, changes, filters and endpoints of a hostname -/

/-- C32: `shouldBeProxied` is false when the record type is one of `LOC`, `MX`, `NS`, `SPF`,
`TXT`, `SRV` or the DNSName contains `*`, whatever the default and the properties.
Otherwise it is the boolean parsed from the value of the first property named
`dops/cloudflare-proxied` when there is such a property and its value parses, and
`proxiedByDefault` when there is none or its value does not parse. -/
theorem shouldBeProxied_cases (e : Endpoint) (proxiedByDefault : Bool) :
    shouldBeProxied e proxiedByDefault =
      if e.RecordType ∈ [str "LOC", str "MX", str "NS", str "SPF", str "TXT", str "SRV"] ∨
          strings.Contains e.DNSName (str "*") = true then false
      else
        match e.ProviderSpecific.find? (fun v => decide (v.1 = str "dops/cloudflare-proxied")) with
        | none => proxiedByDefault
        | some v =>
          match strconv.ParseBool v.2 with
          | none => proxiedByDefault
          | some b => b := by
  have hloop : ∀ (ps : List (Str × Str)),
      shouldBeProxied.loop ps proxiedByDefault =
        match ps.find? (fun v => decide (v.1 = str "dops/cloudflare-proxied")) with
        | none => proxiedByDefault
        | some v =>
          match strconv.ParseBool v.2 with
          | none => proxiedByDefault
          | some b => b := by
    intro ps
    induction ps with
    | nil => rfl
    | cons v rest ih =>
      rw [shouldBeProxied.loop]
      by_cases hv : v.1 = CloudflareProxiedKey
      · have hv1 : v.1 = str "dops/cloudflare-proxied" := hv
        rw [if_pos hv]
        simp only [List.find?_cons, hv1, decide_True]
      · have hv1 : ¬ v.1 = str "dops/cloudflare-proxied" := hv
        rw [if_neg hv, ih]
        simp only [List.find?_cons, hv1, decide_False]
  unfold shouldBeProxied
  simp only [hloop]
  rfl

/-- C33: the record of `newCloudFlareChange` has the DNSName and RecordType of the endpoint
as `Name` and `Type`, the target as `Content`, `shouldBeProxied` of the endpoint as
`Proxied`, and as `TTL` the RecordTTL of the endpoint when it is configured and 1
otherwise: 1 for the RecordTTL 0, the RecordTTL itself when it is positive. -/
theorem newCloudFlareChange_fields (proxiedByDefault : Bool) (action : Str) (e : Endpoint)
    (target : Str) :
    (newCloudFlareChange proxiedByDefault action e target).Action = action ∧
    (newCloudFlareChange proxiedByDefault action e target).ResourceRecord.Name = e.DNSName ∧
    (newCloudFlareChange proxiedByDefault action e target).ResourceRecord.Type_
      = e.RecordType ∧
    (newCloudFlareChange proxiedByDefault action e target).ResourceRecord.Content = target ∧
    (newCloudFlareChange proxiedByDefault action e target).ResourceRecord.Proxied
      = shouldBeProxied e proxiedByDefault ∧
    (newCloudFlareChange proxiedByDefault action e target).ResourceRecord.TTL
      = (if TTL.IsConfigured e.RecordTTL then e.RecordTTL else 1) ∧
    (e.RecordTTL = 0 →
      (newCloudFlareChange proxiedByDefault action e target).ResourceRecord.TTL = 1) ∧
    (e.RecordTTL > 0 →
      (newCloudFlareChange proxiedByDefault action e target).ResourceRecord.TTL
        = e.RecordTTL) ∧
    (0 ≤ e.RecordTTL →
      (newCloudFlareChange proxiedByDefault action e target).ResourceRecord.TTL
        = if e.RecordTTL = 0 then 1 else e.RecordTTL) := by
  refine ⟨rfl, rfl, rfl, rfl, rfl, rfl, ?_, ?_, ?_⟩
  · intro h
    simp [newCloudFlareChange, TTL.IsConfigured, h, defaultCloudFlareRecordTTL]
  · intro h
    simp [newCloudFlareChange, TTL.IsConfigured, h]
  · intro h
    by_cases h0 : e.RecordTTL = 0
    · simp [newCloudFlareChange, TTL.IsConfigured, h0, defaultCloudFlareRecordTTL]
    · have hpos : e.RecordTTL > 0 := by omega
      simp [newCloudFlareChange, TTL.IsConfigured, h0, hpos]

/-- C33, examples: the TTL 0 gives 1, the TTL 300 is kept. -/
theorem newCloudFlareChange_fields_witness :
    (newCloudFlareChange false cloudFlareCreate
      (exampleOwned (str "a.example.com") (str "10.0.0.1") (str "default"))
      (str "10.0.0.1")).ResourceRecord.TTL = 1 ∧
    (newCloudFlareChange false cloudFlareCreate
      { exampleOwned (str "a.example.com") (str "10.0.0.1") (str "default") with
        RecordTTL := 300 }
      (str "10.0.0.1")).ResourceRecord.TTL = 300 :=
  ⟨(newCloudFlareChange_fields false cloudFlareCreate
      (exampleOwned (str "a.example.com") (str "10.0.0.1") (str "default"))
      (str "10.0.0.1")).2.2.2.2.2.2.1 rfl,
   by decide⟩

/-- C34: `Match` is true iff the ID list of the filter is empty or `zoneID` ends with one of
the listed IDs, as it does when it equals one; the empty filter matches every zone ID, and
so does the filter with the empty string as only ID. -/
theorem zoneIDFilter_match (f : ZoneIDFilter) (zoneID : Str) :
    (f.Match zoneID = true ↔
      f.ZoneIDs = [] ∨ ∃ id ∈ f.ZoneIDs, ∃ p : Str, zoneID = p ++ id) ∧
    (zoneID ∈ f.ZoneIDs → f.Match zoneID = true) ∧
    ZoneIDFilter.Match { ZoneIDs := [] } zoneID = true ∧
    ZoneIDFilter.Match { ZoneIDs := [str ""] } zoneID = true := by
  have h : f.Match zoneID = true ↔
      f.ZoneIDs = [] ∨ ∃ id ∈ f.ZoneIDs, ∃ p : Str, zoneID = p ++ id := by
    unfold ZoneIDFilter.Match
    by_cases h0 : f.ZoneIDs.length = 0
    · rw [if_pos h0]
      simp [List.length_eq_zero.mp h0]
    · rw [if_neg h0, match_loop_iff]
      have h1 : f.ZoneIDs ≠ [] := fun hn => h0 (by rw [hn]; rfl)
      constructor
      · rintro ⟨id, hid, p, hp⟩
        exact Or.inr ⟨id, hid, p, hp.symm⟩
      · rintro (hn | ⟨id, hid, p, hp⟩)
        · exact absurd hn h1
        · exact ⟨id, hid, p, hp.symm⟩
  refine ⟨h, ?_, rfl, ?_⟩
  · intro hm
    exact h.mpr (Or.inr ⟨zoneID, hm, [], rfl⟩)
  · simp only [ZoneIDFilter.Match]
    rw [if_neg (by decide)]
    exact (match_loop_iff zoneID [str ""]).mpr ⟨str "", by simp, zoneID, by simp [str]⟩

/-- C35: `endpointsForHostname` returns the endpoint of type `A` with the targets that are
IP addresses, in their order, when there are any, and after it the endpoint of type `CNAME`
with the other targets, in their order, when there are any: at most two endpoints, none
without targets and none for the empty target list.  The DNSName of each is `hostname`
without one trailing dot. -/
theorem endpointsForHostname_split (isIP : Str → Bool) (hostname : Str) (targets : Targets)
    (ttl : Int) (providerSpecific : List (Str × Str)) (setIdentifier : Str) :
    endpointsForHostname isIP hostname targets ttl providerSpecific setIdentifier =
      (if targets.filter isIP = [] then []
        else [{ DNSName := strings.TrimSuffix hostname (str ".")
                Targets := targets.filter isIP
                RecordTTL := ttl
                RecordType := str "A"
                Labels := []
                ProviderSpecific := providerSpecific
                SetIdentifier := setIdentifier }]) ++
      (if targets.filter (fun t => !isIP t) = [] then []
        else [{ DNSName := strings.TrimSuffix hostname (str ".")
                Targets := targets.filter (fun t => !isIP t)
                RecordTTL := ttl
                RecordType := str "CNAME"
                Labels := []
                ProviderSpecific := providerSpecific
                SetIdentifier := setIdentifier }]) ∧
    (endpointsForHostname isIP hostname targets ttl providerSpecific setIdentifier).length
      ≤ 2 ∧
    (∀ e ∈ endpointsForHostname isIP hostname targets ttl providerSpecific setIdentifier,
      e.Targets ≠ [] ∧ e.DNSName = strings.TrimSuffix hostname (str ".")) ∧
    endpointsForHostname isIP hostname [] ttl providerSpecific setIdentifier = [] ∧
    strings.TrimSuffix (hostname ++ str ".") (str ".") = hostname ∧
    (hostname.getLast? ≠ some 46 → strings.TrimSuffix hostname (str ".") = hostname) := by
  have h : endpointsForHostname isIP hostname targets ttl providerSpecific setIdentifier =
      (if targets.filter isIP = [] then []
        else [{ DNSName := strings.TrimSuffix hostname (str ".")
                Targets := targets.filter isIP
                RecordTTL := ttl
                RecordType := str "A"
                Labels := []
                ProviderSpecific := providerSpecific
                SetIdentifier := setIdentifier }]) ++
      (if targets.filter (fun t => !isIP t) = [] then []
        else [{ DNSName := strings.TrimSuffix hostname (str ".")
                Targets := targets.filter (fun t => !isIP t)
                RecordTTL := ttl
                RecordType := str "CNAME"
                Labels := []
                ProviderSpecific := providerSpecific
                SetIdentifier := setIdentifier }]) := by
    unfold endpointsForHostname
    rw [endpointsForHostname_loop]
    simp only [List.nil_append, List.length_pos]
    by_cases ha : targets.filter isIP = []
    · by_cases hc : targets.filter (fun t => !isIP t) = []
      · simp [ha, hc]
      · simp [ha, hc, RecordTypeCNAME, NewLabels]
    · by_cases hc : targets.filter (fun t => !isIP t) = []
      · simp [ha, hc, RecordTypeA, NewLabels]
      · simp [ha, hc, RecordTypeA, RecordTypeCNAME, NewLabels]
  refine ⟨h, ?_, ?_, rfl, trimSuffix_dot hostname, trimSuffix_no_dot hostname⟩
  · rw [h]
    by_cases ha : targets.filter isIP = [] <;>
      by_cases hc : targets.filter (fun t => !isIP t) = [] <;> simp [ha, hc]
  · intro e he
    rw [h] at he
    by_cases ha : targets.filter isIP = [] <;>
      by_cases hc : targets.filter (fun t => !isIP t) = [] <;>
      simp only [ha, hc, if_true, if_false, List.nil_append, List.append_nil,
        List.not_mem_nil, List.mem_singleton, List.mem_cons, List.singleton_append,
        or_false] at he
    · rw [he]; exact ⟨hc, rfl⟩
    · rw [he]; exact ⟨ha, rfl⟩
    · rcases he with he | he
      · rw [he]; exact ⟨ha, rfl⟩
      · rw [he]; exact ⟨hc, rfl⟩

/-- C35, an example with a trailing dot: the two IP addresses go to the endpoint of type
`A`, the name between them to the endpoint of type `CNAME`. -/
theorem endpointsForHostname_split_witness :
    (endpointsForHostname exampleIsIP (str "a.example.com.")
        [str "10.0.0.1", str "b.example.org", str "10.0.0.2"] 300 [] []).map
        (fun e => (e.DNSName, e.RecordType, e.Targets))
      = [(str "a.example.com", str "A", [str "10.0.0.1", str "10.0.0.2"]),
         (str "a.example.com", str "CNAME", [str "b.example.org"])] ∧
    (endpointsForHostname exampleIsIP (str "a.example.com.")
        [str "10.0.0.1", str "b.example.org", str "10.0.0.2"] 300 [] []).length ≤ 2 :=
  ⟨by decide,
   (endpointsForHostname_split exampleIsIP (str "a.example.com.")
      [str "10.0.0.1", str "b.example.org", str "10.0.0.2"] 300 [] []).2.1⟩

/-! ## Quotes, policies and differences -/

/-- C37: for every label map, the parser returns for the text serialized with quotes what
it returns for the text serialized without: the enclosing quotes are trimmed. -/
theorem newLabels_quotes (l : Labels) :
    NewLabelsFromString (l.Serialize true) = NewLabelsFromString (l.Serialize false) ∧
    NewLabelsFromString.tokens (l.Serialize true)
      = NewLabelsFromString.tokens (l.Serialize false) := by
  have h : NewLabelsFromString.tokens (l.Serialize true)
      = NewLabelsFromString.tokens (l.Serialize false) := by
    unfold NewLabelsFromString.tokens Labels.Serialize
    simp only [if_true, Bool.false_eq_true, if_false]
    have e : str "\"" = [34] := by decide
    rw [e, trim_enclosed]
  exact ⟨by unfold NewLabelsFromString; rw [h], h⟩

/-- C38: for a change set with as many entries in `UpdateOld` as in `UpdateNew`, each of
the three policies returns a change set with as many entries in `UpdateOld` as in
`UpdateNew`: both sequences are those of the argument, or both are empty; an entry at the
index `i` of the result is the entry at the index `i` of the argument. -/
theorem policies_keep_pairs {Endpoint : Type} (p : Policy) (c : Changes Endpoint)
    (hlen : c.UpdateOld.length = c.UpdateNew.length) :
    (p.Apply c).UpdateOld.length = (p.Apply c).UpdateNew.length ∧
    (((p.Apply c).UpdateOld = c.UpdateOld ∧ (p.Apply c).UpdateNew = c.UpdateNew) ∨
      ((p.Apply c).UpdateOld = [] ∧ (p.Apply c).UpdateNew = [])) ∧
    (∀ i o n, (p.Apply c).UpdateOld.get? i = some o → (p.Apply c).UpdateNew.get? i = some n →
      c.UpdateOld.get? i = some o ∧ c.UpdateNew.get? i = some n) ∧
    (∀ name q, (name, q) ∈ Policies →
      (Policy.Apply q c).UpdateOld.length = (Policy.Apply q c).UpdateNew.length) := by
  have hall : ∀ q : Policy,
      ((q.Apply c).UpdateOld = c.UpdateOld ∧ (q.Apply c).UpdateNew = c.UpdateNew) ∨
      ((q.Apply c).UpdateOld = [] ∧ (q.Apply c).UpdateNew = []) := by
    intro q
    cases q with
    | SyncPolicy => exact Or.inl ⟨rfl, rfl⟩
    | UpsertOnlyPolicy => exact Or.inl ⟨rfl, rfl⟩
    | CreateOnlyPolicy => exact Or.inr ⟨rfl, rfl⟩
  have hl : ∀ q : Policy, (q.Apply c).UpdateOld.length = (q.Apply c).UpdateNew.length := by
    intro q
    rcases hall q with ⟨h1, h2⟩ | ⟨h1, h2⟩
    · rw [h1, h2]; exact hlen
    · rw [h1, h2]
  refine ⟨hl p, hall p, ?_, fun _ q _ => hl q⟩
  intro i o n ho hn
  rcases hall p with ⟨h1, h2⟩ | ⟨h1, h2⟩
  · rw [h1] at ho; rw [h2] at hn; exact ⟨ho, hn⟩
  · rw [h1] at ho; simp at ho

/-- C38, an example: a change set with one update and one deletion, under `upsert-only`
and under `create-only`. -/
theorem policies_keep_pairs_witness :
    (({ UpdateOld := [1], UpdateNew := [2], Delete := [3] } : Changes Nat).UpdateOld.length
      = ({ UpdateOld := [1], UpdateNew := [2], Delete := [3] } : Changes Nat).UpdateNew.length) ∧
    (Policy.Apply Policy.UpsertOnlyPolicy
        ({ UpdateOld := [1], UpdateNew := [2], Delete := [3] } : Changes Nat)).UpdateOld.length
      = (Policy.Apply Policy.UpsertOnlyPolicy
        ({ UpdateOld := [1], UpdateNew := [2], Delete := [3] } : Changes Nat)).UpdateNew.length ∧
    (Policy.Apply Policy.CreateOnlyPolicy
        ({ UpdateOld := [1], UpdateNew := [2], Delete := [3] } : Changes Nat)).UpdateOld = [] :=
  ⟨rfl,
   (policies_keep_pairs Policy.UpsertOnlyPolicy
      ({ UpdateOld := [1], UpdateNew := [2], Delete := [3] } : Changes Nat) rfl).1,
   rfl⟩

/-- C39: for every two lists, whatever the order in which the map `index` is visited, `add`
and `leave` partition `desired` in order: a mask over the positions of `desired` sends each
position to `leave` or to `add`, so the lengths of `add` and `leave` sum to the length of
`desired`; `remove` has no repeated entry, and its entries are exactly the entries of
`current` that do not occur in `desired`. -/
theorem difference_partition (visit : List Str → List Str) (hv : ∀ l, (visit l).Perm l)
    (current desired : List Str) :
    (∃ mask : List Bool, mask.length = desired.length ∧
      (Difference visit current desired).1
        = ((desired.zip mask).filter (fun e => !e.2)).map Prod.fst ∧
      (Difference visit current desired).2.2
        = ((desired.zip mask).filter (fun e => e.2)).map Prod.fst) ∧
    (Difference visit current desired).1.length + (Difference visit current desired).2.2.length
      = desired.length ∧
    (Difference visit current desired).2.1.Nodup ∧
    (∀ x, x ∈ (Difference visit current desired).2.1 ↔ x ∈ current ∧ x ∉ desired) := by
  have hmem : ∀ x, x ∈ current.foldl Difference.insert [] ↔ x ∈ current := by
    intro x
    rw [difference_index_mem]
    simp
  have hnd := difference_index_nodup current [] List.nodup_nil
  have h3 := difference_loop_index desired [] [] (current.foldl Difference.insert [])
  obtain ⟨mask, hm, h1, h2⟩ :=
    difference_loop_mask desired [] [] (current.foldl Difference.insert [])
  have e1 : (Difference visit current desired).1 =
      (Difference.loop desired [] [] (current.foldl Difference.insert [])).1 := rfl
  have e2 : (Difference visit current desired).2.2 =
      (Difference.loop desired [] [] (current.foldl Difference.insert [])).2.1 := rfl
  have e3 : (Difference visit current desired).2.1 =
      visit (Difference.loop desired [] [] (current.foldl Difference.insert [])).2.2 := rfl
  rw [List.nil_append] at h1 h2
  refine ⟨⟨mask, hm, by rw [e1, h1], by rw [e2, h2]⟩, ?_, ?_, ?_⟩
  · rw [e1, e2, h1, h2]
    exact mask_length desired mask hm
  · rw [e3, (hv _).nodup_iff, h3]
    exact hnd.filter _
  · intro x
    rw [e3, (hv _).mem_iff, h3, List.mem_filter, hmem]
    simp

/-- C39, an example with repeated entries: `current = [a, b, b]`, `desired = [a, a, c]`.
The first `a` is left, the second `a` and `c` are added, and `b` is removed once. -/
theorem difference_partition_witness :
    (∀ l : List Str, (id l).Perm l) ∧
    Difference id [str "a", str "b", str "b"] [str "a", str "a", str "c"]
      = ([str "a", str "c"], [str "b"], [str "a"]) ∧
    (Difference id [str "a", str "b", str "b"] [str "a", str "a", str "c"]).1.length
      + (Difference id [str "a", str "b", str "b"] [str "a", str "a", str "c"]).2.2.length
      = [str "a", str "a", str "c"].length :=
  ⟨fun l => List.Perm.refl l, by decide,
   (difference_partition id (fun l => List.Perm.refl l) [str "a", str "b", str "b"]
      [str "a", str "a", str "c"]).2.1⟩

/-! ## Changes by zone, and the pages of zones -/

/-- C31, as amended: for every zone list and change list, and every order in which
`FindZone` visits the map of the zones, the keys of the map that `changesByZone` returns
are exactly the zone IDs, each once.  The list of a non-empty zone ID holds the changes for
whose record name `FindZone` returns this ID, each once by its position, in the order of
the change list; the list of the empty zone ID is empty, so a change for which `FindZone`
returns the empty ID (no zone name suits, or the zone selected has the empty ID) is in no
list.  When the zone IDs are pairwise distinct and none is empty, `FindZone` returns a
non-empty ID exactly for the record names that some zone name suits. -/
theorem changesByZone_lists (visitZones : Nat → ZoneIDName → ZoneIDName)
    (hv : ∀ i m, (visitZones i m).Perm m) (zones : List Zone)
    (changeSet : List cloudFlareChange) :
    ((changesByZone visitZones zones changeSet).map Prod.fst).Nodup ∧
    (∀ k, k ∈ (changesByZone visitZones zones changeSet).map Prod.fst ↔
      k ∈ zones.map Zone.ID) ∧
    (∀ k, (changesByZone visitZones zones changeSet).index k [] =
      if k = str "" then []
      else (changeSet.enum.filter (fun ic =>
        decide ((ZoneIDName.FindZone (visitZones ic.1 (changesByZone.init zones).2)
          ic.2.ResourceRecord.Name).1 = k))).map Prod.snd) ∧
    ((zones.map Zone.ID).Nodup → str "" ∉ zones.map Zone.ID →
      ∀ i hostname,
        (ZoneIDName.FindZone (visitZones i (changesByZone.init zones).2) hostname).1 ≠ str "" ↔
          ∃ z ∈ zones, Suits hostname z.Name) := by
  obtain ⟨k1, k2, k3, k4⟩ := changesByZone_init_keys zones
  have hsel : ∀ j hostname,
      (ZoneIDName.FindZone (visitZones j (changesByZone.init zones).2) hostname).1 = [] ∨
      (ZoneIDName.FindZone (visitZones j (changesByZone.init zones).2) hostname).1
        ∈ (changesByZone.init zones).1.map Prod.fst := by
    intro j hostname
    rcases findZone_id_mem (visitZones j (changesByZone.init zones).2) hostname with h | h
    · exact Or.inl h
    · right
      rw [k1]
      exact ((hv j _).map Prod.fst).mem_iff.mp h
  obtain ⟨l1, l2⟩ := changesByZone_loop_index visitZones (changesByZone.init zones).2
    changeSet 0 (changesByZone.init zones).1 hsel
  refine ⟨?_, ?_, ?_, ?_⟩
  · unfold changesByZone
    rw [l1]; exact k2
  · intro k
    unfold changesByZone
    rw [l1]; exact k3 k
  · intro k
    unfold changesByZone
    rw [l2 k, k4 k, List.nil_append]
    rfl
  · intro hnd hne i hostname
    have hm : (changesByZone.init zones).2 = zones.map (fun z => (z.ID, z.Name)) := by
      have := changesByZone_init_mapper zones [] [] hnd (by intro k _; simp)
      simpa [changesByZone.init] using this
    have hmem : ∀ s : Str × Str, s ∈ visitZones i (changesByZone.init zones).2 ↔
        ∃ z ∈ zones, (z.ID, z.Name) = s := by
      intro s
      rw [(hv i _).mem_iff, hm, List.mem_map]
    rcases FindZone.inv (visitZones i (changesByZone.init zones).2) hostname with
      ⟨h1, h2⟩ | ⟨h1, h2, _⟩
    · constructor
      · intro h; rw [h1] at h; exact absurd rfl h
      · rintro ⟨z, hz, hs⟩
        exact absurd hs (h2 (z.ID, z.Name) ((hmem _).mpr ⟨z, hz, rfl⟩))
    · obtain ⟨z, hz, hzs⟩ := (hmem _).mp h1
      constructor
      · intro _
        exact ⟨z, hz, by rw [← hzs] at h2; exact h2⟩
      · intro _ h
        apply hne
        rw [← h, ← hzs]
        exact List.mem_map_of_mem Zone.ID hz

/-- C31, an example: the zones `example.com` and `a.example.com`; the changes for
`x.a.example.com` and `w.a.example.com` go to the second zone, the change for
`y.example.com` to the first, the change for `z.example.org` to none. -/
theorem changesByZone_lists_witness :
    (∀ (i : Nat) (m : ZoneIDName), ((fun _ => id : Nat → ZoneIDName → ZoneIDName) i m).Perm m) ∧
    changesByZone (fun _ => id)
        [{ ID := str "z1", Name := str "example.com" },
         { ID := str "z2", Name := str "a.example.com" }]
        [{ Action := cloudFlareCreate,
           ResourceRecord := exampleRecord (str "x.a.example.com") (str "A") (str "10.0.0.1") },
         { Action := cloudFlareCreate,
           ResourceRecord := exampleRecord (str "y.example.com") (str "A") (str "10.0.0.2") },
         { Action := cloudFlareCreate,
           ResourceRecord := exampleRecord (str "z.example.org") (str "A") (str "10.0.0.3") },
         { Action := cloudFlareDelete,
           ResourceRecord := exampleRecord (str "w.a.example.com") (str "A") (str "10.0.0.4") }]
      = [(str "z1",
          [{ Action := cloudFlareCreate,
             ResourceRecord := exampleRecord (str "y.example.com") (str "A") (str "10.0.0.2") }]),
         (str "z2",
          [{ Action := cloudFlareCreate,
             ResourceRecord := exampleRecord (str "x.a.example.com") (str "A") (str "10.0.0.1") },
           { Action := cloudFlareDelete,
             ResourceRecord :=
               exampleRecord (str "w.a.example.com") (str "A") (str "10.0.0.4") }])] ∧
    ((changesByZone (fun _ => id)
        [{ ID := str "z1", Name := str "example.com" },
         { ID := str "z2", Name := str "a.example.com" }]
        [{ Action := cloudFlareCreate,
           ResourceRecord :=
             exampleRecord (str "x.a.example.com") (str "A") (str "10.0.0.1") }]).map
        Prod.fst).Nodup :=
  ⟨fun _ m => List.Perm.refl m, by decide,
   (changesByZone_lists (fun _ => id) (fun _ m => List.Perm.refl m)
      [{ ID := str "z1", Name := str "example.com" },
       { ID := str "z2", Name := str "a.example.com" }]
      [{ Action := cloudFlareCreate,
         ResourceRecord :=
           exampleRecord (str "x.a.example.com") (str "A") (str "10.0.0.1") }]).1⟩

/-- C31, as stated, fails for a zone with the empty ID: the name `a.example.com` suits the
zone `example.com`, `FindZone` selects this zone and returns its ID, the empty string, and
`changesByZone` skips the change: it is in no list. -/
theorem changesByZone_lists_counterexample :
    changesByZone (fun _ => id) [{ ID := str "", Name := str "example.com" }]
        [{ Action := cloudFlareCreate,
           ResourceRecord := exampleRecord (str "a.example.com") (str "A") (str "10.0.0.1") }]
      = [(str "", [])] ∧
    ZoneIDName.FindZone [(str "", str "example.com")] (str "a.example.com")
      = (str "", str "example.com") ∧
    strings.HasSuffix (str "a.example.com") (str "." ++ str "example.com") = true := by
  decide

/-- C36, at the failing input and beside it, for a provider without zone-ID filter.
(1) Against an API that reports the page count 0, `Zones` does not return within `fuel`
rounds, for every `fuel` below `2^63`: it requests the pages 1, 2, ..., `fuel`, since the
page, at least 1, never equals the count.  (2) Against an API that answers the request for
the page `i` with `page i` and reports the page count `n ≥ 1`, `Zones` returns after the
requests for the pages 1 to `n`, with the zones listed whose name passes the domain filter,
in page order. -/
theorem zones_pages_requests {World : Type} (p : CloudFlareProvider World)
    (hfilter : ¬ (p.zoneIDFilter.ZoneIDs.length > 0 ∧ p.zoneIDFilter.ZoneIDs.getD 0 [] ≠ str ""))
    (fuel : Nat) (st : ProviderState World) :
    ((∀ opts w, ∃ resp,
        (p.Client.ListZonesContext opts w).1 = .ok resp ∧ resp.TotalPages = 0) →
      fuel < 2 ^ 63 →
      (Zones p fuel st).1 = none ∧
      (Zones p fuel st).2.calls = st.calls ++ (List.range fuel).map (fun (i : Nat) =>
        Call.ListZonesContext { Page := 1 + (i : Int), PerPage := p.PerPage })) ∧
    (∀ (page : Int → ZonesResponse) (n : Nat), 1 ≤ n → n ≤ fuel →
      (∀ opts w, (p.Client.ListZonesContext opts w).1 = .ok (page opts.Page)) →
      (∀ i, (page i).TotalPages = (n : Int)) →
      (Zones p fuel st).1 = some (.ok ((List.range n).flatMap (fun (i : Nat) =>
        (page (1 + (i : Int))).Result.filter (fun zone => p.domainFilter zone.Name)))) ∧
      (Zones p fuel st).2.calls = st.calls ++ (List.range n).map (fun (i : Nat) =>
        Call.ListZonesContext { Page := 1 + (i : Int), PerPage := p.PerPage })) := by
  unfold Zones
  rw [if_neg hfilter]
  refine ⟨?_, ?_⟩
  · intro hzero _
    exact zones_pages_zero p hzero fuel [] { st with Page := 1 } (le_refl _)
  · intro page n hn hfuel hresp htotal
    obtain ⟨m, rfl⟩ : ∃ m, n = m + 1 := ⟨n - 1, by omega⟩
    have := zones_pages_total p page ((m + 1 : Nat) : Int) hresp htotal m fuel []
      { st with Page := 1 } (by show (1 : Int) + (m : Int) = ((m + 1 : Nat) : Int); push_cast; ring)
      hfuel
    simpa using this

/-- C36, an example: a provider whose API lists no zone and reports the page count 0.
After five rounds `Zones` has not returned and has requested the pages 1 to 5. -/
theorem zones_pages_requests_witness :
    ¬ (exampleEmptyProvider.zoneIDFilter.ZoneIDs.length > 0 ∧
      exampleEmptyProvider.zoneIDFilter.ZoneIDs.getD 0 [] ≠ str "") ∧
    Zones exampleEmptyProvider 5 { world := (), Page := 1, calls := [] }
      = (none,
         { world := (), Page := 6,
           calls := [Call.ListZonesContext { Page := 1, PerPage := 50 },
                     Call.ListZonesContext { Page := 2, PerPage := 50 },
                     Call.ListZonesContext { Page := 3, PerPage := 50 },
                     Call.ListZonesContext { Page := 4, PerPage := 50 },
                     Call.ListZonesContext { Page := 5, PerPage := 50 }] }) ∧
    (Zones exampleEmptyProvider 5 { world := (), Page := 1, calls := [] }).1 = none :=
  ⟨by decide, by rfl,
   ((zones_pages_requests exampleEmptyProvider (by decide) 5
      { world := (), Page := 1, calls := [] }).1
      (fun _ _ => ⟨_, rfl, rfl⟩) (by norm_num)).1⟩

end Dops
